import Mathlib

/-!
# BloomBooks parse-server cloud code: the `books` save hook

A shallow embedding of `Parse.Cloud.beforeSave("books", ...)` from
`src/cloud/main.js`, together with the JavaScript string primitives and the
Parse SDK array operations that the hook calls.

Columns are typed as the schema in `setupTables` declares them: `String`
columns are `Option String` (`none` is JavaScript `undefined`), `Array`
columns are `Option (List String)`.

The hook lowercases with `String.prototype.toLowerCase`. The embedding takes that
function as the parameter `toLowerCase`, so what is proved of the hook holds for
every lowercasing; the sample requests, whose strings are ASCII, are evaluated with
`asciiLowerCase`.
-/

set_option autoImplicit false

namespace BloomParse

deriving instance DecidableEq for Except

/-! ## JavaScript string primitives -/

/-- JavaScript `s.startsWith(p)`. -/
def startsWith (s p : String) : Bool :=
  p.data.isPrefixOf s.data

/-- Worker of `indexOf`: the index of the first occurrence of `pat` in the list, counting from `i`. -/
def indexOfAux (pat : List Char) : List Char → Nat → Int
  | [], i => if pat.isEmpty then (i : Int) else -1
  | c :: cs, i => if pat.isPrefixOf (c :: cs) then (i : Int) else indexOfAux pat cs (i + 1)

/-- JavaScript `s.indexOf(pat)`: index of the first occurrence of `pat`, or `-1`. -/
def indexOf (s pat : String) : Int :=
  indexOfAux pat.data s.data 0

/-- JavaScript `s.substr(start)` (a negative `start` counts from the end). -/
def substr (s : String) (start : Int) : String :=
  if start < 0 then String.mk (s.data.drop (s.data.length - start.natAbs))
  else String.mk (s.data.drop start.toNat)

/-- Worker of `replace`: replaces the first occurrence of `pat` by `rep`. -/
def replaceAux (pat rep : List Char) : List Char → List Char
  | [] => if pat.isEmpty then rep else []
  | c :: cs =>
    if pat.isPrefixOf (c :: cs) then rep ++ (c :: cs).drop pat.length
    else c :: replaceAux pat rep cs

/-- JavaScript `s.replace(pat, rep)` for a string pattern: only the first occurrence is replaced. -/
def replace (s pat rep : String) : String :=
  String.mk (replaceAux pat.data rep.data s.data)

/-- Lowercasing of the ASCII letters `A` to `Z`, every other character kept: what
JavaScript `s.toLowerCase()` returns for a string of ASCII characters. The hook takes the
lowercasing as a parameter; this one evaluates it on the sample requests, whose strings are
ASCII. -/
def asciiLowerCase (s : String) : String :=
  String.mk (s.data.map Char.toLower)

/-- JavaScript `s.split(",")`. -/
def split (s : String) (sep : Char) : List String :=
  (s.data.splitOn sep).map String.mk

/-- JavaScript truthiness of a `String` column: defined and not the empty string. -/
def truthy : Option String → Bool
  | none => false
  | some s => !s.data.isEmpty

/-! ## Parse SDK array operations -/

/-- The `unique` helper of the Parse SDK: keeps the first occurrence of every element. -/
def unique (xs : List String) : List String :=
  xs.foldl (fun uniques value => if uniques.contains value then uniques else uniques ++ [value]) []

/-- The effect of `object.addAllUnique(column, items)` on the column's value: the items
not yet in the array are appended; an absent column becomes the (deduplicated) items. -/
def addAllUnique (value : Option (List String)) (items : List String) : List String :=
  match value with
  | none => unique items
  | some v => v ++ (unique items).filter (fun x => !v.contains x)

/-- The effect of `object.addUnique(column, item)` on the column's value. -/
def addUnique (value : Option (List String)) (item : String) : List String :=
  addAllUnique value [item]

/-! ## Data model -/

/-- A `Parse.ACL`: public flags and the users and roles granted each access. -/
structure ACL where
  publicRead : Bool
  publicWrite : Bool
  readUsers : List String
  writeUsers : List String
  readRoles : List String
  writeRoles : List String
  deriving DecidableEq, Repr

/-- The ACL made by `new Parse.ACL()`: nobody has access. -/
def ACL.empty : ACL :=
  { publicRead := false, publicWrite := false, readUsers := [], writeUsers := [],
    readRoles := [], writeRoles := [] }

/-- A `books` object as the hook sees it: what `isNew()` and `dirtyKeys()` answer, and the
columns the hook reads or writes. -/
structure Book where
  isNew : Bool
  dirtyKeys : List String
  updateSource : Option String
  lastUploaded : Option String
  harvestState : Option String
  title : Option String
  summary : Option String
  librarianNote : Option String
  publisher : Option String
  originalPublisher : Option String
  tags : Option (List String)
  bookshelves : Option (List String)
  search : Option String
  bookLineage : Option String
  bookLineageArray : Option (List String)
  acl : Option ACL
  deriving DecidableEq, Repr

/-- The request headers the hook looks at. -/
structure Headers where
  userAgent : Option String
  referer : Option String
  deriving DecidableEq, Repr

/-- A `beforeSave` request: the incoming object, the persisted original (absent for a new
record), the headers, the logged-in user and the clock reading of `new Date().toISOString()`. -/
structure Request where
  object : Book
  original : Option Book
  headers : Headers
  user : Option String
  now : String
  deriving DecidableEq, Repr

/-- Reads a `String` column by name, as `book.get(columnName)`. -/
def Book.get (book : Book) (columnName : String) : Option String :=
  if columnName = "summary" then book.summary
  else if columnName = "librarianNote" then book.librarianNote
  else if columnName = "publisher" then book.publisher
  else if columnName = "originalPublisher" then book.originalPublisher
  else if columnName = "title" then book.title
  else if columnName = "updateSource" then book.updateSource
  else if columnName = "harvestState" then book.harvestState
  else if columnName = "search" then book.search
  else if columnName = "bookLineage" then book.bookLineage
  else none

/-- Writes a `String` column by name, as `book.set(columnName, value)`. -/
def Book.set (book : Book) (columnName : String) (value : Option String) : Book :=
  if columnName = "summary" then { book with summary := value }
  else if columnName = "librarianNote" then { book with librarianNote := value }
  else if columnName = "publisher" then { book with publisher := value }
  else if columnName = "originalPublisher" then { book with originalPublisher := value }
  else if columnName = "title" then { book with title := value }
  else if columnName = "updateSource" then { book with updateSource := value }
  else if columnName = "harvestState" then { book with harvestState := value }
  else if columnName = "search" then { book with search := value }
  else if columnName = "bookLineage" then { book with bookLineage := value }
  else book

/-! ## The `books` beforeSave hook -/

/-- Lines 157-185: the update source the hook works with, and the object after
`updateSource` (and `lastUploaded`) have been set. A caller-supplied `updateSource`
(one among the dirty keys) is taken as it is. -/
def resolveUpdateSource (request : Request) : Option String × Book :=
  let book := request.object
  if !book.dirtyKeys.contains "updateSource" then
    if truthy request.headers.userAgent &&
        startsWith (request.headers.userAgent.getD "") "RestSharp" then
      (some "BloomDesktop old",
        { book with lastUploaded := some request.now, updateSource := some "BloomDesktop old" })
    else if truthy request.headers.referer &&
        decide (indexOf (request.headers.referer.getD "") "dashboard/apps/BloomLibrary.org" > -1) then
      (some "parse dashboard", { book with updateSource := some "parse dashboard" })
    else
      (some "unknown", { book with updateSource := some "unknown" })
  else
    (book.updateSource, book)

/-- The columns of line 200. -/
def scalarColumnsWithFallback : List String :=
  ["summary", "librarianNote", "publisher", "originalPublisher"]

/-- Lines 206-212: a falsy incoming value of a protected column is replaced by a truthy
original value. -/
def scalarFallback (original : Book) (book : Book) : Book :=
  scalarColumnsWithFallback.foldl
    (fun book columnName =>
      let newValue := book.get columnName
      let originalValue := original.get columnName
      if !truthy newValue && truthy originalValue then book.set columnName originalValue
      else book)
    book

/-- Lines 218-224: the original tags are united into the incoming tags. -/
def arrayUnion (original : Book) (book : Book) : Book :=
  match original.tags with
  | some originalArrayValue =>
    if originalArrayValue.length ≥ 1 then
      { book with tags := some (addAllUnique book.tags originalArrayValue) }
    else book
  | none => book

/-- Lines 187-233: what the hook does for a write that came from BloomDesktop. -/
def desktopPhase (newUpdateSource : String) (original : Option Book) (book : Book) : Book :=
  if startsWith newUpdateSource "BloomDesktop" then
    let book := { book with tags := some (addUnique book.tags "system:Incoming") }
    let book :=
      if book.isNew then { book with harvestState := some "New" }
      else { book with harvestState := some "Updated" }
    match original with
    | some original => arrayUnion original (scalarFallback original book)
    | none => book
  else book

/-- The variables the tag loop of lines 250-293 updates. -/
structure LoopState where
  bookshelves : Option (List String)
  tagsOutput : List String
  search : String
  deriving DecidableEq, Repr

/-- Lines 252-258: a tag without a colon gets the prefix `topic:`. -/
def withTopic (tagName : String) : String :=
  if indexOf tagName ":" < 0 then "topic:" ++ tagName else tagName

/-- Lines 252-258: the index of the colon that separates prefix and value. -/
def colonIndex (tagName : String) : Int :=
  if indexOf tagName ":" < 0 then ("topic:".length : Int) - 1 else indexOf tagName ":"

/-- Line 261: the test `tagName.indexOf("bookshelf") === 0`. -/
def isBookshelfTag (tagName : String) : Bool :=
  decide (indexOf tagName "bookshelf" = 0)

/-- Lines 251-292: one round of the tag loop. `toLowerCase` is the JavaScript method
`String.prototype.toLowerCase`. -/
def loopBody (toLowerCase : String → String) (newUpdateSource : String) (st : LoopState)
    (tag : String) : LoopState :=
  let tagName := withTopic tag
  let indexOfColon := colonIndex tag
  let st :=
    if isBookshelfTag tagName then
      let newshelf := replace tagName "bookshelf:" ""
      if startsWith newUpdateSource "BloomDesktop" then
        { st with bookshelves := some [newshelf] }
      else
        { st with bookshelves := some (addUnique st.bookshelves newshelf) }
    else
      { st with tagsOutput := st.tagsOutput ++ [tagName] }
  if startsWith tagName "system:" then st
  else
    let tagNameForSearch := substr tagName (indexOfColon + 1)
    { st with search := st.search ++ " " ++ toLowerCase tagNameForSearch }

/-- Lines 245-294: the tag loop, from the title and the tags the object has at line 245. -/
def tagLoop (toLowerCase : String → String) (newUpdateSource : String) (book : Book) :
    LoopState :=
  let search := toLowerCase (book.title.getD "")
  let init : LoopState := { bookshelves := book.bookshelves, tagsOutput := [], search := search }
  match book.tags with
  | some tagsIncoming => tagsIncoming.foldl (loopBody toLowerCase newUpdateSource) init
  | none => init

/-- Lines 298-304: the lineage array. -/
def lineageArray (bookLineage : Option String) : Option (List String) :=
  if truthy bookLineage then some (split (bookLineage.getD "") ',') else none

/-- Lines 306-317: the ACL of a record created by a logged-in user. -/
def newACL (creator : String) : ACL :=
  let acl := ACL.empty
  let acl := { acl with publicRead := true }
  let acl := { acl with writeRoles := acl.writeRoles ++ ["moderator"] }
  { acl with writeUsers := acl.writeUsers ++ [creator] }

/-- Lines 245-317: everything after the desktop branch. -/
def normalize (toLowerCase : String → String) (newUpdateSource : String)
    (user : Option String) (book : Book) : Book :=
  let st := tagLoop toLowerCase newUpdateSource book
  let book := { book with bookshelves := st.bookshelves }
  let book := { book with tags := some st.tagsOutput }
  let book := { book with search := some st.search }
  let book := { book with bookLineageArray := lineageArray book.bookLineage }
  match user with
  | some creator => if book.isNew then { book with acl := some (newACL creator) } else book
  | none => book

/-- The object at line 245, after the update source was resolved and the desktop branch ran. -/
def prepared (newUpdateSource : String) (request : Request) : Book :=
  desktopPhase newUpdateSource request.original (resolveUpdateSource request).2

/-- The hook `Parse.Cloud.beforeSave("books", ...)`: the object that is saved, or the
`TypeError` of line 187 when a caller-supplied `updateSource` is not a string.
`toLowerCase` is the JavaScript method `String.prototype.toLowerCase`, which the hook
calls at lines 246 and 292. -/
def beforeSave (toLowerCase : String → String) (request : Request) : Except String Book :=
  match (resolveUpdateSource request).1 with
  | none => Except.error "TypeError: Cannot read properties of undefined (reading startsWith)"
  | some newUpdateSource =>
    Except.ok
      (normalize toLowerCase newUpdateSource request.user (prepared newUpdateSource request))

/-! ## Stored records and queries -/

/-- A stored `books` record, with the columns the job and the listing read. The pointers of
`langPointers` are given by the ids of the language records they point to. -/
structure Record where
  id : String
  title : Option String
  tags : Option (List String)
  license : Option String
  inCirculation : Option Bool
  langPointers : Option (List String)
  deriving DecidableEq, Repr

/-- A stored `language` record. -/
structure Language where
  id : String
  isoCode : Option String
  usageCount : Option Nat
  deriving DecidableEq, Repr

/-- The constraints of a `Parse.Query` on `books`, as far as the cloud code builds them. -/
inductive Constraints where
  | all : Constraints
  | tagsEqualTo (tag : String) : Constraints
  | inCirculationIn (values : List (Option Bool)) : Constraints
  | licenseStartsWith (start : String) : Constraints
  | and (a b : Constraints) : Constraints
  | or (a b : Constraints) : Constraints
  deriving DecidableEq, Repr

/-- A `Parse.Query`: class, constraints, and the settings made on it. -/
structure Query where
  className : String
  constraints : Constraints
  select : List String
  includes : List String
  ascending : Option String
  skip : Nat
  limit : Option Nat
  deriving DecidableEq, Repr

/-- The query made by `new Parse.Query(className)`. -/
def Query.new (className : String) : Query :=
  { className := className, constraints := Constraints.all, select := [], includes := [],
    ascending := none, skip := 0, limit := none }

/-- Adds a constraint to a query, as `equalTo`, `containedIn` and `startsWith` do. -/
def Query.constrain (query : Query) (c : Constraints) : Query :=
  { query with constraints := Constraints.and query.constraints c }

/-- Whether a stored record satisfies the constraints. `equalTo` on the array column `tags`
holds when the array contains the value; an absent `inCirculation` is matched by
`undefined` in the list of `containedIn`. -/
def Constraints.holds : Constraints → Record → Bool
  | Constraints.all, _ => true
  | Constraints.tagsEqualTo tag, r => (r.tags.getD []).contains tag
  | Constraints.inCirculationIn values, r => values.contains r.inCirculation
  | Constraints.licenseStartsWith start, r =>
    match r.license with
    | some license => startsWith license start
    | none => false
  | Constraints.and a b, r => a.holds r && b.holds r
  | Constraints.or a b, r => a.holds r || b.holds r

/-! ## The `updateLanguageRecords` job -/

/-- The object `langCounts`: the count kept for a language id, if any. Its keys are object
ids of the store, none of which names a property that a JavaScript object inherits. -/
abbrev LangCounts := String → Option Nat

/-- Lines 65-69: one pointer is counted. -/
def countPointer (langCounts : LangCounts) (id : String) : LangCounts :=
  let langCounts : LangCounts :=
    if (langCounts id).isNone then (fun k => if k = id then some 0 else langCounts k)
    else langCounts
  fun k => if k = id then some ((langCounts id).getD 0 + 1) else langCounts k

/-- Lines 62-71: the pointers of one book are counted. -/
def countBook (langCounts : LangCounts) (book : Record) : LangCounts :=
  match book.langPointers with
  | some langPtrs => langPtrs.foldl countPointer langCounts
  | none => langCounts

/-- Lines 60-72: the pointers of all fetched books are counted. -/
def countBooks (books : List Record) : LangCounts :=
  books.foldl countBook (fun _ => none)

/-- Line 80: `langCounts[language.id] || 0`. -/
def newUsageCount (langCounts : LangCounts) (language : Language) : Nat :=
  match langCounts language.id with
  | some n => if n = 0 then 0 else n
  | none => 0

/-- Lines 79-85: every fetched language gets its new usage count; those with the count 0
are collected in `languagesToDelete`. The result is the pair of the updated languages and
`languagesToDelete`. -/
def setUsageCounts (langCounts : LangCounts) (languagesToUpdate : List Language) :
    List Language × List Language :=
  languagesToUpdate.foldl
    (fun acc language =>
      let newUsageCount := newUsageCount langCounts language
      let language := { language with usageCount := some newUsageCount }
      if newUsageCount = 0 then (acc.1 ++ [language], acc.2 ++ [language])
      else (acc.1 ++ [language], acc.2))
    ([], [])

/-- The store as the job uses it: the two fetches (`none` when the fetch fails) and whether
the bulk save and the bulk delete of the given records succeed. -/
structure JobStore where
  findBooks : Query → Option (List Record)
  findLanguages : Query → Option (List Language)
  saveAll : List Language → Bool
  destroyAll : List Language → Bool

/-- What a run of the job did: the queries it issued, in order; the records it passed to
`saveAll` and to `destroyAll`, if it called them; and whether it ended with `res.success`. -/
structure JobRun where
  finds : List Query
  saved : Option (List Language)
  destroyed : Option (List Language)
  succeeded : Bool
  deriving DecidableEq, Repr

/-- Lines 53-56: the book query of the job. -/
def bookQuery : Query :=
  let bookQuery := Query.new "books"
  let bookQuery := { bookQuery with limit := some 1000000 }
  let bookQuery := bookQuery.constrain (Constraints.inCirculationIn [some true, none])
  { bookQuery with select := ["langPointers"] }

/-- Lines 74-75: the language query of the job. -/
def langQuery : Query :=
  let langQuery := Query.new "language"
  { langQuery with limit := some 1000000 }

/-- The job `updateLanguageRecords` (lines 46-143). -/
def updateLanguageRecords (store : JobStore) : JobRun :=
  match store.findBooks bookQuery with
  | none => { finds := [bookQuery], saved := none, destroyed := none, succeeded := false }
  | some books =>
    let langCounts := countBooks books
    match store.findLanguages langQuery with
    | none =>
      { finds := [bookQuery, langQuery], saved := none, destroyed := none, succeeded := false }
    | some languagesToUpdate =>
      let updated := (setUsageCounts langCounts languagesToUpdate).1
      let languagesToDelete := (setUsageCounts langCounts languagesToUpdate).2
      if store.saveAll updated then
        if languagesToDelete.length = 0 then
          { finds := [bookQuery, langQuery], saved := some updated, destroyed := none,
            succeeded := true }
        else
          { finds := [bookQuery, langQuery], saved := some updated,
            destroyed := some languagesToDelete,
            succeeded := store.destroyAll languagesToDelete }
      else
        { finds := [bookQuery, langQuery], saved := some updated, destroyed := none,
          succeeded := false }

/-- A store that holds `catalog` and `languages`, answers a fetch with the matching records
in stored order, and returns at most `cap` records per fetch, whatever limit the query asks
for (the limit of a query that sets none is 100). Saves and deletes succeed. -/
def cappedStore (cap : Nat) (catalog : List Record) (languages : List Language) : JobStore :=
  { findBooks := fun q =>
      some (((catalog.filter q.constraints.holds).drop q.skip).take (min cap (q.limit.getD 100))),
    findLanguages := fun q => some ((languages.drop q.skip).take (min cap (q.limit.getD 100))),
    saveAll := fun _ => true,
    destroyAll := fun _ => true }

/-- The number of `langPointers` entries, over all the books, that point to the language
`id`. -/
def referencesTo (books : List Record) (id : String) : Nat :=
  (books.map (fun book => (book.langPointers.getD []).count id)).sum

/-- The number of books whose `langPointers` point to the language `id`, each book counted
once. -/
def booksReferencing (books : List Record) (id : String) : Nat :=
  (books.filter (fun book => (book.langPointers.getD []).contains id)).length

/-- The language record `l` with its `usageCount` set to the number of references the
given books hold to it. -/
def withReferences (books : List Record) (l : Language) : Language :=
  { l with usageCount := some (referencesTo books l.id) }

/-! ## The `defaultBooks` listing -/

/-- A parameter value of a cloud function call, as far as `defaultBooks` tells values
apart: absent, `null`, a boolean or an integer number. -/
inductive Param where
  | undefined : Param
  | null : Param
  | bool (b : Bool) : Param
  | number (n : Int) : Param
  deriving DecidableEq, Repr

/-- JavaScript truthiness of a parameter value. -/
def Param.truthy : Param → Bool
  | Param.undefined => false
  | Param.null => false
  | Param.bool b => b
  | Param.number n => n != 0

/-- JavaScript `value == true`: the boolean is compared as the number 1. -/
def Param.looseEqualsTrue : Param → Bool
  | Param.undefined => false
  | Param.null => false
  | Param.bool b => b
  | Param.number n => n == 1

/-- The parameters of a `defaultBooks` request: the window, and the two flags as the caller
sent them. -/
structure Params where
  first : Nat
  count : Nat
  includeOutOfCirculation : Param
  allLicenses : Param
  deriving DecidableEq, Repr

/-- Line 473: `var allLicenses = request.params.allLicenses == true`. -/
def allLicenses (params : Params) : Bool :=
  params.allLicenses.looseEqualsTrue

/-- What the cloud function answers: `response.success(results)` or `response.error(...)`. -/
inductive Response where
  | success (results : List Record) : Response
  | error (message : String) : Response
  deriving DecidableEq, Repr

/-- Lines 479-492: the query is restricted to the licenses that start with `cc` and to the
books tagged `system:overlookClosedLicense`. `Parse.Query.and` makes a new query. -/
def restrictByLicense (query : Query) : Query :=
  let publicQuery := (Query.new "books").constrain (Constraints.licenseStartsWith "cc")
  let overlook :=
    (Query.new "books").constrain (Constraints.tagsEqualTo "system:overlookClosedLicense")
  let publicOrOverlook :=
    { Query.new "books" with
      constraints := Constraints.or publicQuery.constraints overlook.constraints }
  { Query.new "books" with
    constraints := Constraints.and publicOrOverlook.constraints query.constraints }

/-- Lines 494-504: the query for the books of the Featured shelf. -/
def featuredBooksQuery (params : Params) : Query :=
  let query := (Query.new "books").constrain (Constraints.tagsEqualTo "bookshelf:Featured")
  let query :=
    if params.includeOutOfCirculation.truthy then query
    else query.constrain (Constraints.inCirculationIn [some true, none])
  let query := if allLicenses params then query else restrictByLicense query
  { query with includes := ["langPointers", "uploader"], ascending := some "title",
               limit := some 1000000 }

/-- Lines 521-534: the query for all books, from the offset `skip`. -/
def allBooksQuery (params : Params) (skip : Nat) : Query :=
  let query := Query.new "books"
  let query :=
    if params.includeOutOfCirculation.truthy then query
    else query.constrain (Constraints.inCirculationIn [some true, none])
  let query := if allLicenses params then query else restrictByLicense query
  { query with includes := ["langPointers", "uploader"], ascending := some "title",
               skip := skip }

/-- The variables `results`, `resultIndex` and `shelfIds` of `defaultBooks`. -/
structure ListState where
  results : List Record
  resultIndex : Nat
  shelfIds : List String
  deriving DecidableEq, Repr

/-- Lines 511-515: one round of the loop over the books of the shelf. -/
def shelfStep (params : Params) (st : ListState) (book : Record) : ListState :=
  let st :=
    if st.resultIndex ≥ params.first ∧ st.resultIndex < params.first + params.count then
      { st with results := st.results ++ [book] }
    else st
  { st with resultIndex := st.resultIndex + 1, shelfIds := st.shelfIds ++ [book.id] }

/-- Lines 542-553: the loop over one fetched page; it stops as soon as `resultIndex` reaches
`first + count`. -/
def pageLoop (params : Params) : List Record → ListState → ListState
  | [], st => st
  | book :: rest, st =>
    if st.resultIndex < params.first + params.count then
      if !st.shelfIds.contains book.id then
        let st :=
          if st.resultIndex ≥ params.first then { st with results := st.results ++ [book] }
          else st
        pageLoop params rest { st with resultIndex := st.resultIndex + 1 }
      else pageLoop params rest st
    else st

/-- Lines 520-568: the function `runQuery`, which calls itself until a page is empty or the
window is filled. `fuel` bounds the number of fetches; `none` means the bound was reached. -/
def runQuery (find : Query → Option (List Record)) (params : Params) :
    Nat → Nat → ListState → Option Response
  | 0, _, _ => none
  | fuel + 1, skip, st =>
    match find (allBooksQuery params skip) with
    | none => some (Response.error "failed to find all books")
    | some allBooks =>
      let skip := skip + allBooks.length
      let st := pageLoop params allBooks st
      if allBooks.length = 0 ∨ st.resultIndex ≥ params.first + params.count then
        some (Response.success st.results)
      else runQuery find params fuel skip st

/-- The cloud function `defaultBooks` (lines 468-575) over a store that answers a query
with the records found, or with `none` when the fetch fails. -/
def defaultBooks (find : Query → Option (List Record)) (params : Params) (fuel : Nat) :
    Option Response :=
  match find (featuredBooksQuery params) with
  | none => some (Response.error "failed to find books of featured shelf")
  | some shelfBooks =>
    let st := shelfBooks.foldl (shelfStep params)
      { results := [], resultIndex := 0, shelfIds := [] }
    runQuery find params fuel 0 st

/-- One fetch of `runQuery`: the offset asked for, the page returned (`none` when the fetch
failed) and the value of `resultIndex` once the page was processed. -/
structure Fetch where
  skip : Nat
  page : Option (List Record)
  resultIndex : Nat
  deriving DecidableEq, Repr

/-- The fetches that `runQuery` issues, in order: the same recursion as `runQuery`, keeping
a record of each `find` instead of the response. -/
def runQueryLog (find : Query → Option (List Record)) (params : Params) :
    Nat → Nat → ListState → List Fetch
  | 0, _, _ => []
  | fuel + 1, skip, st =>
    match find (allBooksQuery params skip) with
    | none => [{ skip := skip, page := none, resultIndex := st.resultIndex }]
    | some allBooks =>
      { skip := skip, page := some allBooks,
        resultIndex := (pageLoop params allBooks st).resultIndex } ::
        (if allBooks.length = 0 ∨
            (pageLoop params allBooks st).resultIndex ≥ params.first + params.count then []
         else runQueryLog find params fuel (skip + allBooks.length)
            (pageLoop params allBooks st))

/-- The remainder fetches that `defaultBooks` issues, in order (none when the fetch of the
shelf fails). -/
def remainderFetches (find : Query → Option (List Record)) (params : Params) (fuel : Nat) :
    List Fetch :=
  match find (featuredBooksQuery params) with
  | none => []
  | some shelfBooks =>
    runQueryLog find params fuel 0
      (shelfBooks.foldl (shelfStep params) { results := [], resultIndex := 0, shelfIds := [] })

/-- The license test of `restrictByLicense`: the license starts with `cc`, or the tags
contain `system:overlookClosedLicense`. -/
def licensed (r : Record) : Bool :=
  (match r.license with
    | some license => startsWith license "cc"
    | none => false) ||
  (r.tags.getD []).contains "system:overlookClosedLicense"

/-- A store for the listing: it holds `catalog` in the order of the titles, answers a query
with the matching records from the offset of the query on, and returns at most `cap`
records per fetch (the limit of a query that sets none is 100). -/
def catalogStore (cap : Nat) (catalog : List Record) : Query → Option (List Record) :=
  fun q =>
    some (((catalog.filter q.constraints.holds).drop q.skip).take (min cap (q.limit.getD 100)))

/-- The window of a list: `count` entries from the offset `first` on. -/
def window (first count : Nat) (l : List Record) : List Record :=
  (l.drop first).take count

/-- The merged sequence: the priority list followed by the records of the full list whose
id is not the id of a member of the priority list. -/
def merged (priority full : List Record) : List Record :=
  priority ++ full.filter (fun a => !(priority.map Record.id).contains a.id)

/-! ## The `afterSave` hook of the books -/

/-- A record of the class `tag` (schema lines 733-740). -/
structure TagRecord where
  name : Option String
  usageCount : Option Nat
  deriving DecidableEq, Repr

/-- The object of an `afterSave` request, a `Parse.Object` of the class `books`: its id, the
columns the hook reads with `get` and the columns a notification is meant to show. The
timestamps are in milliseconds, as `getTime()` returns them. -/
structure SavedBook where
  id : String
  tags : Option (List String)
  createdAt : Option Nat
  updatedAt : Option Nat
  title : Option String
  copyright : Option String
  license : Option String
  uploader : Option String
  deriving DecidableEq, Repr

/-- Lines 365-367: `query.equalTo("name", name); query.count(...)` over the records that the
count observes. -/
def countByName (records : List TagRecord) (name : String) : Nat :=
  (records.filter (fun t => t.name == some name)).length

/-- How the store serves the counts that `forEach` issues at once: `order` lists the
positions in `tags` in the order in which the counts are answered, and `sees i j` tells
whether the count for position `i` observes the `j`-th record created during this run (a
save is only issued by the callback of an earlier answer, and may or may not have reached
the store). -/
structure Schedule where
  order : List Nat
  sees : Nat → Nat → Bool

/-- The records created so far that a count observes; `j` is the position of the first
record of the list. -/
def observedFrom (sees : Nat → Bool) : Nat → List TagRecord → List TagRecord
  | _, [] => []
  | j, r :: rest =>
    if sees j then r :: observedFrom sees (j + 1) rest else observedFrom sees (j + 1) rest

/-- Lines 368-382: the `success` callback of the count for the tag at position `i`. The
count is taken over the table as it was, which nobody else writes to, and the records of
this run that the count observes; `tag.save` succeeds. -/
def countCallback (sched : Schedule) (table : List TagRecord) (tags : List String)
    (created : List TagRecord) (i : Nat) : List TagRecord :=
  match tags.get? i with
  | none => created
  | some name =>
    if countByName (table ++ observedFrom (sched.sees i) 0 created) name = 0 then
      created ++ [{ name := some name, usageCount := none }]
    else created

/-- Lines 364-389: the records that the loop over the tags creates. -/
def syncTags (sched : Schedule) (table : List TagRecord) (tags : List String) :
    List TagRecord :=
  sched.order.foldl (countCallback sched table tags) []

/-- What one run of the hook does: the tag records it creates, the tag table afterwards and
the arguments of its calls of `sendBookSavedEmailAsync`. -/
structure AfterSaveRun where
  created : List TagRecord
  tagTable : List TagRecord
  emails : List SavedBook
  deriving DecidableEq, Repr

/-- The hook `afterSave("books")` (lines 321-432) on `request.object`, over the tag table
the store holds. `book.get("tags").forEach` throws when the column is absent. In the `try`
block `getTime()` throws on an absent timestamp and the `catch` only logs. -/
def afterSave (sched : Schedule) (table : List TagRecord) (book : SavedBook) :
    Except String AfterSaveRun :=
  match book.tags with
  | none => Except.error "TypeError: Cannot read property 'forEach' of undefined"
  | some tags =>
    let created := syncTags sched table tags
    let emails :=
      match book.createdAt, book.updatedAt with
      | some createdAt, some updatedAt =>
        let objectExisted := createdAt != updatedAt
        if !objectExisted then [book] else []
      | _, _ => []
    Except.ok { created := created, tagTable := table ++ created, emails := emails }

/-! ## The emails -/

/-- A JavaScript value as far as the emailer tells values apart: `undefined` (also the
value of a property that an object does not have), `null`, or a string. -/
inductive JsValue where
  | undefined : JsValue
  | null : JsValue
  | text (s : String) : JsValue
  deriving DecidableEq, Repr

/-- JavaScript truthiness of such a value: `undefined`, `null` and the empty string are
falsy. -/
def JsValue.truthy : JsValue → Bool
  | JsValue.undefined => false
  | JsValue.null => false
  | JsValue.text s => !s.data.isEmpty

/-- The string that `+` concatenates for a value. -/
def JsValue.toText : JsValue → String
  | JsValue.undefined => "undefined"
  | JsValue.null => "null"
  | JsValue.text s => s

/-- A book as the emailer reads it: the value of `book[property]`. -/
abbrev EmailBook := String → JsValue

/-- The properties of a `Parse.Object` as `object[name]` reads them: the object has the
properties `id` and `className`; its columns are kept in `attributes` and are read with
`get`, not as properties. -/
def SavedBook.property (book : SavedBook) : EmailBook :=
  fun name =>
    if name = "id" then JsValue.text book.id
    else if name = "className" then JsValue.text "books"
    else JsValue.undefined

/-- The environment variables the emailer reads. -/
structure Env where
  SENDGRID_API_KEY : Option String
  EMAIL_BOOK_EVENT_RECIPIENT : Option String
  EMAIL_REPORT_BOOK_RECIPIENT : Option String
  deriving DecidableEq, Repr

/-- How a promise is settled. -/
inductive Settled where
  | resolved (value : String) : Settled
  | rejected (reason : String) : Settled
  deriving DecidableEq, Repr

/-- A call of `resolve` or `reject`: it settles a pending promise and leaves a settled one
as it is. -/
def settle (promise : Option Settled) (outcome : Settled) : Option Settled :=
  match promise with
  | none => some outcome
  | some settled => some settled

/-- The test `value === undefined || value.length == 0` of lines 82 and 86. -/
def undefinedOrEmpty (value : Option String) : Bool :=
  match value with
  | none => true
  | some text => text.length == 0

/-- Lines 124-126: the address of the page of the book; an undefined `objectId` is
concatenated as the text `undefined`. -/
def getBookUrl (book : EmailBook) : String :=
  "http://www.bloomlibrary.org/browse/detail/" ++ (book "objectId").toText

/-- The request handed to `sendGridInstance.API`: the key, the address and the
substitutions of the personalization. -/
structure ApiRequest where
  apiKey : Option String
  toAddress : Option String
  substitutions : List (String × JsValue)
  deriving DecidableEq, Repr

/-- What one call of `sendEmailAboutBookAsync` does: how the promise it returns is settled
and the calls of `sendGridInstance.API` it makes. -/
structure EmailRun where
  settled : Option Settled
  apiCalls : List ApiRequest
  deriving DecidableEq, Repr

/-- Lines 78-122: `sendEmailAboutBookAsync`. `api` is the SendGrid service: it answers a
request with `none`, or with the response it reports an error with. The statements run in
the order of the source; neither guard returns. The SendGrid helpers do not throw. -/
def sendEmailAboutBookAsync (env : Env) (api : ApiRequest → Option String)
    (book : EmailBook) (toAddress : Option String) : EmailRun :=
  let promise : Option Settled := none
  let promise :=
    if undefinedOrEmpty env.SENDGRID_API_KEY then
      settle promise (Settled.resolved "SENDGRID_API_KEY environment variable not set")
    else promise
  let promise :=
    if undefinedOrEmpty toAddress then
      settle promise (Settled.resolved "toAddress variable not set (check environment variable)")
    else promise
  let substitutions :=
    (":url", JsValue.text (getBookUrl book)) ::
      ["title", "uploader", "copyright", "license"].map
        (fun property => (":" ++ property, book property))
  let request : ApiRequest :=
    { apiKey := env.SENDGRID_API_KEY, toAddress := toAddress, substitutions := substitutions }
  let promise :=
    match api request with
    | some response =>
      settle promise (Settled.rejected ("Sendgrid emptyRequest returned error: " ++ response))
    | none => settle promise (Settled.resolved "Success")
  { settled := promise, apiCalls := [request] }

/-- Lines 66-74: `sendBookSavedEmailAsync`. -/
def sendBookSavedEmailAsync (env : Env) (api : ApiRequest → Option String)
    (book : EmailBook) : EmailRun :=
  sendEmailAboutBookAsync env api book env.EMAIL_BOOK_EVENT_RECIPIENT

/-- The `uploader` of a fetched book, included with the query. -/
structure Uploader where
  username : JsValue
  deriving DecidableEq, Repr

/-- The value of `results[0]._toFullJSON()` as far as the emailer reads it: the four
columns, each absent (`undefined`), `null` or a string, and the uploader, `none` when the
property is absent or `null`. -/
structure FullJSON where
  objectId : JsValue
  title : JsValue
  copyright : JsValue
  license : JsValue
  uploader : Option Uploader
  deriving DecidableEq, Repr

/-- Lines 32-33: one property after `Object.assign(book, sourceBook)`: the placeholder the
target was created with, overwritten by the property of the source when the source has
it, whatever its value. -/
def assigned (placeholder : String) (source : JsValue) : JsValue :=
  match source with
  | JsValue.undefined => JsValue.text placeholder
  | value => value

/-- Lines 30-37: the book that `sendConcernEmail` hands to the emailer: the placeholders,
overwritten by the properties of the source book, and the name of the uploader. -/
def concernBook (sourceBook : FullJSON) : EmailBook :=
  fun name =>
    if name = "uploader" then
      match sourceBook.uploader with
      | none => JsValue.text "unknown uploader"
      | some uploader =>
        if uploader.username.truthy then uploader.username
        else JsValue.text "unknown uploader"
    else if name = "title" then assigned "unknown title" sourceBook.title
    else if name = "copyright" then assigned "unknown copyright" sourceBook.copyright
    else if name = "license" then assigned "unknown license" sourceBook.license
    else if name = "objectId" then assigned "unknownBookId" sourceBook.objectId
    else JsValue.undefined

/-- Lines 28-44: the `success` callback of `sendConcernEmail` for the book found. -/
def sendConcernEmail (env : Env) (api : ApiRequest → Option String) (sourceBook : FullJSON) :
    EmailRun :=
  sendEmailAboutBookAsync env api (concernBook sourceBook) env.EMAIL_REPORT_BOOK_RECIPIENT

/-! ## Descriptions of what the hook stores -/

/-- The tags the loop keeps from the tags it sees: each one with its `topic:` prefix
supplied, the bookshelf tags left out. -/
def keptTags (tags : List String) : List String :=
  (tags.map withTopic).filter (fun t => !isBookshelfTag t)

/-- What one tag seen by the loop adds to the search string. -/
def searchToken (toLowerCase : String → String) (tag : String) : String :=
  " " ++ toLowerCase (substr (withTopic tag) (colonIndex tag + 1))

/-- Concatenation of a list of strings. -/
def concat : List String → String
  | [] => ""
  | x :: xs => x ++ concat xs

/-- The tags seen by the loop that add to the search string: all but the system tags. -/
def searchedTags (tags : List String) : List String :=
  tags.filter (fun t => !startsWith (withTopic t) "system:")

/-- JavaScript `s.includes(pat)`: `pat` occurs in `s`. -/
def includes (s pat : String) : Bool :=
  decide (indexOf s pat > -1)

/-- The search string in the words of the specification: the lowercased title followed, for
each stored tag that does not start with `system:`, by a space and the lowercased text after
the tag's first colon. -/
def specSearch (toLowerCase : String → String) (title : Option String)
    (storedTags : List String) : String :=
  toLowerCase (title.getD "") ++
    concat ((storedTags.filter (fun t => !startsWith t "system:")).map
      (fun t => " " ++ toLowerCase (substr t (indexOf t ":" + 1))))

/-- JavaScript `xs.join(sep)`. -/
def join (xs : List String) (sep : String) : String :=
  String.mk (sep.data.intercalate (xs.map String.data))

/-! ## Sample data -/

/-- A book with no column set. -/
def emptyBook : Book :=
  { isNew := true, dirtyKeys := [], updateSource := none, lastUploaded := none,
    harvestState := none, title := none, summary := none, librarianNote := none,
    publisher := none, originalPublisher := none, tags := none, bookshelves := none,
    search := none, bookLineage := none, bookLineageArray := none, acl := none }

/-- A request with no original, no headers and no user. -/
def requestOf (book : Book) : Request :=
  { object := book, original := none, headers := { userAgent := none, referer := none },
    user := none, now := "2020-04-01T00:00:00.000Z" }

/-- A desktop re-upload with an empty summary over a record whose summary is `S`. -/
def summaryErased : Request :=
  { requestOf { emptyBook with isNew := false, dirtyKeys := ["updateSource"],
                               updateSource := some "BloomDesktop 4.7", summary := some "" } with
    original := some { emptyBook with isNew := false, summary := some "S" } }

/-- A desktop re-upload with the summary `S2` over a record whose summary is `S`. -/
def summaryReplaced : Request :=
  { summaryErased with object := { summaryErased.object with summary := some "S2" } }

/-- A non-desktop save of a record that carries a bookshelf tag. -/
def shelfSave : Request :=
  requestOf { emptyBook with dirtyKeys := ["updateSource"], updateSource := some "saveAllBooks",
                             title := some "Flowers",
                             tags := some ["bookshelf:Featured", "nature"] }

/-- What the hook stores for `shelfSave`. -/
def shelfSaved : Book :=
  { emptyBook with dirtyKeys := ["updateSource"], updateSource := some "saveAllBooks",
                   title := some "Flowers", tags := some ["topic:nature"],
                   bookshelves := some ["Featured"],
                   search := some "flowers featured nature" }

/-- A desktop upload with the three tags of the extraction example. -/
def shelfUpload : Request :=
  requestOf { emptyBook with dirtyKeys := ["updateSource"],
                             updateSource := some "BloomDesktop 4.7",
                             title := some "Health in Asia",
                             tags := some ["bookshelf:Featured", "region:Asia", "topic:health"] }

/-- A save with the title and the tags of the search example. -/
def flowersSave : Request :=
  requestOf { emptyBook with title := some "Flowers",
                             tags := some ["system:incoming", "topic:nature"] }

/-- An upload from an old BloomDesktop, which sends no `updateSource`. -/
def restSharpUpload : Request :=
  { requestOf { emptyBook with title := some "Flowers" } with
    headers := { userAgent := some "RestSharp/105.2.3.0", referer := none } }

/-- An edit made on the parse dashboard, which sends no `updateSource`. -/
def dashboardEdit : Request :=
  { requestOf { emptyBook with isNew := false, harvestState := some "Done" } with
    headers := { userAgent := some "Mozilla/5.0",
                 referer := some "https://x.org/dashboard/apps/BloomLibrary.org/browser/books" } }

/-- A desktop upload whose tags already carry the system marker. -/
def markedUpload : Request :=
  requestOf { emptyBook with dirtyKeys := ["updateSource"],
                             updateSource := some "BloomDesktop 4.7",
                             tags := some ["system:Incoming", "topic:health"] }

/-- A desktop re-upload carrying `bookshelf:Featured` over a record on the shelf `Old`. -/
def shelfReupload : Request :=
  { requestOf { emptyBook with isNew := false, dirtyKeys := ["updateSource"],
                               updateSource := some "BloomDesktop 4.7",
                               bookshelves := some ["Old"],
                               tags := some ["bookshelf:Featured", "topic:health"] } with
    original := some { emptyBook with isNew := false, bookshelves := some ["Old"],
                                      tags := some ["topic:health", "system:Incoming"] } }

/-- A non-desktop save carrying `bookshelf:Featured` over a record on the shelf `Old`. -/
def shelfEdit : Request :=
  requestOf { emptyBook with isNew := false, dirtyKeys := ["updateSource"],
                             updateSource := some "libraryUserControl",
                             bookshelves := some ["Old"],
                             tags := some ["bookshelf:Featured", "topic:health"] }

/-- A desktop re-upload that carries `topic:health` and the old-style tag `health` over a
record tagged `topic:health`. -/
def doubledUpload : Request :=
  { requestOf { emptyBook with isNew := false, dirtyKeys := ["updateSource"],
                               updateSource := some "BloomDesktop 4.7",
                               tags := some ["topic:health", "health"] } with
    original := some { emptyBook with isNew := false,
                                      tags := some ["topic:health", "system:Incoming"] } }

/-- A desktop re-upload carrying `topic:health` over a record tagged `topic:health` and
`region:Asia`. -/
def unionUpload : Request :=
  { requestOf { emptyBook with isNew := false, dirtyKeys := ["updateSource"],
                               updateSource := some "BloomDesktop 4.7",
                               tags := some ["topic:health", "level:1"] } with
    original := some { emptyBook with isNew := false,
                                      tags := some ["topic:health", "region:Asia"] } }

/-- A save of a book whose lineage is the empty string. -/
def rootBookSave : Request :=
  requestOf { emptyBook with dirtyKeys := ["updateSource"], updateSource := some "saveAllBooks",
                             bookLineage := some "" }

/-- A save of a book with two ancestors. -/
def derivedBookSave : Request :=
  requestOf { emptyBook with dirtyKeys := ["updateSource"], updateSource := some "saveAllBooks",
                             bookLineage := some "a1,b2" }

/-- The first upload of a book by the logged-in user `user1`. -/
def firstUpload : Request :=
  { requestOf { emptyBook with dirtyKeys := ["updateSource"],
                               updateSource := some "BloomDesktop 4.7" } with
    user := some "user1" }

/-- A book record that points to the given languages. -/
def bookWith (id : String) (langPointers : List String) : Record :=
  { id := id, title := some id, tags := none, license := none, inCirculation := some true,
    langPointers := some langPointers }

/-- A language record with a stale usage count. -/
def languageOf (id : String) : Language :=
  { id := id, isoCode := some id, usageCount := some 7 }

/-- Three books that point to the language `A`; none points to `B`. -/
def threeBooks : List Record :=
  [bookWith "b1" ["A"], bookWith "b2" ["A", "C"], bookWith "b3" ["A"]]

/-- One book that names the language `A` twice. -/
def doubledBook : List Record :=
  [bookWith "b1" ["A", "A"]]

/-- A store with the three books and the languages `A` and `B`, without a page cap below
the limit the job asks for. -/
def threeBookStore : JobStore :=
  cappedStore 1000000 threeBooks [languageOf "A", languageOf "B"]

/-- A store with the book that names `A` twice. -/
def doubledStore : JobStore :=
  cappedStore 1000000 doubledBook [languageOf "A"]

/-- A store that returns one record per fetch and holds two books that point to `A`. -/
def onePageStore : JobStore :=
  cappedStore 1 [bookWith "b1" ["A"], bookWith "b2" ["A"]] [languageOf "A"]

/-- A catalog record with the given title and tags, in circulation, under a `cc` license. -/
def titled (title : String) (tags : List String) : Record :=
  { id := "id" ++ title, title := some title, tags := some tags, license := some "cc-by",
    inCirculation := some true, langPointers := none }

/-- Five records in the order of their titles; the first two are on the Featured shelf. -/
def fiveBooks : List Record :=
  [titled "Alpha" ["bookshelf:Featured"], titled "Beta" ["bookshelf:Featured"],
   titled "Charlie" [], titled "Delta" [], titled "Echo" []]

/-- A request for `count` records from the offset `first`, with no flag set. -/
def paramsOf (first count : Nat) : Params :=
  { first := first, count := count, includeOutOfCirculation := Param.undefined,
    allLicenses := Param.undefined }

/-- A desktop upload that carries two bookshelf tags. -/
def twoShelfUpload : Request :=
  requestOf { emptyBook with dirtyKeys := ["updateSource"],
                             updateSource := some "BloomDesktop 4.7",
                             tags := some ["bookshelf:Featured", "bookshelf:Other"] }

/-- A non-desktop save that carries two bookshelf tags over a record on the shelf `Old`. -/
def twoShelfEdit : Request :=
  requestOf { emptyBook with isNew := false, dirtyKeys := ["updateSource"],
                             updateSource := some "libraryUserControl",
                             bookshelves := some ["Old"],
                             tags := some ["bookshelf:Featured", "bookshelf:Old",
                                           "bookshelf:Other"] }

/-- A featured record under a closed license. -/
def closedBook : Record :=
  { id := "idClosed", title := some "Closed", tags := some ["bookshelf:Featured"],
    license := some "ask", inCirculation := some true, langPointers := none }

/-- A request whose `allLicenses` parameter is the number 1. -/
def paramsNumberOne : Params :=
  { first := 0, count := 10, includeOutOfCirculation := Param.undefined,
    allLicenses := Param.number 1 }

/-- A store over the five books, two per fetch, whose fetches fail from the offset 2 on. -/
def failingStore : Query → Option (List Record) :=
  fun q => if q.skip ≥ 2 then none else catalogStore 2 fiveBooks q

/-- The store of the three books, with a bulk save that fails. -/
def brokenSaveStore : JobStore :=
  { threeBookStore with saveAll := fun _ => false }

/-- The store of the three books, with a language fetch that fails. -/
def brokenFetchStore : JobStore :=
  { threeBookStore with findLanguages := fun _ => none }

/-- A catalog record that carries the tags the hook stores for `shelfSave`. -/
def normalised (title : String) : Record :=
  titled title ["topic:nature"]

/-- The store answers the counts in the order of the tags, and each count observes every
record created before it. -/
def oneByOne (n : Nat) : Schedule :=
  { order := List.range n, sees := fun _ _ => true }

/-- The store answers the counts in the order of the tags, before any save reaches it. -/
def countsFirst (n : Nat) : Schedule :=
  { order := List.range n, sees := fun _ _ => false }

/-- A tag table that holds the tag `topic:nature`. -/
def natureTable : List TagRecord :=
  [{ name := some "topic:nature", usageCount := some 3 }]

/-- A book saved for the first time, with a title, a license and no copyright. -/
def newFlowers : SavedBook :=
  { id := "bk1", tags := some ["topic:nature", "region:Asia"],
    createdAt := some 1583020800000, updatedAt := some 1583020800000,
    title := some "Flowers", copyright := none, license := some "cc-by",
    uploader := some "user1" }

/-- The book that `shelfSave` stores, saved for the first time. -/
def createdShelf : SavedBook :=
  { newFlowers with tags := some ["topic:nature"] }

/-- The same book saved again a day later. -/
def editedShelf : SavedBook :=
  { createdShelf with updatedAt := some 1583107200000 }

/-- A server without a SendGrid key, as the unit test server is set up. -/
def noKeyEnv : Env :=
  { SENDGRID_API_KEY := none, EMAIL_BOOK_EVENT_RECIPIENT := some "events@example.org",
    EMAIL_REPORT_BOOK_RECIPIENT := some "concerns@example.org" }

/-- A server with a key and no recipient of the book events. -/
def noRecipientEnv : Env :=
  { SENDGRID_API_KEY := some "SG.key", EMAIL_BOOK_EVENT_RECIPIENT := none,
    EMAIL_REPORT_BOOK_RECIPIENT := none }

/-- A SendGrid service that accepts every request. -/
def accepting : ApiRequest → Option String :=
  fun _ => none

/-- A SendGrid service that refuses a request without a key. -/
def keyChecking : ApiRequest → Option String :=
  fun request => if undefinedOrEmpty request.apiKey then some "401" else none

/-- A fetched book of which only the id and the title are known. -/
def bareSource : FullJSON :=
  { objectId := JsValue.text "bk1", title := JsValue.text "Flowers",
    copyright := JsValue.undefined, license := JsValue.undefined, uploader := none }

/-- A fetched book whose `copyright` column holds `null`. -/
def nullCopyrightSource : FullJSON :=
  { objectId := JsValue.text "bk4", title := JsValue.text "T", copyright := JsValue.null,
    license := JsValue.text "cc-by", uploader := some { username := JsValue.text "ann" } }

/-- A server with a key and with both recipients. -/
def configuredEnv : Env :=
  { SENDGRID_API_KEY := some "SG.key", EMAIL_BOOK_EVENT_RECIPIENT := some "events@example.org",
    EMAIL_REPORT_BOOK_RECIPIENT := some "concerns@example.org" }

/-- Four records in the order of their titles; the first and the last are on the Featured
shelf. -/
def scatteredShelf : List Record :=
  [titled "Alpha" ["bookshelf:Featured"], titled "Beta" [], titled "Charlie" [],
   titled "Delta" ["bookshelf:Featured"]]

/-! ## Lemmas on the string primitives -/

theorem startsWith_iff (s p : String) : startsWith s p = true ↔ p.data <+: s.data := by
  simp [startsWith]

theorem indexOfAux_ge (pat : List Char) (cs : List Char) (i : Nat) :
    indexOfAux pat cs i = -1 ∨ (i : Int) ≤ indexOfAux pat cs i := by
  induction cs generalizing i with
  | nil => unfold indexOfAux; split <;> simp
  | cons c cs ih =>
    unfold indexOfAux
    split
    · right; exact le_refl _
    · rcases ih (i + 1) with h | h
      · left; exact h
      · right; omega

theorem indexOf_eq_zero_iff (s pat : String) :
    indexOf s pat = 0 ↔ pat.data <+: s.data := by
  unfold indexOf
  cases hs : s.data with
  | nil =>
    unfold indexOfAux
    cases hp : pat.data <;> simp
  | cons c cs =>
    unfold indexOfAux
    by_cases h : pat.data.isPrefixOf (c :: cs) = true
    · simp only [h, if_true]
      simpa using h
    · simp only [h]
      have hn : ¬ pat.data <+: c :: cs := by simpa using h
      simp only [hn, iff_false]
      rcases indexOfAux_ge pat.data cs (0 + 1) with h1 | h1
      · simp [h1]
      · intro h0
        simp only [Bool.false_eq_true, if_false] at h0
        rw [h0] at h1
        omega

theorem isBookshelfTag_iff (t : String) :
    isBookshelfTag t = true ↔ "bookshelf".data <+: t.data := by
  simp [isBookshelfTag, indexOf_eq_zero_iff]

theorem not_startsWith_bookshelfColon (t : String) (h : isBookshelfTag t = false) :
    startsWith t "bookshelf:" = false := by
  by_contra hc
  have hc1 : startsWith t "bookshelf:" = true := by simpa using hc
  rw [startsWith_iff] at hc1
  have h2 : "bookshelf".data <+: "bookshelf:".data := ⟨[':'], rfl⟩
  have h3 := (isBookshelfTag_iff t).2 (h2.trans hc1)
  rw [h] at h3
  exact Bool.noConfusion h3

/-! ## Lemmas on the tag loop -/

theorem loopBody_tagsOutput {toLowerCase : String → String}
    (src : String) (st : LoopState) (tag : String) :
    (loopBody toLowerCase src st tag).tagsOutput =
      if isBookshelfTag (withTopic tag) then st.tagsOutput
      else st.tagsOutput ++ [withTopic tag] := by
  unfold loopBody
  by_cases hb : isBookshelfTag (withTopic tag) = true <;>
    by_cases hd : startsWith src "BloomDesktop" = true <;>
    by_cases hs : startsWith (withTopic tag) "system:" = true <;>
    simp [hb, hd, hs]

theorem loopBody_search {toLowerCase : String → String}
    (src : String) (st : LoopState) (tag : String) :
    (loopBody toLowerCase src st tag).search =
      if startsWith (withTopic tag) "system:" then st.search
      else st.search ++ searchToken toLowerCase tag := by
  unfold loopBody searchToken
  by_cases hb : isBookshelfTag (withTopic tag) = true <;>
    by_cases hd : startsWith src "BloomDesktop" = true <;>
    by_cases hs : startsWith (withTopic tag) "system:" = true <;>
    simp [hb, hd, hs, String.append_assoc]

theorem foldl_tagsOutput {toLowerCase : String → String}
    (src : String) (tags : List String) (st : LoopState) :
    (tags.foldl (loopBody toLowerCase src) st).tagsOutput = st.tagsOutput ++ keptTags tags := by
  induction tags generalizing st with
  | nil => simp [keptTags]
  | cons t ts ih =>
    rw [List.foldl_cons, ih, loopBody_tagsOutput]
    by_cases hb : isBookshelfTag (withTopic t) = true
    · simp [hb, keptTags]
    · simp [hb, keptTags]

theorem concat_append (xs ys : List String) : concat (xs ++ ys) = concat xs ++ concat ys := by
  induction xs with
  | nil => simp [concat]
  | cons x xs ih => simp [concat, ih, String.append_assoc]

theorem foldl_search {toLowerCase : String → String}
    (src : String) (tags : List String) (st : LoopState) :
    (tags.foldl (loopBody toLowerCase src) st).search =
      st.search ++ concat ((searchedTags tags).map (searchToken toLowerCase)) := by
  induction tags generalizing st with
  | nil => simp [searchedTags, concat]
  | cons t ts ih =>
    rw [List.foldl_cons, ih, loopBody_search]
    by_cases hs : startsWith (withTopic t) "system:" = true
    · simp [hs, searchedTags]
    · simp [hs, searchedTags, concat, String.append_assoc]

theorem tagLoop_tagsOutput {toLowerCase : String → String} (src : String) (book : Book) :
    (tagLoop toLowerCase src book).tagsOutput = keptTags (book.tags.getD []) := by
  unfold tagLoop
  cases h : book.tags with
  | none => simp [keptTags]
  | some ts => simp [foldl_tagsOutput]

theorem tagLoop_search {toLowerCase : String → String} (src : String) (book : Book) :
    (tagLoop toLowerCase src book).search =
      toLowerCase (book.title.getD "") ++
        concat ((searchedTags (book.tags.getD [])).map (searchToken toLowerCase)) := by
  unfold tagLoop
  cases h : book.tags with
  | none => simp [searchedTags, concat]
  | some ts => simp [foldl_search]

/-! ## Which columns each phase leaves alone -/

theorem normalize_tags {toLowerCase : String → String}
    (src : String) (user : Option String) (book : Book) :
    (normalize toLowerCase src user book).tags = some (keptTags (book.tags.getD [])) := by
  unfold normalize
  cases user with
  | none => simp [tagLoop_tagsOutput]
  | some u => by_cases hn : book.isNew = true <;> simp [hn, tagLoop_tagsOutput]

theorem normalize_search {toLowerCase : String → String}
    (src : String) (user : Option String) (book : Book) :
    (normalize toLowerCase src user book).search =
      some (toLowerCase (book.title.getD "") ++
        concat ((searchedTags (book.tags.getD [])).map (searchToken toLowerCase))) := by
  unfold normalize
  cases user with
  | none => simp [tagLoop_search]
  | some u => by_cases hn : book.isNew = true <;> simp [hn, tagLoop_search]

theorem normalize_get {toLowerCase : String → String}
    (src : String) (user : Option String) (book : Book)
    (columnName : String) (h : columnName ∈ scalarColumnsWithFallback) :
    (normalize toLowerCase src user book).get columnName = book.get columnName := by
  simp only [scalarColumnsWithFallback, List.mem_cons, List.mem_singleton, List.mem_nil_iff,
    or_false] at h
  unfold normalize
  rcases h with rfl | rfl | rfl | rfl <;> cases user with
  | none => simp [Book.get]
  | some u => by_cases hn : book.isNew = true <;> simp [hn, Book.get]

theorem resolve_get (request : Request) (columnName : String)
    (h : columnName ∈ scalarColumnsWithFallback) :
    (resolveUpdateSource request).2.get columnName = request.object.get columnName := by
  simp only [scalarColumnsWithFallback, List.mem_cons, List.mem_singleton, List.mem_nil_iff,
    or_false] at h
  unfold resolveUpdateSource
  rcases h with rfl | rfl | rfl | rfl <;> (simp only []; split_ifs <;> simp [Book.get])

theorem get_summary (b : Book) : b.get "summary" = b.summary := by simp [Book.get]

theorem get_librarianNote (b : Book) : b.get "librarianNote" = b.librarianNote := by
  simp [Book.get]

theorem get_publisher (b : Book) : b.get "publisher" = b.publisher := by simp [Book.get]

theorem get_originalPublisher (b : Book) : b.get "originalPublisher" = b.originalPublisher := by
  simp [Book.get]

theorem set_summary (b : Book) (v : Option String) :
    b.set "summary" v = { b with summary := v } := by simp [Book.set]

theorem set_librarianNote (b : Book) (v : Option String) :
    b.set "librarianNote" v = { b with librarianNote := v } := by simp [Book.set]

theorem set_publisher (b : Book) (v : Option String) :
    b.set "publisher" v = { b with publisher := v } := by simp [Book.set]

theorem set_originalPublisher (b : Book) (v : Option String) :
    b.set "originalPublisher" v = { b with originalPublisher := v } := by simp [Book.set]

theorem scalarFallback_get (original book : Book) (columnName : String)
    (h : columnName ∈ scalarColumnsWithFallback) :
    (scalarFallback original book).get columnName =
      if !truthy (book.get columnName) && truthy (original.get columnName)
      then original.get columnName else book.get columnName := by
  simp only [scalarColumnsWithFallback, List.mem_cons, List.mem_singleton, List.mem_nil_iff,
    or_false] at h
  unfold scalarFallback scalarColumnsWithFallback
  simp only [List.foldl_cons, List.foldl_nil, get_summary, get_librarianNote, get_publisher,
    get_originalPublisher, set_summary, set_librarianNote, set_publisher, set_originalPublisher]
  rcases h with rfl | rfl | rfl | rfl <;>
    (simp only [get_summary, get_librarianNote, get_publisher, get_originalPublisher]
     split_ifs <;> rfl)

theorem arrayUnion_get (original book : Book) (columnName : String)
    (h : columnName ∈ scalarColumnsWithFallback) :
    (arrayUnion original book).get columnName = book.get columnName := by
  simp only [scalarColumnsWithFallback, List.mem_cons, List.mem_singleton, List.mem_nil_iff,
    or_false] at h
  unfold arrayUnion
  rcases h with rfl | rfl | rfl | rfl <;>
    (simp only [get_summary, get_librarianNote, get_publisher, get_originalPublisher]
     split <;> [split_ifs <;> rfl; rfl])

theorem desktopPhase_get (src : String) (original book : Book) (columnName : String)
    (hdesk : startsWith src "BloomDesktop" = true)
    (h : columnName ∈ scalarColumnsWithFallback) :
    (desktopPhase src (some original) book).get columnName =
      if !truthy (book.get columnName) && truthy (original.get columnName)
      then original.get columnName else book.get columnName := by
  unfold desktopPhase
  simp only [hdesk, if_true]
  rw [arrayUnion_get _ _ _ h, scalarFallback_get _ _ _ h]
  simp only [scalarColumnsWithFallback, List.mem_cons, List.mem_singleton, List.mem_nil_iff,
    or_false] at h
  rcases h with rfl | rfl | rfl | rfl <;>
    (simp only [get_summary, get_librarianNote, get_publisher, get_originalPublisher]
     split_ifs <;> rfl)

/-! ## Frames: the columns each phase can change -/

theorem scalarFallback_frame (original book : Book) :
    ∃ s l p o, scalarFallback original book =
      { book with summary := s, librarianNote := l, publisher := p, originalPublisher := o } := by
  unfold scalarFallback scalarColumnsWithFallback
  simp only [List.foldl_cons, List.foldl_nil, get_summary, get_librarianNote, get_publisher,
    get_originalPublisher, set_summary, set_librarianNote, set_publisher, set_originalPublisher]
  split_ifs <;> exact ⟨_, _, _, _, rfl⟩

theorem arrayUnion_frame (original book : Book) :
    ∃ t, arrayUnion original book = { book with tags := t } := by
  unfold arrayUnion
  split
  · split_ifs <;> exact ⟨_, rfl⟩
  · exact ⟨_, rfl⟩

theorem desktopPhase_frame (src : String) (original : Option Book) (book : Book) :
    ∃ t h s l p o, desktopPhase src original book =
      { book with tags := t, harvestState := h, summary := s, librarianNote := l,
                  publisher := p, originalPublisher := o } := by
  unfold desktopPhase
  by_cases hd : startsWith src "BloomDesktop" = true
  · simp only [hd, if_true]
    cases original with
    | none => split_ifs <;> exact ⟨_, _, _, _, _, _, rfl⟩
    | some orig =>
      simp only []
      obtain ⟨t, ht⟩ := arrayUnion_frame orig (scalarFallback orig
        (if book.isNew = true then
          { book with tags := some (addUnique book.tags "system:Incoming"),
                      harvestState := some "New" }
        else
          { book with tags := some (addUnique book.tags "system:Incoming"),
                      harvestState := some "Updated" }))
      obtain ⟨s, l, p, o, hs⟩ := scalarFallback_frame orig
        (if book.isNew = true then
          { book with tags := some (addUnique book.tags "system:Incoming"),
                      harvestState := some "New" }
        else
          { book with tags := some (addUnique book.tags "system:Incoming"),
                      harvestState := some "Updated" })
      rw [ht, hs]
      split_ifs <;> exact ⟨_, _, _, _, _, _, rfl⟩
  · simp only [hd]
    exact ⟨_, _, _, _, _, _, rfl⟩

theorem resolve_frame (request : Request) :
    ∃ u d, (resolveUpdateSource request).2 =
      { request.object with updateSource := u, lastUploaded := d } := by
  unfold resolveUpdateSource
  simp only []
  split_ifs <;> exact ⟨_, _, rfl⟩

theorem prepared_frame (src : String) (request : Request) :
    ∃ u d t h s l p o, prepared src request =
      { request.object with updateSource := u, lastUploaded := d, tags := t, harvestState := h,
                            summary := s, librarianNote := l, publisher := p,
                            originalPublisher := o } := by
  unfold prepared
  obtain ⟨t, h, s, l, p, o, h1⟩ :=
    desktopPhase_frame src request.original (resolveUpdateSource request).2
  obtain ⟨u, d, h2⟩ := resolve_frame request
  rw [h1, h2]
  exact ⟨_, _, _, _, _, _, _, _, rfl⟩

theorem normalize_frame {toLowerCase : String → String}
    (src : String) (user : Option String) (book : Book) :
    ∃ a, normalize toLowerCase src user book =
      { book with bookshelves := (tagLoop toLowerCase src book).bookshelves,
                  tags := some (tagLoop toLowerCase src book).tagsOutput,
                  search := some (tagLoop toLowerCase src book).search,
                  bookLineageArray := lineageArray book.bookLineage,
                  acl := a } := by
  unfold normalize
  cases user with
  | none => exact ⟨_, rfl⟩
  | some u => simp only []; split_ifs <;> exact ⟨_, rfl⟩

theorem beforeSave_ok {toLowerCase : String → String} (request : Request) (src : String)
    (hsrc : (resolveUpdateSource request).1 = some src) :
    beforeSave toLowerCase request = Except.ok (normalize toLowerCase src request.user (prepared src request)) := by
  simp [beforeSave, hsrc]

theorem beforeSave_ok_inv {toLowerCase : String → String} (request : Request) (out : Book)
    (h : beforeSave toLowerCase request = Except.ok out) :
    ∃ src, (resolveUpdateSource request).1 = some src ∧
      out = normalize toLowerCase src request.user (prepared src request) := by
  unfold beforeSave at h
  cases hr : (resolveUpdateSource request).1 with
  | none => rw [hr] at h; simp at h
  | some src =>
    rw [hr] at h
    simp only [Except.ok.injEq] at h
    exact ⟨src, rfl, h.symm⟩

/-! ## The update source and the harvest state -/

theorem resolve_isNew (request : Request) :
    (resolveUpdateSource request).2.isNew = request.object.isNew := by
  obtain ⟨u, d, h⟩ := resolve_frame request
  rw [h]

theorem resolve_harvestState (request : Request) :
    (resolveUpdateSource request).2.harvestState = request.object.harvestState := by
  obtain ⟨u, d, h⟩ := resolve_frame request
  rw [h]

theorem resolve_tags (request : Request) :
    (resolveUpdateSource request).2.tags = request.object.tags := by
  obtain ⟨u, d, h⟩ := resolve_frame request
  rw [h]

theorem stored_updateSource {toLowerCase : String → String} (src : String) (request : Request) :
    (normalize toLowerCase src request.user (prepared src request)).updateSource =
      (resolveUpdateSource request).2.updateSource := by
  obtain ⟨a, ha⟩ := normalize_frame src request.user (prepared src request)
  rw [ha]
  unfold prepared
  obtain ⟨t, h, s, l, p, o, h1⟩ :=
    desktopPhase_frame src request.original (resolveUpdateSource request).2
  rw [h1]

theorem desktopPhase_harvestState (src : String) (original : Option Book) (book : Book) :
    (desktopPhase src original book).harvestState =
      if startsWith src "BloomDesktop" then some (if book.isNew then "New" else "Updated")
      else book.harvestState := by
  unfold desktopPhase
  by_cases hd : startsWith src "BloomDesktop" = true
  · simp only [hd, if_true]
    cases original with
    | none => split_ifs <;> rfl
    | some orig =>
      simp only []
      obtain ⟨t, ht⟩ := arrayUnion_frame orig (scalarFallback orig
        (if book.isNew = true then
          { book with tags := some (addUnique book.tags "system:Incoming"),
                      harvestState := some "New" }
        else
          { book with tags := some (addUnique book.tags "system:Incoming"),
                      harvestState := some "Updated" }))
      obtain ⟨s, l, p, o, hs⟩ := scalarFallback_frame orig
        (if book.isNew = true then
          { book with tags := some (addUnique book.tags "system:Incoming"),
                      harvestState := some "New" }
        else
          { book with tags := some (addUnique book.tags "system:Incoming"),
                      harvestState := some "Updated" })
      rw [ht, hs]
      split_ifs <;> rfl
  · simp [hd]

theorem stored_harvestState {toLowerCase : String → String} (src : String) (request : Request) :
    (normalize toLowerCase src request.user (prepared src request)).harvestState =
      if startsWith src "BloomDesktop"
      then some (if request.object.isNew then "New" else "Updated")
      else request.object.harvestState := by
  obtain ⟨a, ha⟩ := normalize_frame src request.user (prepared src request)
  rw [ha]
  simp only [prepared]
  rw [desktopPhase_harvestState, resolve_isNew, resolve_harvestState]

/-! ## The tags the loop sees, and the system marker -/

theorem unique_subset (xs : List String) : ∀ x ∈ unique xs, x ∈ xs := by
  unfold unique
  suffices h : ∀ (acc : List String) (x : String),
      x ∈ xs.foldl (fun uniques value =>
        if uniques.contains value then uniques else uniques ++ [value]) acc →
      x ∈ acc ∨ x ∈ xs by
    intro x hx
    rcases h [] x hx with h1 | h1
    · simp at h1
    · exact h1
  induction xs with
  | nil => intro acc x hx; left; simpa using hx
  | cons y ys ih =>
    intro acc x hx
    rw [List.foldl_cons] at hx
    rcases ih _ x hx with h1 | h1
    · split_ifs at h1
      · left; exact h1
      · rw [List.mem_append] at h1
        rcases h1 with h2 | h2
        · left; exact h2
        · right; simp at h2; simp [h2]
    · right; simp [h1]

theorem addAllUnique_count_of_mem (v items : List String) (x : String) (hx : x ∈ v) :
    (addAllUnique (some v) items).count x = v.count x := by
  unfold addAllUnique
  simp only [List.count_append]
  have h0 : ((unique items).filter (fun y => !v.contains y)).count x = 0 := by
    apply List.count_eq_zero_of_not_mem
    intro hm
    rw [List.mem_filter] at hm
    simp [hx] at hm
  omega

theorem addUnique_mem (value : Option (List String)) (item : String) :
    item ∈ addUnique value item := by
  unfold addUnique addAllUnique
  cases value with
  | none => simp [unique]
  | some v =>
    by_cases h : item ∈ v
    · simp [h]
    · simp [unique, h]

theorem addUnique_count (value : Option (List String)) (item : String)
    (h : (value.getD []).count item ≤ 1) : (addUnique value item).count item = 1 := by
  unfold addUnique addAllUnique
  cases value with
  | none => simp [unique]
  | some v =>
    simp only [Option.getD_some] at h
    by_cases hm : item ∈ v
    · have h1 : 1 ≤ v.count item := List.one_le_count_iff.2 hm
      simp [unique, hm]
      omega
    · have h0 : v.count item = 0 := List.count_eq_zero_of_not_mem hm
      simp [unique, hm, h0]

theorem addAllUnique_nil (v : List String) : addAllUnique (some v) [] = v := by
  simp [addAllUnique, unique]

theorem scalarFallback_tags (original book : Book) :
    (scalarFallback original book).tags = book.tags := by
  obtain ⟨s, l, p, o, h⟩ := scalarFallback_frame original book
  rw [h]

theorem arrayUnion_tags (original book : Book) :
    (arrayUnion original book).tags =
      match book.tags with
      | some t => some (addAllUnique (some t) (original.tags.getD []))
      | none => if 1 ≤ (original.tags.getD []).length
                then some (unique (original.tags.getD [])) else none := by
  unfold arrayUnion
  cases ho : original.tags with
  | none =>
    cases hb : book.tags with
    | none => simp
    | some t => simp [addAllUnique_nil, hb]
  | some ot =>
    cases hb : book.tags with
    | none =>
      by_cases hl : ot.length ≥ 1
      · simp [hl, hb, addAllUnique]
      · simp [hl, hb]
    | some t =>
      by_cases hl : ot.length ≥ 1
      · simp [hl, hb]
      · have : ot = [] := by
          cases ot with
          | nil => rfl
          | cons a as => simp at hl
        simp [this, hb, addAllUnique_nil]

theorem desktopPhase_tags (src : String) (original : Option Book) (book : Book)
    (hd : startsWith src "BloomDesktop" = true) :
    (desktopPhase src original book).tags =
      some (addAllUnique (some (addUnique book.tags "system:Incoming"))
        ((original.bind Book.tags).getD [])) := by
  unfold desktopPhase
  simp only [hd, if_true]
  cases original with
  | none =>
    have h0 : ((none : Option Book).bind Book.tags).getD [] = [] := rfl
    rw [h0, addAllUnique_nil]
    split_ifs <;> rfl
  | some orig =>
    have h0 : ((some orig).bind Book.tags).getD [] = orig.tags.getD [] := rfl
    rw [h0]
    simp only []
    rw [arrayUnion_tags, scalarFallback_tags]
    split_ifs <;> rfl

theorem prepared_tags_desktop (src : String) (request : Request)
    (hd : startsWith src "BloomDesktop" = true) :
    (prepared src request).tags =
      some (addAllUnique (some (addUnique request.object.tags "system:Incoming"))
        ((request.original.bind Book.tags).getD [])) := by
  unfold prepared
  rw [desktopPhase_tags _ _ _ hd, resolve_tags]

theorem prepared_tags_other (src : String) (request : Request)
    (hd : startsWith src "BloomDesktop" = false) :
    (prepared src request).tags = request.object.tags := by
  unfold prepared desktopPhase
  simp [hd, resolve_tags]

theorem withTopic_eq_incoming (t : String) :
    withTopic t = "system:Incoming" ↔ t = "system:Incoming" := by
  unfold withTopic
  constructor
  · intro h
    split_ifs at h with hc
    · exfalso
      have h1 := congrArg String.data h
      rw [String.data_append] at h1
      have h2 : ("topic:".data ++ t.data).head? = "system:Incoming".data.head? := by rw [h1]
      simp at h2
    · exact h
  · intro h
    subst h
    decide

theorem count_keptTags_incoming (tags : List String) :
    (keptTags tags).count "system:Incoming" = tags.count "system:Incoming" := by
  induction tags with
  | nil => rfl
  | cons t ts ih =>
    have hk : keptTags (t :: ts) =
        if isBookshelfTag (withTopic t) then keptTags ts else withTopic t :: keptTags ts := by
      by_cases hb : isBookshelfTag (withTopic t) = true <;> simp [keptTags, hb]
    rw [hk]
    by_cases he : t = "system:Incoming"
    · subst he
      have h1 : isBookshelfTag "system:Incoming" = false := by decide
      have h2 : withTopic "system:Incoming" = "system:Incoming" := by decide
      rw [h2, h1]
      simp [List.count_cons, ih]
    · have h3 : withTopic t ≠ "system:Incoming" := fun h => he ((withTopic_eq_incoming t).1 h)
      split_ifs
      · simp [List.count_cons, ih, he]
      · simp [List.count_cons, ih, he, h3]

/-! ## Colons, the `topic:` prefix and system tags -/

theorem indexOfAux_char_neg (c : Char) (cs : List Char) (i : Nat) :
    indexOfAux [c] cs i < 0 ↔ c ∉ cs := by
  induction cs generalizing i with
  | nil => simp [indexOfAux]
  | cons x xs ih =>
    unfold indexOfAux
    by_cases hx : c = x
    · subst hx
      simp [List.isPrefixOf]
    · have hp : [c].isPrefixOf (x :: xs) = false := by simp [List.isPrefixOf, hx]
      simp only [hp, Bool.false_eq_true, if_false, ih, List.mem_cons, hx, false_or]

theorem indexOf_colon_neg (t : String) : indexOf t ":" < 0 ↔ ':' ∉ t.data := by
  unfold indexOf
  exact indexOfAux_char_neg ':' t.data 0

theorem indexOf_topic (t : String) : indexOf ("topic:" ++ t) ":" = 5 := by
  unfold indexOf
  rw [String.data_append]
  have h1 : "topic:".data = ['t', 'o', 'p', 'i', 'c', ':'] := rfl
  have h2 : ":".data = [':'] := rfl
  rw [h1, h2]
  simp [indexOfAux, List.isPrefixOf]

theorem withTopic_colon (t : String) : ¬ indexOf (withTopic t) ":" < 0 := by
  unfold withTopic
  split_ifs with h
  · rw [indexOf_topic t]
    omega
  · exact h

theorem withTopic_idem (t : String) : withTopic (withTopic t) = withTopic t := by
  have h := withTopic_colon t
  generalize withTopic t = u at h
  simp [withTopic, h]

theorem colonIndex_eq (t : String) : colonIndex t = indexOf (withTopic t) ":" := by
  unfold colonIndex withTopic
  split_ifs with h
  · rw [indexOf_topic t]
    rfl
  · rfl

theorem colonIndex_withTopic (t : String) : colonIndex (withTopic t) = colonIndex t := by
  rw [colonIndex_eq, colonIndex_eq, withTopic_idem]

theorem searchToken_withTopic {toLowerCase : String → String}
    (t : String) : searchToken toLowerCase (withTopic t) = searchToken toLowerCase t := by
  unfold searchToken
  rw [withTopic_idem, colonIndex_withTopic]

theorem startsWith_withTopic_system (t : String) :
    startsWith (withTopic t) "system:" = startsWith t "system:" := by
  unfold withTopic
  split_ifs with h
  · have h1 : startsWith ("topic:" ++ t) "system:" = false := by
      unfold startsWith
      rw [String.data_append]
      have h1 : "topic:".data = ['t', 'o', 'p', 'i', 'c', ':'] := rfl
      have h2 : "system:".data = ['s', 'y', 's', 't', 'e', 'm', ':'] := rfl
      rw [h1, h2]
      simp [List.isPrefixOf]
    have h2 : startsWith t "system:" = false := by
      by_contra hc
      have hc1 : startsWith t "system:" = true := by simpa using hc
      rw [startsWith_iff] at hc1
      obtain ⟨r, hr⟩ := hc1
      rw [indexOf_colon_neg] at h
      apply h
      rw [← hr]
      have h3 : "system:".data = ['s', 'y', 's', 't', 'e', 'm', ':'] := rfl
      rw [h3]
      simp
    rw [h1, h2]
  · rfl

theorem searchedTags_eq (tags : List String) :
    searchedTags tags = tags.filter (fun t => !startsWith t "system:") := by
  unfold searchedTags
  congr 1
  funext t
  rw [startsWith_withTopic_system]

/-! ## The search string and the bookshelves -/

theorem map_searchToken {toLowerCase : String → String} (tags : List String) :
    (searchedTags tags).map (searchToken toLowerCase) =
      ((tags.map withTopic).filter (fun t => !startsWith t "system:")).map
        (fun t => " " ++ toLowerCase (substr t (indexOf t ":" + 1))) := by
  induction tags with
  | nil => rfl
  | cons t ts ih =>
    have ht : searchToken toLowerCase t =
        " " ++ toLowerCase (substr (withTopic t) (indexOf (withTopic t) ":" + 1)) := by
      unfold searchToken
      rw [colonIndex_eq]
    by_cases hs : startsWith (withTopic t) "system:" = true
    · have h1 : searchedTags (t :: ts) = searchedTags ts := by simp [searchedTags, hs]
      rw [h1, ih]
      simp [hs]
    · have h1 : searchedTags (t :: ts) = t :: searchedTags ts := by simp [searchedTags, hs]
      rw [h1, List.map_cons, ih, ht]
      simp [hs]

theorem prepared_title (src : String) (request : Request) :
    (prepared src request).title = request.object.title := by
  obtain ⟨u, d, t, h, s, l, p, o, hp⟩ := prepared_frame src request
  rw [hp]

theorem prepared_bookLineage (src : String) (request : Request) :
    (prepared src request).bookLineage = request.object.bookLineage := by
  obtain ⟨u, d, t, h, s, l, p, o, hp⟩ := prepared_frame src request
  rw [hp]

theorem prepared_bookshelves (src : String) (request : Request) :
    (prepared src request).bookshelves = request.object.bookshelves := by
  obtain ⟨u, d, t, h, s, l, p, o, hp⟩ := prepared_frame src request
  rw [hp]

theorem normalize_bookshelves {toLowerCase : String → String}
    (src : String) (user : Option String) (book : Book) :
    (normalize toLowerCase src user book).bookshelves = (tagLoop toLowerCase src book).bookshelves := by
  obtain ⟨a, ha⟩ := normalize_frame src user book
  rw [ha]

theorem normalize_bookLineageArray {toLowerCase : String → String}
    (src : String) (user : Option String) (book : Book) :
    (normalize toLowerCase src user book).bookLineageArray = lineageArray book.bookLineage := by
  obtain ⟨a, ha⟩ := normalize_frame src user book
  rw [ha]

theorem loopBody_bookshelves {toLowerCase : String → String}
    (src : String) (st : LoopState) (tag : String) :
    (loopBody toLowerCase src st tag).bookshelves =
      if isBookshelfTag (withTopic tag) then
        (if startsWith src "BloomDesktop"
         then some [replace (withTopic tag) "bookshelf:" ""]
         else some (addUnique st.bookshelves (replace (withTopic tag) "bookshelf:" "")))
      else st.bookshelves := by
  unfold loopBody
  by_cases hb : isBookshelfTag (withTopic tag) = true <;>
    by_cases hd : startsWith src "BloomDesktop" = true <;>
    by_cases hs : startsWith (withTopic tag) "system:" = true <;>
    simp [hb, hd, hs]

theorem indexOfAux_infix (pat cs : List Char) (i : Nat) :
    indexOfAux pat cs i > -1 ↔ pat <:+: cs := by
  induction cs generalizing i with
  | nil =>
    unfold indexOfAux
    cases pat with
    | nil => simp; omega
    | cons a as => simp
  | cons c cs ih =>
    unfold indexOfAux
    rw [List.infix_cons_iff]
    by_cases hp : pat.isPrefixOf (c :: cs) = true
    · have hp1 : pat <+: c :: cs := by simpa using hp
      simp only [hp, if_true]
      constructor
      · intro _
        exact Or.inl hp1
      · intro _
        omega
    · have hp1 : ¬ pat <+: c :: cs := by simpa using hp
      simp only [hp, Bool.false_eq_true, if_false, ih, hp1, false_or]

theorem includes_iff (s pat : String) : includes s pat = true ↔ pat.data <:+: s.data := by
  unfold includes indexOf
  rw [decide_eq_true_iff]
  exact indexOfAux_infix pat.data s.data 0

theorem includes_append (a b pat : String) (h : includes b pat = true) :
    includes (a ++ b) pat = true := by
  rw [includes_iff] at h ⊢
  rw [String.data_append]
  obtain ⟨x, y, hxy⟩ := h
  exact ⟨a.data ++ x, y, by rw [← hxy]; simp⟩

/-! ## System tags and the search string -/

theorem filter_addAllUnique (p : String → Bool) (v items : List String) :
    (addAllUnique (some v) items).filter p =
      v.filter p ++ (unique items).filter (fun x => p x && !(v.filter p).contains x) := by
  unfold addAllUnique
  simp only [List.filter_append, List.filter_filter]
  congr 1
  apply List.filter_congr
  intro x _
  by_cases hp : p x = true
  · by_cases hv : x ∈ v <;> simp [hp, hv, List.mem_filter]
  · simp [hp]

theorem filter_addUnique_incoming (value : Option (List String)) :
    (addUnique value "system:Incoming").filter (fun t => !startsWith t "system:") =
      (value.getD []).filter (fun t => !startsWith t "system:") := by
  have hs : startsWith "system:Incoming" "system:" = true := by decide
  cases value with
  | none =>
    have h1 : addUnique none "system:Incoming" = ["system:Incoming"] := by
      simp [addUnique, addAllUnique, unique]
    rw [h1]
    simp [hs]
  | some v =>
    unfold addUnique
    rw [filter_addAllUnique]
    have h1 : unique ["system:Incoming"] = ["system:Incoming"] := by simp [unique]
    rw [h1]
    simp [hs]

theorem searchedTags_prepared (src : String) (request : Request) :
    searchedTags ((prepared src request).tags.getD []) =
      if startsWith src "BloomDesktop" then
        (request.object.tags.getD []).filter (fun t => !startsWith t "system:") ++
          (unique ((request.original.bind Book.tags).getD [])).filter
            (fun x => !startsWith x "system:" &&
              !((request.object.tags.getD []).filter
                (fun t => !startsWith t "system:")).contains x)
      else (request.object.tags.getD []).filter (fun t => !startsWith t "system:") := by
  rw [searchedTags_eq]
  by_cases hd : startsWith src "BloomDesktop" = true
  · rw [prepared_tags_desktop _ _ hd, Option.getD_some, filter_addAllUnique,
      filter_addUnique_incoming]
    simp [hd]
  · have hd1 : startsWith src "BloomDesktop" = false := by simpa using hd
    rw [prepared_tags_other _ _ hd1]
    simp [hd1]

theorem resolve_fst_congr (r1 r2 : Request)
    (hk : r2.object.dirtyKeys = r1.object.dirtyKeys) (hh : r2.headers = r1.headers)
    (hu : r1.object.dirtyKeys.contains "updateSource" = true →
      r2.object.updateSource = r1.object.updateSource) :
    (resolveUpdateSource r2).1 = (resolveUpdateSource r1).1 := by
  unfold resolveUpdateSource
  simp only [hk, hh]
  by_cases hd : r1.object.dirtyKeys.contains "updateSource" = true
  · simp only [hd, Bool.not_true, Bool.false_eq_true, if_false]
    exact hu hd
  · have hd1 : r1.object.dirtyKeys.contains "updateSource" = false := by simpa using hd
    simp only [hd1, Bool.not_false, if_true]
    split_ifs <;> rfl

theorem resolve_snd_updateSource (request : Request)
    (hd : request.object.dirtyKeys.contains "updateSource" = true) :
    (resolveUpdateSource request).2.updateSource = request.object.updateSource := by
  unfold resolveUpdateSource
  simp only [hd, Bool.not_true, Bool.false_eq_true, if_false]

/-! ## Running the hook on its own result -/

theorem mem_keptTags (tags : List String) (t : String) (h : t ∈ keptTags tags) :
    withTopic t = t ∧ isBookshelfTag t = false := by
  unfold keptTags at h
  rw [List.mem_filter, List.mem_map] at h
  obtain ⟨⟨u, -, hu⟩, hb⟩ := h
  constructor
  · rw [← hu, withTopic_idem]
  · simpa using hb

theorem keptTags_self (tags : List String)
    (h : ∀ t ∈ tags, withTopic t = t ∧ isBookshelfTag t = false) : keptTags tags = tags := by
  induction tags with
  | nil => rfl
  | cons t ts ih =>
    have h1 := h t (List.mem_cons_self t ts)
    have h2 : keptTags ts = ts := ih (fun u hu => h u (List.mem_cons_of_mem t hu))
    unfold keptTags at h2 ⊢
    rw [List.map_cons, h1.1, List.filter_cons]
    simp only [h1.2, Bool.not_false, if_true]
    rw [h2]

theorem keptTags_idem (tags : List String) : keptTags (keptTags tags) = keptTags tags :=
  keptTags_self _ (mem_keptTags tags)

theorem keptTags_of_no_shelf (tags : List String)
    (h : ∀ t ∈ tags, isBookshelfTag (withTopic t) = false) :
    keptTags tags = tags.map withTopic := by
  unfold keptTags
  rw [List.filter_eq_self]
  intro t ht
  rw [List.mem_map] at ht
  obtain ⟨u, hu, rfl⟩ := ht
  simp [h u hu]

theorem addAllUnique_of_subset (v items : List String) (h : ∀ x ∈ items, x ∈ v) :
    addAllUnique (some v) items = v := by
  unfold addAllUnique
  have h0 : (unique items).filter (fun x => !v.contains x) = [] := by
    rw [List.filter_eq_nil_iff]
    intro x hx
    simp [h x (unique_subset items x hx)]
  simp only [h0, List.append_nil]

theorem foldl_bookshelves_of_no_shelf {toLowerCase : String → String}
    (src : String) (tags : List String) (st : LoopState)
    (h : ∀ t ∈ tags, isBookshelfTag (withTopic t) = false) :
    (tags.foldl (loopBody toLowerCase src) st).bookshelves = st.bookshelves := by
  induction tags generalizing st with
  | nil => rfl
  | cons t ts ih =>
    rw [List.foldl_cons, ih _ (fun u hu => h u (List.mem_cons_of_mem t hu)),
      loopBody_bookshelves, h t (List.mem_cons_self t ts)]
    rfl

theorem map_searchToken_withTopic {toLowerCase : String → String} (tags : List String) :
    (searchedTags (tags.map withTopic)).map (searchToken toLowerCase) = (searchedTags tags).map (searchToken toLowerCase) := by
  induction tags with
  | nil => rfl
  | cons t ts ih =>
    by_cases hs : startsWith (withTopic t) "system:" = true
    · have h1 : searchedTags (t :: ts) = searchedTags ts := by simp [searchedTags, hs]
      have h2 : searchedTags ((t :: ts).map withTopic) = searchedTags (ts.map withTopic) := by
        simp [searchedTags, hs, withTopic_idem]
      rw [h1, h2, ih]
    · have h1 : searchedTags (t :: ts) = t :: searchedTags ts := by simp [searchedTags, hs]
      have h2 : searchedTags ((t :: ts).map withTopic) =
          withTopic t :: searchedTags (ts.map withTopic) := by
        simp [searchedTags, hs, withTopic_idem]
      rw [h1, h2, List.map_cons, List.map_cons, ih, searchToken_withTopic]

theorem incoming_mem_keptTags_desktop (src : String) (request : Request)
    (hd : startsWith src "BloomDesktop" = true) :
    "system:Incoming" ∈ keptTags ((prepared src request).tags.getD []) := by
  rw [← List.one_le_count_iff, count_keptTags_incoming, prepared_tags_desktop _ _ hd,
    Option.getD_some, addAllUnique_count_of_mem _ _ _ (addUnique_mem _ _)]
  exact List.one_le_count_iff.2 (addUnique_mem _ _)

theorem normalize_meta {toLowerCase : String → String}
    (src : String) (user : Option String) (book : Book) :
    (normalize toLowerCase src user book).dirtyKeys = book.dirtyKeys ∧
    (normalize toLowerCase src user book).updateSource = book.updateSource ∧
    (normalize toLowerCase src user book).title = book.title ∧
    (normalize toLowerCase src user book).bookLineage = book.bookLineage := by
  obtain ⟨a, ha⟩ := normalize_frame src user book
  rw [ha]
  exact ⟨rfl, rfl, rfl, rfl⟩

theorem prepared_meta (src : String) (request : Request) :
    (prepared src request).dirtyKeys = request.object.dirtyKeys ∧
    (prepared src request).updateSource = (resolveUpdateSource request).2.updateSource := by
  unfold prepared
  obtain ⟨t, h, s, l, p, o, h1⟩ :=
    desktopPhase_frame src request.original (resolveUpdateSource request).2
  obtain ⟨u, d, h2⟩ := resolve_frame request
  rw [h1]
  refine ⟨?_, rfl⟩
  rw [h2]

/-- The tags at line 245 when the hook runs on its own result `out1`, whose tags are
`keptTags` of the tags seen before. -/
theorem prepared_tags_again (src : String) (request : Request) (out1 : Book)
    (seen : List String) (h1 : out1.tags = some (keptTags seen))
    (hm : startsWith src "BloomDesktop" = true → "system:Incoming" ∈ keptTags seen) :
    (prepared src { request with object := out1, original := some out1 }).tags =
      some (keptTags seen) := by
  by_cases hd : startsWith src "BloomDesktop" = true
  · rw [prepared_tags_desktop _ _ hd]
    have h2 : addUnique (some (keptTags seen)) "system:Incoming" = keptTags seen := by
      unfold addUnique
      apply addAllUnique_of_subset
      intro x hx
      rw [List.mem_singleton] at hx
      rw [hx]
      exact hm hd
    have h3 : ((some out1).bind Book.tags).getD [] = keptTags seen := by
      simp [h1]
    simp only [h1, h2, h3]
    rw [addAllUnique_of_subset _ _ (fun x hx => hx)]
  · have hd1 : startsWith src "BloomDesktop" = false := by simpa using hd
    rw [prepared_tags_other _ _ hd1]
    exact h1

/-! ## The claims -/

/-- C1. Moderator-field protection: for a desktop-sourced write (the resolved update source
starts with `BloomDesktop`) to a record with a persisted original, the hook succeeds and,
for each of `summary`, `librarianNote`, `publisher`, `originalPublisher`, the stored value
is the incoming value when that is truthy, and the original value when the incoming value
is falsy and the original one is truthy. -/
theorem moderator_fields_protected (toLowerCase : String → String)
    (request : Request) (original : Book) (src : String)
    (columnName : String)
    (hsrc : (resolveUpdateSource request).1 = some src)
    (hdesk : startsWith src "BloomDesktop" = true)
    (horig : request.original = some original)
    (hcol : columnName ∈ scalarColumnsWithFallback) :
    ∃ out, beforeSave toLowerCase request = Except.ok out ∧
      (truthy (request.object.get columnName) = true →
        out.get columnName = request.object.get columnName) ∧
      (truthy (request.object.get columnName) = false →
        truthy (original.get columnName) = true →
        out.get columnName = original.get columnName) := by
  refine ⟨normalize toLowerCase src request.user (prepared src request), ?_, ?_, ?_⟩
  · simp [beforeSave, hsrc]
  · intro ht
    rw [normalize_get _ _ _ _ hcol, prepared, horig, desktopPhase_get _ _ _ _ hdesk hcol,
      resolve_get _ _ hcol]
    simp [ht]
  · intro hf ht
    rw [normalize_get _ _ _ _ hcol, prepared, horig, desktopPhase_get _ _ _ _ hdesk hcol,
      resolve_get _ _ hcol]
    simp [hf, ht]

/-- Witness of C1 on the summary column: the incoming value `""` over the original `S`
stores `S`, and the incoming value `S2` stores `S2`. -/
theorem moderator_fields_protected_witness :
    (∃ out, beforeSave asciiLowerCase summaryErased = Except.ok out ∧
      (truthy (summaryErased.object.get "summary") = true →
        out.get "summary" = summaryErased.object.get "summary") ∧
      (truthy (summaryErased.object.get "summary") = false →
        truthy (Book.get { emptyBook with isNew := false, summary := some "S" } "summary") = true →
        out.get "summary" =
          Book.get { emptyBook with isNew := false, summary := some "S" } "summary")) ∧
    (beforeSave asciiLowerCase summaryErased).toOption.map Book.summary = some (some "S") ∧
    (beforeSave asciiLowerCase summaryReplaced).toOption.map Book.summary = some (some "S2") :=
  ⟨moderator_fields_protected asciiLowerCase summaryErased { emptyBook with isNew := false, summary := some "S" }
    "BloomDesktop 4.7" "summary" (by decide) (by decide) (by decide) (by decide),
   by decide, by decide⟩

/-- C2. Whenever the update source resolves to a string (for every incoming record and
every such update source) the hook succeeds and stores a tags list, and no entry of that
list begins with `bookshelf:`. -/
theorem stored_tags_no_bookshelf (toLowerCase : String → String) (request : Request) (src : String)
    (hsrc : (resolveUpdateSource request).1 = some src) :
    ∃ out tags, beforeSave toLowerCase request = Except.ok out ∧ out.tags = some tags ∧
      ∀ t ∈ tags, startsWith t "bookshelf:" = false := by
  refine ⟨_, _, beforeSave_ok request src hsrc, normalize_tags _ _ _, ?_⟩
  intro t ht
  unfold keptTags at ht
  rw [List.mem_filter] at ht
  apply not_startsWith_bookshelfColon
  simpa using ht.2

/-- Witness of C2: a save carrying `bookshelf:Featured` and `nature` stores only
`topic:nature`. -/
theorem stored_tags_no_bookshelf_witness :
    beforeSave asciiLowerCase shelfSave = Except.ok shelfSaved ∧
      shelfSaved.tags = some ["topic:nature"] ∧
      ∃ out tags, beforeSave asciiLowerCase shelfSave = Except.ok out ∧ out.tags = some tags ∧
        ∀ t ∈ tags, startsWith t "bookshelf:" = false :=
  ⟨by decide, by decide, stored_tags_no_bookshelf asciiLowerCase shelfSave "saveAllBooks" (by decide)⟩

/-- C3. Tag normalisation: whenever the update source resolves to a string the hook
succeeds, and the tags list it stores is the list of tags the loop sees (the tags of the
object at line 245), in the same order, with `topic:` put in front of every tag that has no
colon, with every tag that then begins with `bookshelf` left out, and with every other tag
unchanged; when the object has no tags at line 245 the stored list is empty. -/
theorem stored_tags_normalised (toLowerCase : String → String) (request : Request) (src : String)
    (hsrc : (resolveUpdateSource request).1 = some src) :
    ∃ out, beforeSave toLowerCase request = Except.ok out ∧
      out.tags = some ((((prepared src request).tags.getD []).map withTopic).filter
        (fun t => !isBookshelfTag t)) ∧
      (∀ t, indexOf t ":" < 0 → withTopic t = "topic:" ++ t) ∧
      (∀ t, ¬ indexOf t ":" < 0 → withTopic t = t) ∧
      (∀ t, isBookshelfTag t = true ↔ "bookshelf".data <+: t.data) ∧
      ((prepared src request).tags = none → out.tags = some []) := by
  refine ⟨_, beforeSave_ok request src hsrc, normalize_tags _ _ _, ?_, ?_, isBookshelfTag_iff, ?_⟩
  · intro t ht
    simp [withTopic, ht]
  · intro t ht
    simp [withTopic, ht]
  · intro hn
    rw [normalize_tags, hn]
    rfl

/-- Witness of C3: `nature` is stored as `topic:nature` and `bookshelf:Featured` is left
out. -/
theorem stored_tags_normalised_witness :
    ∃ out, beforeSave asciiLowerCase shelfSave = Except.ok out ∧
      out.tags = some ((((prepared "saveAllBooks" shelfSave).tags.getD []).map withTopic).filter
        (fun t => !isBookshelfTag t)) ∧
      (∀ t, indexOf t ":" < 0 → withTopic t = "topic:" ++ t) ∧
      (∀ t, ¬ indexOf t ":" < 0 → withTopic t = t) ∧
      (∀ t, isBookshelfTag t = true ↔ "bookshelf".data <+: t.data) ∧
      ((prepared "saveAllBooks" shelfSave).tags = none → out.tags = some []) :=
  stored_tags_normalised asciiLowerCase shelfSave "saveAllBooks" (by decide)

/-- C4, as stated, fails: for the desktop upload `shelfUpload` the hook stores the tags
`region:Asia`, `topic:health` and also `system:Incoming`, and a search string that contains
`featured`. -/
theorem shelf_extraction_counterexample :
    (beforeSave asciiLowerCase shelfUpload).toOption.map Book.tags
      = some (some ["region:Asia", "topic:health", "system:Incoming"]) ∧
    (beforeSave asciiLowerCase shelfUpload).toOption.map Book.search
      = some (some "health in asia featured asia health") ∧
    ¬ ∃ out search, beforeSave asciiLowerCase shelfUpload = Except.ok out ∧
      out.tags = some ["region:Asia", "topic:health"] ∧
      out.bookshelves = some ["Featured"] ∧
      out.search = some search ∧
      includes search "asia" = true ∧ includes search "health" = true ∧
      includes search "featured" = false := by
  refine ⟨by decide, by decide, ?_⟩
  rintro ⟨out, search, h, ht, -⟩
  have h1 : beforeSave asciiLowerCase shelfUpload = Except.ok
      (normalize asciiLowerCase "BloomDesktop 4.7" none (prepared "BloomDesktop 4.7" shelfUpload)) := by decide
  rw [h1] at h
  simp only [Except.ok.injEq] at h
  subst h
  revert ht
  decide

/-- C4, amended: a desktop-sourced write with incoming tags `bookshelf:Featured`,
`region:Asia`, `topic:health` (and no original tags to unite) is stored with the tags
`region:Asia`, `topic:health`, `system:Incoming`, with the bookshelves `Featured`, and with
the search string made of the lowercased title followed by ` featured asia health`, which
contains `asia`, `health` and `featured`. This holds for every title and every lowercasing
that turns `Featured`, `Asia` and `health` into `featured`, `asia` and `health`, as the
lowercasing of JavaScript does. -/
theorem shelf_extraction (toLowerCase : String → String) (request : Request) (src : String)
    (hsrc : (resolveUpdateSource request).1 = some src)
    (hdesk : startsWith src "BloomDesktop" = true)
    (htags : request.object.tags = some ["bookshelf:Featured", "region:Asia", "topic:health"])
    (horig : (request.original.bind Book.tags).getD [] = [])
    (hFeatured : toLowerCase "Featured" = "featured")
    (hAsia : toLowerCase "Asia" = "asia")
    (hhealth : toLowerCase "health" = "health") :
    ∃ out search, beforeSave toLowerCase request = Except.ok out ∧
      out.tags = some ["region:Asia", "topic:health", "system:Incoming"] ∧
      out.bookshelves = some ["Featured"] ∧
      out.search = some search ∧
      search = toLowerCase (request.object.title.getD "") ++ " featured asia health" ∧
      includes search "asia" = true ∧ includes search "health" = true ∧
      includes search "featured" = true := by
  have hp : (prepared src request).tags =
      some ["bookshelf:Featured", "region:Asia", "topic:health", "system:Incoming"] := by
    rw [prepared_tags_desktop _ _ hdesk, htags, horig]
    decide
  have hc : concat ((searchedTags
      ["bookshelf:Featured", "region:Asia", "topic:health", "system:Incoming"]).map
        (searchToken toLowerCase)) = " featured asia health" := by
    have hs : searchedTags
        ["bookshelf:Featured", "region:Asia", "topic:health", "system:Incoming"] =
        ["bookshelf:Featured", "region:Asia", "topic:health"] := by decide
    have e1 : substr (withTopic "bookshelf:Featured") (colonIndex "bookshelf:Featured" + 1) =
        "Featured" := by decide
    have e2 : substr (withTopic "region:Asia") (colonIndex "region:Asia" + 1) = "Asia" := by
      decide
    have e3 : substr (withTopic "topic:health") (colonIndex "topic:health" + 1) = "health" := by
      decide
    rw [hs]
    simp only [List.map_cons, List.map_nil, searchToken, concat]
    rw [e1, e2, e3, hFeatured, hAsia, hhealth]
    decide
  refine ⟨_, _, beforeSave_ok request src hsrc, ?_, ?_, normalize_search _ _ _, ?_, ?_, ?_, ?_⟩
  · rw [normalize_tags, hp]
    decide
  · rw [normalize_bookshelves]
    unfold tagLoop
    rw [hp]
    simp only [List.foldl_cons, List.foldl_nil]
    have h1 : isBookshelfTag (withTopic "system:Incoming") = false := by decide
    have h2 : isBookshelfTag (withTopic "topic:health") = false := by decide
    have h3 : isBookshelfTag (withTopic "region:Asia") = false := by decide
    have h4 : isBookshelfTag (withTopic "bookshelf:Featured") = true := by decide
    have h5 : replace (withTopic "bookshelf:Featured") "bookshelf:" "" = "Featured" := by decide
    rw [loopBody_bookshelves, loopBody_bookshelves, loopBody_bookshelves, loopBody_bookshelves,
      hdesk, h1, h2, h3, h4, h5]
    rfl
  · rw [hp, prepared_title]
    simp only [Option.getD_some]
    rw [hc]
  · rw [hp]
    simp only [Option.getD_some]
    rw [hc]
    exact includes_append _ _ _ (by decide)
  · rw [hp]
    simp only [Option.getD_some]
    rw [hc]
    exact includes_append _ _ _ (by decide)
  · rw [hp]
    simp only [Option.getD_some]
    rw [hc]
    exact includes_append _ _ _ (by decide)

/-- Witness of the amended C4 at `shelfUpload`, whose title `Health in Asia` is stored in
lowercase at the head of the search string. -/
theorem shelf_extraction_witness :
    (∃ out search, beforeSave asciiLowerCase shelfUpload = Except.ok out ∧
      out.tags = some ["region:Asia", "topic:health", "system:Incoming"] ∧
      out.bookshelves = some ["Featured"] ∧
      out.search = some search ∧
      search = asciiLowerCase (shelfUpload.object.title.getD "") ++ " featured asia health" ∧
      includes search "asia" = true ∧ includes search "health" = true ∧
      includes search "featured" = true) ∧
    (beforeSave asciiLowerCase shelfUpload).toOption.map Book.search
      = some (some "health in asia featured asia health") :=
  ⟨shelf_extraction asciiLowerCase shelfUpload "BloomDesktop 4.7" (by decide) (by decide)
    (by decide) (by decide) (by decide) (by decide) (by decide), by decide⟩

/-- C5, as stated, fails: for `shelfSave` the stored tags are `topic:nature` alone, so the
claimed search string is `flowers nature`, while the hook stores `flowers featured nature`:
the tag `bookshelf:Featured`, which is not retained, adds `featured`. -/
theorem search_of_retained_tags_counterexample :
    beforeSave asciiLowerCase shelfSave = Except.ok shelfSaved ∧
    shelfSaved.tags = some ["topic:nature"] ∧
    specSearch asciiLowerCase shelfSaved.title ["topic:nature"] = "flowers nature" ∧
    shelfSaved.search = some "flowers featured nature" ∧
    ¬ ∀ (request : Request) (out : Book), beforeSave asciiLowerCase request = Except.ok out →
      out.search = some (specSearch asciiLowerCase out.title (out.tags.getD [])) := by
  refine ⟨by decide, by decide, by decide, by decide, ?_⟩
  intro h
  have h1 := h shelfSave shelfSaved (by decide)
  revert h1
  decide

/-- C5, amended: whenever the update source resolves to a string the hook succeeds, and the
search string it stores is the lowercased title (the empty string when the title is absent)
followed, for each tag seen by the loop, with its `topic:` prefix supplied, that does not
start with `system:` (whether the tag is retained in the stored tags or is a bookshelf tag
that is left out of them), in order, by a space and the lowercased text after the tag's first
colon. -/
theorem search_derivation (toLowerCase : String → String) (request : Request) (src : String)
    (hsrc : (resolveUpdateSource request).1 = some src) :
    ∃ out, beforeSave toLowerCase request = Except.ok out ∧
      out.tags = some ((((prepared src request).tags.getD []).map withTopic).filter
        (fun t => !isBookshelfTag t)) ∧
      out.search = some (toLowerCase (request.object.title.getD "") ++
        concat (((((prepared src request).tags.getD []).map withTopic).filter
          (fun t => !startsWith t "system:")).map
            (fun t => " " ++ toLowerCase (substr t (indexOf t ":" + 1))))) := by
  refine ⟨_, beforeSave_ok request src hsrc, normalize_tags _ _ _, ?_⟩
  rw [normalize_search, map_searchToken, prepared_title]

/-- Witness of the amended C5 at `shelfSave`. -/
theorem search_derivation_witness :
    (∃ out, beforeSave asciiLowerCase shelfSave = Except.ok out ∧
      out.tags = some ((((prepared "saveAllBooks" shelfSave).tags.getD []).map withTopic).filter
        (fun t => !isBookshelfTag t)) ∧
      out.search = some (asciiLowerCase (shelfSave.object.title.getD "") ++
        concat (((((prepared "saveAllBooks" shelfSave).tags.getD []).map withTopic).filter
          (fun t => !startsWith t "system:")).map
            (fun t => " " ++ asciiLowerCase (substr t (indexOf t ":" + 1)))))) ∧
    (beforeSave asciiLowerCase shelfSave).toOption.map Book.search = some (some "flowers featured nature") :=
  ⟨search_derivation asciiLowerCase shelfSave "saveAllBooks" (by decide), by decide⟩

/-- C6. System tags add nothing to the search string: take a request on which the hook
succeeds and replace its incoming tags by any tags that differ from them only in entries
starting with `system:` (inserted or removed anywhere); the hook succeeds again and stores
the same search string. -/
theorem system_tags_not_searched (toLowerCase : String → String) (request : Request) (src : String)
    (tags : Option (List String))
    (hsrc : (resolveUpdateSource request).1 = some src)
    (h : (tags.getD []).filter (fun t => !startsWith t "system:") =
      (request.object.tags.getD []).filter (fun t => !startsWith t "system:")) :
    ∃ out1 out2, beforeSave toLowerCase request = Except.ok out1 ∧
      beforeSave toLowerCase { request with object := { request.object with tags := tags } }
        = Except.ok out2 ∧
      out2.search = out1.search := by
  have hsrc2 : (resolveUpdateSource
      { request with object := { request.object with tags := tags } }).1 = some src := by
    rw [← hsrc]
    apply resolve_fst_congr
    · rfl
    · rfl
    · intro _
      rfl
  refine ⟨_, _, beforeSave_ok request src hsrc, beforeSave_ok _ src hsrc2, ?_⟩
  simp only [normalize_search, prepared_title, searchedTags_prepared, h]

/-- Witness of C6: title `Flowers` with the tags `system:incoming` and `topic:nature` is
stored with the search string `flowers nature`, and so is the same record without the system
tag. -/
theorem system_tags_not_searched_witness :
    (∃ out1 out2, beforeSave asciiLowerCase flowersSave = Except.ok out1 ∧
      beforeSave asciiLowerCase { flowersSave with
          object := { flowersSave.object with tags := some ["topic:nature"] } }
        = Except.ok out2 ∧
      out2.search = out1.search) ∧
    (beforeSave asciiLowerCase flowersSave).toOption.map Book.search = some (some "flowers nature") :=
  ⟨system_tags_not_searched asciiLowerCase flowersSave "unknown" (some ["topic:nature"]) (by decide)
    (by decide), by decide⟩

/-- C7, as stated, fails: the hook stores `shelfSaved` for `shelfSave`, with the search
string `flowers featured nature`; run again on `shelfSaved` (as incoming and as original
record, same update source) it stores the search string `flowers nature`. -/
theorem renormalisation_counterexample :
    beforeSave asciiLowerCase shelfSave = Except.ok shelfSaved ∧
    shelfSaved.search = some "flowers featured nature" ∧
    (beforeSave asciiLowerCase { shelfSave with object := shelfSaved, original := some shelfSaved }).toOption.map
      Book.search = some (some "flowers nature") ∧
    ¬ ∀ (request : Request) (out1 out2 : Book), beforeSave asciiLowerCase request = Except.ok out1 →
      beforeSave asciiLowerCase { request with object := out1, original := some out1 } = Except.ok out2 →
      out2.tags = out1.tags ∧ out2.search = out1.search ∧
        out2.bookshelves = out1.bookshelves ∧
        out2.bookLineageArray = out1.bookLineageArray := by
  refine ⟨by decide, by decide, by decide, ?_⟩
  intro h
  have h1 := (h shelfSave shelfSaved
    { shelfSaved with search := some "flowers nature" } (by decide) (by decide)).2.1
  revert h1
  decide

/-- C7, amended: whenever the update source resolves to a string, the hook succeeds, and
succeeds again on the record it produced (taken both as the incoming and as the persisted
record, with the same headers and dirty keys, hence the same update source); the second
application stores the same tags, the same bookshelves and the same bookLineageArray as the
first, and the same search string provided no tag seen by the first application began with
`bookshelf` once its `topic:` prefix was supplied. -/
theorem renormalisation (toLowerCase : String → String) (request : Request) (src : String)
    (hsrc : (resolveUpdateSource request).1 = some src) :
    ∃ out1 out2, beforeSave toLowerCase request = Except.ok out1 ∧
      beforeSave toLowerCase { request with object := out1, original := some out1 } = Except.ok out2 ∧
      out2.tags = out1.tags ∧
      out2.bookshelves = out1.bookshelves ∧
      out2.bookLineageArray = out1.bookLineageArray ∧
      ((∀ t ∈ (prepared src request).tags.getD [], isBookshelfTag (withTopic t) = false) →
        out2.search = out1.search) := by
  obtain ⟨hk1, hu1, ht1, hl1⟩ :=
    @normalize_meta toLowerCase src request.user (prepared src request)
  obtain ⟨hk0, hu0⟩ := prepared_meta src request
  have htags1 := @normalize_tags toLowerCase src request.user (prepared src request)
  have hsrc2 : (resolveUpdateSource
      { request with object := normalize toLowerCase src request.user (prepared src request),
                     original := some (normalize toLowerCase src request.user (prepared src request)) }).1
      = some src := by
    rw [← hsrc]
    apply resolve_fst_congr
    · exact hk1.trans hk0
    · rfl
    · intro hd
      exact (hu1.trans hu0).trans (resolve_snd_updateSource request hd)
  have hp2 := prepared_tags_again src request _ _ htags1
    (incoming_mem_keptTags_desktop src request)
  refine ⟨_, _, beforeSave_ok request src hsrc, beforeSave_ok _ src hsrc2, ?_, ?_, ?_, ?_⟩
  · rw [normalize_tags, hp2, htags1, Option.getD_some, keptTags_idem]
  · rw [normalize_bookshelves, tagLoop, hp2]
    simp only []
    rw [foldl_bookshelves_of_no_shelf, prepared_bookshelves]
    intro t ht
    have h := mem_keptTags _ t ht
    rw [h.1]
    exact h.2
  · rw [normalize_bookLineageArray, normalize_bookLineageArray, prepared_bookLineage,
      prepared_bookLineage]
    exact congrArg lineageArray (hl1.trans (prepared_bookLineage src request))
  · intro hno
    rw [normalize_search, normalize_search, hp2, prepared_title, prepared_title, ht1,
      prepared_title, Option.getD_some, keptTags_of_no_shelf _ hno, map_searchToken_withTopic]

/-- Witness of the amended C7: a save without bookshelf tags is stored identically at the
second application, search string included. -/
theorem renormalisation_witness :
    (∃ out1 out2, beforeSave asciiLowerCase flowersSave = Except.ok out1 ∧
      beforeSave asciiLowerCase { flowersSave with object := out1, original := some out1 } = Except.ok out2 ∧
      out2.tags = out1.tags ∧
      out2.bookshelves = out1.bookshelves ∧
      out2.bookLineageArray = out1.bookLineageArray ∧
      ((∀ t ∈ (prepared "unknown" flowersSave).tags.getD [],
          isBookshelfTag (withTopic t) = false) →
        out2.search = out1.search)) ∧
    (∀ t ∈ (prepared "unknown" flowersSave).tags.getD [],
      isBookshelfTag (withTopic t) = false) :=
  ⟨renormalisation asciiLowerCase flowersSave "unknown" (by decide), by decide⟩

/-- C8. Resolution of `updateSource`: a caller-supplied value (the key is dirty and the value
is a string) is stored as it is; otherwise the stored value is `BloomDesktop old` when the
user-agent header starts with `RestSharp`, else `parse dashboard` when the referer header
contains `dashboard/apps/BloomLibrary.org`, else `unknown`. In each case the hook succeeds. -/
theorem updateSource_resolution (toLowerCase : String → String) (request : Request) :
    (∀ s, request.object.dirtyKeys.contains "updateSource" = true →
      request.object.updateSource = some s →
      ∃ out, beforeSave toLowerCase request = Except.ok out ∧ out.updateSource = some s) ∧
    (request.object.dirtyKeys.contains "updateSource" = false →
      ∃ out, beforeSave toLowerCase request = Except.ok out ∧
        ((∃ ua, request.headers.userAgent = some ua ∧ startsWith ua "RestSharp" = true) →
          out.updateSource = some "BloomDesktop old") ∧
        (¬ (∃ ua, request.headers.userAgent = some ua ∧ startsWith ua "RestSharp" = true) →
          (∃ r, request.headers.referer = some r ∧
            indexOf r "dashboard/apps/BloomLibrary.org" > -1) →
          out.updateSource = some "parse dashboard") ∧
        (¬ (∃ ua, request.headers.userAgent = some ua ∧ startsWith ua "RestSharp" = true) →
          ¬ (∃ r, request.headers.referer = some r ∧
            indexOf r "dashboard/apps/BloomLibrary.org" > -1) →
          out.updateSource = some "unknown")) := by
  constructor
  · intro s hd hs
    have hd1 : "updateSource" ∈ request.object.dirtyKeys := by simpa using hd
    have hsrc : (resolveUpdateSource request).1 = some s := by
      simp [resolveUpdateSource, hd1, hs]
    refine ⟨_, beforeSave_ok request s hsrc, ?_⟩
    rw [stored_updateSource]
    simp [resolveUpdateSource, hd1, hs]
  · intro hd
    have key : ∃ src, (resolveUpdateSource request).1 = some src ∧
        (resolveUpdateSource request).2.updateSource = some src ∧
        src = (if (∃ ua, request.headers.userAgent = some ua ∧ startsWith ua "RestSharp" = true)
          then "BloomDesktop old"
          else if (∃ r, request.headers.referer = some r ∧
            indexOf r "dashboard/apps/BloomLibrary.org" > -1) then "parse dashboard"
          else "unknown") := by
      unfold resolveUpdateSource
      simp only [hd, Bool.not_false, if_true]
      cases hua : request.headers.userAgent with
      | none =>
        cases hr : request.headers.referer with
        | none => simp [truthy]
        | some r =>
          by_cases hc : indexOf r "dashboard/apps/BloomLibrary.org" > -1
          · have hne : r.data ≠ [] := by
              intro he
              have : indexOf r "dashboard/apps/BloomLibrary.org" = -1 := by
                unfold indexOf
                rw [he]
                decide
              omega
            simp [truthy, hc, hne]
          · simp [truthy, hc]
      | some ua =>
        by_cases hs : startsWith ua "RestSharp" = true
        · have hne : ua.data ≠ [] := by
            intro he
            have : startsWith ua "RestSharp" = false := by
              unfold startsWith
              rw [he]
              decide
            rw [hs] at this
            exact Bool.noConfusion this
          simp [truthy, hs, hne]
        · cases hr : request.headers.referer with
          | none => simp [truthy, hs]
          | some r =>
            by_cases hc : indexOf r "dashboard/apps/BloomLibrary.org" > -1
            · have hne : r.data ≠ [] := by
                intro he
                have : indexOf r "dashboard/apps/BloomLibrary.org" = -1 := by
                  unfold indexOf
                  rw [he]
                  decide
                omega
              simp [truthy, hs, hc, hne]
            · simp [truthy, hs, hc]
    obtain ⟨src, h1, h2, h3⟩ := key
    refine ⟨_, beforeSave_ok request src h1, ?_, ?_, ?_⟩
    · intro hua
      rw [stored_updateSource, h2, h3, if_pos hua]
    · intro hua hr
      rw [stored_updateSource, h2, h3, if_neg hua, if_pos hr]
    · intro hua hr
      rw [stored_updateSource, h2, h3, if_neg hua, if_neg hr]

/-- Witness of C8: the four ways the update source is resolved. -/
theorem updateSource_resolution_witness :
    (beforeSave asciiLowerCase shelfSave).toOption.map Book.updateSource = some (some "saveAllBooks") ∧
    (beforeSave asciiLowerCase restSharpUpload).toOption.map Book.updateSource
      = some (some "BloomDesktop old") ∧
    (beforeSave asciiLowerCase dashboardEdit).toOption.map Book.updateSource = some (some "parse dashboard") ∧
    (beforeSave asciiLowerCase (requestOf emptyBook)).toOption.map Book.updateSource = some (some "unknown") ∧
    (∃ out, beforeSave asciiLowerCase shelfSave = Except.ok out ∧ out.updateSource = some "saveAllBooks") :=
  ⟨by decide, by decide, by decide, by decide,
   (updateSource_resolution asciiLowerCase shelfSave).1 "saveAllBooks" (by decide) (by decide)⟩

/-- C9. System marker: whenever the update source resolves to a string the hook succeeds
and stores a tags list. For a desktop-sourced write that list contains `system:Incoming`,
and contains it exactly once when the incoming tags contained it at most once (whatever the
original tags were). For any other write the hook adds none: the stored list has as many
`system:Incoming` entries as the incoming tags, so it contains one only if they did. -/
theorem system_marker (toLowerCase : String → String) (request : Request) (src : String)
    (hsrc : (resolveUpdateSource request).1 = some src) :
    ∃ out tags, beforeSave toLowerCase request = Except.ok out ∧ out.tags = some tags ∧
      (startsWith src "BloomDesktop" = true →
        "system:Incoming" ∈ tags ∧
        ((request.object.tags.getD []).count "system:Incoming" ≤ 1 →
          tags.count "system:Incoming" = 1)) ∧
      (startsWith src "BloomDesktop" = false →
        tags.count "system:Incoming" = (request.object.tags.getD []).count "system:Incoming" ∧
        ("system:Incoming" ∈ tags ↔ "system:Incoming" ∈ request.object.tags.getD [])) := by
  refine ⟨_, _, beforeSave_ok request src hsrc, normalize_tags _ _ _, ?_, ?_⟩
  · intro hd
    have hc : (keptTags ((prepared src request).tags.getD [])).count "system:Incoming" =
        (addUnique request.object.tags "system:Incoming").count "system:Incoming" := by
      rw [count_keptTags_incoming, prepared_tags_desktop _ _ hd, Option.getD_some,
        addAllUnique_count_of_mem _ _ _ (addUnique_mem _ _)]
    constructor
    · rw [← List.one_le_count_iff, hc]
      exact List.one_le_count_iff.2 (addUnique_mem _ _)
    · intro h1
      rw [hc, addUnique_count _ _ h1]
  · intro hd
    have hc : (keptTags ((prepared src request).tags.getD [])).count "system:Incoming" =
        (request.object.tags.getD []).count "system:Incoming" := by
      rw [count_keptTags_incoming, prepared_tags_other _ _ hd]
    refine ⟨hc, ?_⟩
    rw [← List.one_le_count_iff, ← List.one_le_count_iff, hc]

/-- Witness of C9: a desktop upload that already carries the marker is stored with one
marker; the maintenance sources `saveAllBooks` and `incrementDownloadCount` are not desktop
sources, and a `saveAllBooks` write is stored without the marker. -/
theorem system_marker_witness :
    (∃ out tags, beforeSave asciiLowerCase markedUpload = Except.ok out ∧ out.tags = some tags ∧
      (startsWith "BloomDesktop 4.7" "BloomDesktop" = true →
        "system:Incoming" ∈ tags ∧
        ((markedUpload.object.tags.getD []).count "system:Incoming" ≤ 1 →
          tags.count "system:Incoming" = 1)) ∧
      (startsWith "BloomDesktop 4.7" "BloomDesktop" = false →
        tags.count "system:Incoming"
          = (markedUpload.object.tags.getD []).count "system:Incoming" ∧
        ("system:Incoming" ∈ tags ↔ "system:Incoming" ∈ markedUpload.object.tags.getD []))) ∧
    (beforeSave asciiLowerCase markedUpload).toOption.map Book.tags
      = some (some ["system:Incoming", "topic:health"]) ∧
    startsWith "saveAllBooks" "BloomDesktop" = false ∧
    startsWith "incrementDownloadCount" "BloomDesktop" = false ∧
    (beforeSave asciiLowerCase shelfSave).toOption.map Book.tags = some (some ["topic:nature"]) :=
  ⟨system_marker asciiLowerCase markedUpload "BloomDesktop 4.7" (by decide), by decide, by decide, by decide,
   by decide⟩

/-- C10. `harvestState`: whenever the update source resolves to a string the hook succeeds;
for a desktop-sourced write it stores `New` when the record is new and `Updated` otherwise,
and for any other write it stores the `harvestState` the incoming object had. -/
theorem harvestState_set (toLowerCase : String → String) (request : Request) (src : String)
    (hsrc : (resolveUpdateSource request).1 = some src) :
    ∃ out, beforeSave toLowerCase request = Except.ok out ∧
      (startsWith src "BloomDesktop" = true →
        out.harvestState = some (if request.object.isNew then "New" else "Updated")) ∧
      (startsWith src "BloomDesktop" = false →
        out.harvestState = request.object.harvestState) := by
  refine ⟨_, beforeSave_ok request src hsrc, ?_, ?_⟩
  · intro hd
    rw [stored_harvestState, hd]
    rfl
  · intro hd
    rw [stored_harvestState, hd]
    rfl

/-- Witness of C10: a first upload from an old BloomDesktop is stored with `New`, a
re-upload with `Updated`, and a dashboard edit keeps the state `Done`. -/
theorem harvestState_set_witness :
    (∃ out, beforeSave asciiLowerCase restSharpUpload = Except.ok out ∧
      (startsWith "BloomDesktop old" "BloomDesktop" = true →
        out.harvestState = some (if restSharpUpload.object.isNew then "New" else "Updated")) ∧
      (startsWith "BloomDesktop old" "BloomDesktop" = false →
        out.harvestState = restSharpUpload.object.harvestState)) ∧
    (beforeSave asciiLowerCase restSharpUpload).toOption.map Book.harvestState = some (some "New") ∧
    (beforeSave asciiLowerCase summaryErased).toOption.map Book.harvestState = some (some "Updated") ∧
    (beforeSave asciiLowerCase dashboardEdit).toOption.map Book.harvestState = some (some "Done") :=
  ⟨harvestState_set asciiLowerCase restSharpUpload "BloomDesktop old" (by decide), by decide, by decide,
   by decide⟩

/-! ## The bookshelf policy -/

theorem replace_bookshelf (X : String) : replace ("bookshelf:" ++ X) "bookshelf:" "" = X := by
  unfold replace
  rw [String.data_append]
  have h1 : "bookshelf:".data = ['b', 'o', 'o', 'k', 's', 'h', 'e', 'l', 'f', ':'] := rfl
  have h2 : "".data = [] := rfl
  rw [h1, h2]
  simp [replaceAux, List.isPrefixOf]

theorem withTopic_bookshelf (X : String) : withTopic ("bookshelf:" ++ X) = "bookshelf:" ++ X := by
  have h : ¬ indexOf ("bookshelf:" ++ X) ":" < 0 := by
    rw [indexOf_colon_neg, String.data_append]
    have h1 : "bookshelf:".data = ['b', 'o', 'o', 'k', 's', 'h', 'e', 'l', 'f', ':'] := rfl
    rw [h1]
    simp
  simp [withTopic, h]

theorem isBookshelfTag_bookshelf (X : String) : isBookshelfTag ("bookshelf:" ++ X) = true := by
  rw [isBookshelfTag_iff, String.data_append]
  exact ⟨[':'] ++ X.data, rfl⟩

theorem addUnique_eq (value : Option (List String)) (item : String) :
    addUnique value item =
      if item ∈ value.getD [] then value.getD [] else value.getD [] ++ [item] := by
  unfold addUnique addAllUnique
  cases value with
  | none => simp [unique]
  | some v =>
    by_cases h : item ∈ v
    · simp [unique, h]
    · simp [unique, h]

theorem foldl_bookshelves_last {toLowerCase : String → String}
    (src : String) (pre post : List String) (tag : String)
    (st : LoopState) (hpost : ∀ t ∈ post, isBookshelfTag (withTopic t) = false) :
    ((pre ++ tag :: post).foldl (loopBody toLowerCase src) st).bookshelves =
      (loopBody toLowerCase src (pre.foldl (loopBody toLowerCase src) st) tag).bookshelves := by
  rw [List.foldl_append, List.foldl_cons, foldl_bookshelves_of_no_shelf _ _ _ hpost]

theorem addUnique_no_shelf (value : List String) (item : String)
    (hv : ∀ t ∈ value, isBookshelfTag (withTopic t) = false)
    (hi : isBookshelfTag (withTopic item) = false) :
    ∀ t ∈ addUnique (some value) item, isBookshelfTag (withTopic t) = false := by
  intro t ht
  rw [addUnique_eq] at ht
  simp only [Option.getD_some] at ht
  split_ifs at ht
  · exact hv t ht
  · rw [List.mem_append, List.mem_singleton] at ht
    rcases ht with h | h
    · exact hv t h
    · rw [h]; exact hi

theorem desktop_seen (inc ot : List String) :
    ∃ extra, addAllUnique (some (addUnique (some inc) "system:Incoming")) ot = inc ++ extra ∧
      ∀ t ∈ extra, t = "system:Incoming" ∨ t ∈ ot := by
  rw [addUnique_eq]
  simp only [Option.getD_some]
  unfold addAllUnique
  split_ifs with h
  · refine ⟨_, rfl, ?_⟩
    intro t ht
    rw [List.mem_filter] at ht
    exact Or.inr (unique_subset ot t ht.1)
  · refine ⟨["system:Incoming"] ++
      (unique ot).filter (fun x => !(inc ++ ["system:Incoming"]).contains x), ?_, ?_⟩
    · simp
    · intro t ht
      rw [List.mem_append, List.mem_singleton, List.mem_filter] at ht
      rcases ht with h1 | h1
      · exact Or.inl h1
      · exact Or.inr (unique_subset ot t h1.1)

theorem foldl_bookshelves_add {toLowerCase : String → String} (src X : String)
    (hnd : startsWith src "BloomDesktop" = false) (tags : List String) (st : LoopState) :
    ∃ added,
      (tags.foldl (loopBody toLowerCase src) st).bookshelves.getD [] = st.bookshelves.getD [] ++ added ∧
      (∀ s ∈ added, s ∉ st.bookshelves.getD []) ∧ added.Nodup ∧
      (st.bookshelves.isSome = true →
        (tags.foldl (loopBody toLowerCase src) st).bookshelves.isSome = true) ∧
      (("bookshelf:" ++ X) ∈ tags →
        X ∈ st.bookshelves.getD [] ++ added ∧
        (tags.foldl (loopBody toLowerCase src) st).bookshelves.isSome = true) := by
  induction tags generalizing st with
  | nil => exact ⟨[], by simp, by simp, List.nodup_nil, fun h => h, fun h => by simp at h⟩
  | cons t ts ih =>
    rw [List.foldl_cons]
    obtain ⟨added, h1, h2, h3, h4, h5⟩ := ih (loopBody toLowerCase src st t)
    by_cases hb : isBookshelfTag (withTopic t) = true
    · have hst : (loopBody toLowerCase src st t).bookshelves =
          some (addUnique st.bookshelves (replace (withTopic t) "bookshelf:" "")) := by
        rw [loopBody_bookshelves, hb, hnd]
        rfl
      have hsome : (loopBody toLowerCase src st t).bookshelves.isSome = true := by rw [hst]; rfl
      rw [hst, Option.getD_some, addUnique_eq] at h1 h2 h5
      by_cases hin : replace (withTopic t) "bookshelf:" "" ∈ st.bookshelves.getD []
      · rw [if_pos hin] at h1 h2 h5
        refine ⟨added, h1, h2, h3, fun _ => h4 hsome, ?_⟩
        intro hm
        rw [List.mem_cons] at hm
        rcases hm with hm | hm
        · refine ⟨?_, h4 hsome⟩
          rw [← hm, withTopic_bookshelf, replace_bookshelf] at hin
          exact List.mem_append_left _ hin
        · exact h5 hm
      · rw [if_neg hin] at h1 h2 h5
        refine ⟨replace (withTopic t) "bookshelf:" "" :: added, ?_, ?_, ?_,
          fun _ => h4 hsome, ?_⟩
        · rw [h1]
          simp
        · intro s hs
          rw [List.mem_cons] at hs
          rcases hs with hs | hs
          · rw [hs]; exact hin
          · exact fun hc => h2 s hs (List.mem_append_left _ hc)
        · rw [List.nodup_cons]
          exact ⟨fun hc => h2 _ hc (List.mem_append_right _ (List.mem_singleton_self _)), h3⟩
        · intro hm
          rw [List.mem_cons] at hm
          rcases hm with hm | hm
          · refine ⟨?_, h4 hsome⟩
            rw [← hm, withTopic_bookshelf, replace_bookshelf]
            simp
          · obtain ⟨g1, g2⟩ := h5 hm
            refine ⟨?_, g2⟩
            simp only [List.mem_append, List.mem_singleton, List.mem_cons] at g1 ⊢
            tauto
    · have hb1 : isBookshelfTag (withTopic t) = false := by simpa using hb
      have hst : (loopBody toLowerCase src st t).bookshelves = st.bookshelves := by
        rw [loopBody_bookshelves, hb1]
        rfl
      rw [hst] at h1 h2 h4 h5
      refine ⟨added, h1, h2, h3, h4, ?_⟩
      intro hm
      rw [List.mem_cons] at hm
      rcases hm with hm | hm
      · exfalso
        rw [← hm, withTopic_bookshelf, isBookshelfTag_bookshelf] at hb
        exact hb rfl
      · exact h5 hm

/-- C11, as stated, fails: the desktop upload `twoShelfUpload` carries the tag
`bookshelf:Featured` (followed by `bookshelf:Other`) and is stored with the bookshelves
`[Other]`, not `[Featured]`. -/
theorem bookshelf_policy_counterexample :
    "bookshelf:Featured" ∈ twoShelfUpload.object.tags.getD [] ∧
    (beforeSave asciiLowerCase twoShelfUpload).toOption.map Book.bookshelves = some (some ["Other"]) ∧
    ¬ ∀ (request : Request) (src X : String) (out : Book),
      (resolveUpdateSource request).1 = some src → startsWith src "BloomDesktop" = true →
      ("bookshelf:" ++ X) ∈ request.object.tags.getD [] →
      beforeSave asciiLowerCase request = Except.ok out → out.bookshelves = some [X] := by
  refine ⟨by decide, by decide, ?_⟩
  intro h
  have h1 := h twoShelfUpload "BloomDesktop 4.7" "Featured"
    (normalize asciiLowerCase "BloomDesktop 4.7" none (prepared "BloomDesktop 4.7" twoShelfUpload))
    (by decide) (by decide) (by decide) (by decide)
  revert h1
  decide

/-- C11, amended: take a write whose incoming tags carry `bookshelf:X`; the hook succeeds.
A desktop-sourced write stores the bookshelves `[X]`, whatever the bookshelves were before,
when `bookshelf:X` is the last tag beginning with `bookshelf` that the loop sees (no such tag
follows it in the incoming tags and none is among the original tags). Any other write stores
the previous bookshelves followed by the added shelves: no previous shelf is removed, each
added shelf is new and is added once, and `X` is among the stored shelves; when
`bookshelf:X` is the only incoming tag beginning with `bookshelf`, the stored bookshelves are
the previous ones, with `X` appended if it was not among them. -/
theorem bookshelf_policy (toLowerCase : String → String) (request : Request) (src X : String)
    (hsrc : (resolveUpdateSource request).1 = some src)
    (hmem : ("bookshelf:" ++ X) ∈ request.object.tags.getD []) :
    ∃ out, beforeSave toLowerCase request = Except.ok out ∧
      (startsWith src "BloomDesktop" = true →
        ∀ pre post, request.object.tags = some (pre ++ ("bookshelf:" ++ X) :: post) →
        (∀ t ∈ post, isBookshelfTag (withTopic t) = false) →
        (∀ t ∈ (request.original.bind Book.tags).getD [],
          isBookshelfTag (withTopic t) = false) →
        out.bookshelves = some [X]) ∧
      (startsWith src "BloomDesktop" = false →
        (∃ added, out.bookshelves = some (request.object.bookshelves.getD [] ++ added) ∧
          (∀ s ∈ added, s ∉ request.object.bookshelves.getD []) ∧ added.Nodup ∧
          X ∈ request.object.bookshelves.getD [] ++ added) ∧
        (∀ pre post, request.object.tags = some (pre ++ ("bookshelf:" ++ X) :: post) →
          (∀ t ∈ pre, isBookshelfTag (withTopic t) = false) →
          (∀ t ∈ post, isBookshelfTag (withTopic t) = false) →
          out.bookshelves =
            some (if X ∈ request.object.bookshelves.getD []
                  then request.object.bookshelves.getD []
                  else request.object.bookshelves.getD [] ++ [X]))) := by
  refine ⟨_, beforeSave_ok request src hsrc, ?_, ?_⟩
  · intro hd pre post htags hpost horig
    obtain ⟨extra, he, hx⟩ := desktop_seen (pre ++ ("bookshelf:" ++ X) :: post)
      ((request.original.bind Book.tags).getD [])
    have hseen : (prepared src request).tags =
        some (pre ++ ("bookshelf:" ++ X) :: (post ++ extra)) := by
      rw [prepared_tags_desktop _ _ hd, htags, he]
      simp
    have hlast : ∀ t ∈ post ++ extra, isBookshelfTag (withTopic t) = false := by
      intro t ht
      rw [List.mem_append] at ht
      rcases ht with h | h
      · exact hpost t h
      · rcases hx t h with h1 | h1
        · rw [h1]; decide
        · exact horig t h1
    rw [normalize_bookshelves, tagLoop, hseen]
    simp only []
    rw [foldl_bookshelves_last _ _ _ _ _ hlast, loopBody_bookshelves, withTopic_bookshelf,
      isBookshelfTag_bookshelf, replace_bookshelf, hd]
    rfl
  · intro hd
    constructor
    · cases htags : request.object.tags with
      | none =>
        rw [htags] at hmem
        simp at hmem
      | some tags =>
        rw [htags, Option.getD_some] at hmem
        have hseen : (prepared src request).tags = some tags := by
          rw [prepared_tags_other _ _ hd, htags]
        obtain ⟨added, h1, h2, h3, -, h5⟩ := foldl_bookshelves_add src X hd tags
          { bookshelves := (prepared src request).bookshelves, tagsOutput := [],
            search := toLowerCase ((prepared src request).title.getD "") }
        obtain ⟨g1, g2⟩ := h5 hmem
        simp only [prepared_bookshelves] at h1 h2 g1 g2
        refine ⟨added, ?_, h2, h3, g1⟩
        rw [normalize_bookshelves, tagLoop, hseen]
        simp only [prepared_bookshelves]
        rw [← h1]
        cases hres : (tags.foldl (loopBody toLowerCase src)
            { bookshelves := request.object.bookshelves, tagsOutput := [],
              search := toLowerCase ((prepared src request).title.getD "") }).bookshelves with
        | none =>
          rw [hres] at g2
          simp at g2
        | some v => rfl
    · intro pre post htags hpre hpost
      have hseen : (prepared src request).tags =
          some (pre ++ ("bookshelf:" ++ X) :: post) := by
        rw [prepared_tags_other _ _ hd, htags]
      rw [normalize_bookshelves, tagLoop, hseen]
      simp only []
      rw [foldl_bookshelves_last _ _ _ _ _ hpost, loopBody_bookshelves, withTopic_bookshelf,
        isBookshelfTag_bookshelf, replace_bookshelf, hd,
        foldl_bookshelves_of_no_shelf _ _ _ hpre, prepared_bookshelves, addUnique_eq]
      rfl

/-- Witness of the amended C11: the desktop re-upload over the shelf `Old` stores
`[Featured]`; the non-desktop save over the shelf `Old` stores `[Old, Featured]`; a
non-desktop save with several bookshelf tags keeps `Old` and adds the new shelves once. -/
theorem bookshelf_policy_witness :
    (∃ out, beforeSave asciiLowerCase shelfReupload = Except.ok out ∧
      (startsWith "BloomDesktop 4.7" "BloomDesktop" = true →
        ∀ pre post, shelfReupload.object.tags = some (pre ++ ("bookshelf:" ++ "Featured") :: post) →
        (∀ t ∈ post, isBookshelfTag (withTopic t) = false) →
        (∀ t ∈ (shelfReupload.original.bind Book.tags).getD [],
          isBookshelfTag (withTopic t) = false) →
        out.bookshelves = some ["Featured"]) ∧
      (startsWith "BloomDesktop 4.7" "BloomDesktop" = false →
        (∃ added, out.bookshelves = some (shelfReupload.object.bookshelves.getD [] ++ added) ∧
          (∀ s ∈ added, s ∉ shelfReupload.object.bookshelves.getD []) ∧ added.Nodup ∧
          "Featured" ∈ shelfReupload.object.bookshelves.getD [] ++ added) ∧
        (∀ pre post,
          shelfReupload.object.tags = some (pre ++ ("bookshelf:" ++ "Featured") :: post) →
          (∀ t ∈ pre, isBookshelfTag (withTopic t) = false) →
          (∀ t ∈ post, isBookshelfTag (withTopic t) = false) →
          out.bookshelves =
            some (if "Featured" ∈ shelfReupload.object.bookshelves.getD []
                  then shelfReupload.object.bookshelves.getD []
                  else shelfReupload.object.bookshelves.getD [] ++ ["Featured"])))) ∧
    (beforeSave asciiLowerCase shelfReupload).toOption.map Book.bookshelves = some (some ["Featured"]) ∧
    (beforeSave asciiLowerCase shelfEdit).toOption.map Book.bookshelves = some (some ["Old", "Featured"]) ∧
    (beforeSave asciiLowerCase twoShelfEdit).toOption.map Book.bookshelves
      = some (some ["Old", "Featured", "Other"]) :=
  ⟨bookshelf_policy asciiLowerCase shelfReupload "BloomDesktop 4.7" "Featured" (by decide) (by decide),
   by decide, by decide, by decide⟩

/-! ## The union of the original tags into the incoming tags -/

theorem mem_unique (xs : List String) : ∀ x ∈ xs, x ∈ unique xs := by
  unfold unique
  suffices h : ∀ (acc : List String) (x : String), x ∈ acc ∨ x ∈ xs →
      x ∈ xs.foldl (fun uniques value =>
        if uniques.contains value then uniques else uniques ++ [value]) acc by
    intro x hx
    exact h [] x (Or.inr hx)
  induction xs with
  | nil =>
    intro acc x hx
    rcases hx with h | h
    · exact h
    · simp at h
  | cons y ys ih =>
    intro acc x hx
    rw [List.foldl_cons]
    apply ih
    rcases hx with h | h
    · left
      split_ifs
      · exact h
      · exact List.mem_append_left _ h
    · rw [List.mem_cons] at h
      rcases h with h1 | h1
      · left
        subst h1
        by_cases hc : x ∈ acc
        · simp [hc]
        · simp [hc]
      · right; exact h1

theorem mem_addAllUnique (v items : List String) (t : String) (h : t ∈ v ∨ t ∈ items) :
    t ∈ addAllUnique (some v) items := by
  unfold addAllUnique
  simp only [List.mem_append, List.mem_filter]
  by_cases hv : t ∈ v
  · exact Or.inl hv
  · right
    rcases h with h1 | h1
    · exact absurd h1 hv
    · exact ⟨mem_unique items t h1, by simp [hv]⟩

theorem mem_keptTags_of (seen : List String) (t : String) (ht : t ∈ seen)
    (hc : ¬ indexOf t ":" < 0) (hb : isBookshelfTag t = false) : t ∈ keptTags seen := by
  unfold keptTags
  rw [List.mem_filter, List.mem_map]
  refine ⟨⟨t, ht, ?_⟩, by simp [hb]⟩
  simp [withTopic, hc]

theorem count_keptTags (seen : List String) (t : String) (hb : isBookshelfTag t = false) :
    (keptTags seen).count t = (seen.map withTopic).count t := by
  unfold keptTags
  apply List.count_filter
  simp [hb]

theorem count_map_withTopic_zero (extra : List String) (t : String)
    (h : ∀ u ∈ extra, ¬ indexOf u ":" < 0 ∧ u ≠ t) : (extra.map withTopic).count t = 0 := by
  apply List.count_eq_zero_of_not_mem
  intro hm
  rw [List.mem_map] at hm
  obtain ⟨u, hu, hut⟩ := hm
  have h1 := h u hu
  have h2 : withTopic u = u := by simp [withTopic, h1.1]
  exact h1.2 (h2.symm.trans hut)

/-- C12, as stated, fails: the desktop re-upload `doubledUpload` carries `topic:health`
once (and the old-style tag `health`), the original record carries `topic:health` once, and
the hook stores `topic:health` twice. -/
theorem tag_union_counterexample :
    (beforeSave asciiLowerCase doubledUpload).toOption.map Book.tags
      = some (some ["topic:health", "topic:health", "system:Incoming"]) ∧
    ¬ ∀ (request : Request) (src : String) (original out : Book) (stored : List String),
      (resolveUpdateSource request).1 = some src → startsWith src "BloomDesktop" = true →
      request.original = some original → beforeSave asciiLowerCase request = Except.ok out →
      out.tags = some stored →
      ∀ t ∈ request.object.tags.getD [], t ∈ original.tags.getD [] →
        ¬ indexOf t ":" < 0 → isBookshelfTag t = false → stored.count t = 1 := by
  refine ⟨by decide, ?_⟩
  intro h
  have h1 := h doubledUpload "BloomDesktop 4.7"
    { emptyBook with isNew := false, tags := some ["topic:health", "system:Incoming"] }
    (normalize asciiLowerCase "BloomDesktop 4.7" none (prepared "BloomDesktop 4.7" doubledUpload))
    ["topic:health", "topic:health", "system:Incoming"]
    (by decide) (by decide) (by decide) (by decide) (by decide)
    "topic:health" (by decide) (by decide) (by decide) (by decide)
  revert h1
  decide

/-- C12, amended: for a desktop-sourced write to a record with a persisted original the hook
succeeds and stores a tags list that holds every original tag and every incoming tag that
contains a colon and does not begin with `bookshelf`; and the union adds no copy of a tag
the incoming tags hold: when every original tag contains a colon, an incoming tag (not
beginning with `bookshelf`) is stored as many times as the incoming tags hold it once their
`topic:` prefixes are supplied, hence once when they hold it once. -/
theorem tag_union (toLowerCase : String → String)
    (request : Request) (src : String) (original : Book)
    (hsrc : (resolveUpdateSource request).1 = some src)
    (hdesk : startsWith src "BloomDesktop" = true)
    (horig : request.original = some original) :
    ∃ out stored, beforeSave toLowerCase request = Except.ok out ∧ out.tags = some stored ∧
      (∀ t ∈ original.tags.getD [], ¬ indexOf t ":" < 0 → isBookshelfTag t = false →
        t ∈ stored) ∧
      (∀ t ∈ request.object.tags.getD [], ¬ indexOf t ":" < 0 → isBookshelfTag t = false →
        t ∈ stored) ∧
      ((∀ u ∈ original.tags.getD [], ¬ indexOf u ":" < 0) →
        ∀ t ∈ request.object.tags.getD [], isBookshelfTag t = false →
          stored.count t = ((request.object.tags.getD []).map withTopic).count t) := by
  have hseen : (prepared src request).tags =
      some (addAllUnique (some (addUnique request.object.tags "system:Incoming"))
        (original.tags.getD [])) := by
    rw [prepared_tags_desktop _ _ hdesk, horig]
    rfl
  have hinc : ∀ t ∈ request.object.tags.getD [],
      t ∈ addUnique request.object.tags "system:Incoming" := by
    intro t ht
    rw [addUnique_eq]
    split_ifs
    · exact ht
    · exact List.mem_append_left _ ht
  refine ⟨_, _, beforeSave_ok request src hsrc, normalize_tags _ _ _, ?_, ?_, ?_⟩
  · intro t ht hc hb
    rw [hseen, Option.getD_some]
    exact mem_keptTags_of _ t (mem_addAllUnique _ _ t (Or.inr ht)) hc hb
  · intro t ht hc hb
    rw [hseen, Option.getD_some]
    exact mem_keptTags_of _ t (mem_addAllUnique _ _ t (Or.inl (hinc t ht))) hc hb
  · intro hcol t ht hb
    rw [hseen, Option.getD_some, count_keptTags _ _ hb]
    unfold addAllUnique
    simp only [List.map_append, List.count_append]
    have h2 : (((unique (original.tags.getD [])).filter
        (fun x => !(addUnique request.object.tags "system:Incoming").contains x)).map
          withTopic).count t = 0 := by
      apply count_map_withTopic_zero
      intro u hu
      rw [List.mem_filter] at hu
      refine ⟨hcol u (unique_subset _ u hu.1), ?_⟩
      intro hut
      have h3 := hu.2
      rw [hut] at h3
      simp [hinc t ht] at h3
    rw [h2, addUnique_eq]
    split_ifs with hs
    · rfl
    · have hts : "system:Incoming" ≠ t := by
        intro h
        rw [h] at hs
        exact hs ht
      have h4 : withTopic "system:Incoming" = "system:Incoming" := by decide
      have h5 : List.count t ["system:Incoming"] = 0 :=
        List.count_eq_zero_of_not_mem (by simpa using hts.symm)
      simp [List.count_append, h4, h5]

/-- Witness of the amended C12: `topic:health`, carried by the upload and by the original,
is stored once, next to the incoming `level:1` and the original `region:Asia`. -/
theorem tag_union_witness :
    (∃ out stored, beforeSave asciiLowerCase unionUpload = Except.ok out ∧ out.tags = some stored ∧
      (∀ t ∈ Option.getD (some ["topic:health", "region:Asia"]) [],
        ¬ indexOf t ":" < 0 → isBookshelfTag t = false → t ∈ stored) ∧
      (∀ t ∈ unionUpload.object.tags.getD [], ¬ indexOf t ":" < 0 →
        isBookshelfTag t = false → t ∈ stored) ∧
      ((∀ u ∈ Option.getD (some ["topic:health", "region:Asia"]) [], ¬ indexOf u ":" < 0) →
        ∀ t ∈ unionUpload.object.tags.getD [], isBookshelfTag t = false →
          stored.count t = ((unionUpload.object.tags.getD []).map withTopic).count t)) ∧
    (beforeSave asciiLowerCase unionUpload).toOption.map Book.tags
      = some (some ["topic:health", "level:1", "system:Incoming", "region:Asia"]) :=
  ⟨tag_union asciiLowerCase unionUpload "BloomDesktop 4.7"
    { emptyBook with isNew := false, tags := some ["topic:health", "region:Asia"] }
    (by decide) (by decide) (by decide), by decide⟩

/-! ## The lineage array and the ACL -/

theorem join_split (s : String) : join (split s ',') "," = s := by
  unfold join split
  rw [List.map_map]
  have h : (String.data ∘ String.mk) = id := by
    funext x
    rfl
  rw [h, List.map_id]
  have h1 : ",".data = [','] := rfl
  rw [h1, List.intercalate_splitOn]

theorem truthy_iff (s : String) : truthy (some s) = true ↔ s ≠ "" := by
  unfold truthy
  constructor
  · intro h hs
    subst hs
    simp at h
  · intro h
    cases hd : s.data with
    | nil =>
      exfalso
      apply h
      cases s
      simp only at hd
      rw [hd]
    | cons c cs => simp [hd]

theorem prepared_isNew (src : String) (request : Request) :
    (prepared src request).isNew = request.object.isNew := by
  obtain ⟨u, d, t, h, s, l, p, o, hp⟩ := prepared_frame src request
  rw [hp]

theorem prepared_acl (src : String) (request : Request) :
    (prepared src request).acl = request.object.acl := by
  obtain ⟨u, d, t, h, s, l, p, o, hp⟩ := prepared_frame src request
  rw [hp]

theorem normalize_acl {toLowerCase : String → String}
    (src : String) (user : Option String) (book : Book) :
    (normalize toLowerCase src user book).acl =
      match user with
      | some creator => if book.isNew then some (newACL creator) else book.acl
      | none => book.acl := by
  unfold normalize
  cases user with
  | none => rfl
  | some u => simp only []; split_ifs <;> rfl

/-- C13, as stated, fails: a book whose `bookLineage` is present but is the empty string is
stored with `bookLineageArray` undefined, not with the split of the empty string, which is
the one-element list of the empty string. -/
theorem lineage_derivation_counterexample :
    rootBookSave.object.bookLineage = some "" ∧
    split "" ',' = [""] ∧
    (beforeSave asciiLowerCase rootBookSave).toOption.map Book.bookLineageArray = some none ∧
    ¬ ∀ (request : Request) (out : Book) (s : String), beforeSave asciiLowerCase request = Except.ok out →
      request.object.bookLineage = some s → out.bookLineageArray = some (split s ',') := by
  refine ⟨rfl, by decide, by decide, ?_⟩
  intro h
  have h1 := h rootBookSave
    (normalize asciiLowerCase "saveAllBooks" none (prepared "saveAllBooks" rootBookSave)) "" (by decide) rfl
  revert h1
  decide

/-- C13, amended: whenever the update source resolves to a string the hook succeeds; it
stores as `bookLineageArray` the list obtained by splitting `bookLineage` on the comma when
`bookLineage` is present and is not the empty string, and joining that list with the comma
gives back `bookLineage`; it stores `bookLineageArray` undefined when `bookLineage` is absent
or is the empty string. -/
theorem lineage_derivation (toLowerCase : String → String) (request : Request) (src : String)
    (hsrc : (resolveUpdateSource request).1 = some src) :
    ∃ out, beforeSave toLowerCase request = Except.ok out ∧
      (∀ s, request.object.bookLineage = some s → s ≠ "" →
        out.bookLineageArray = some (split s ',') ∧ join (split s ',') "," = s) ∧
      (request.object.bookLineage = none ∨ request.object.bookLineage = some "" →
        out.bookLineageArray = none) := by
  refine ⟨_, beforeSave_ok request src hsrc, ?_, ?_⟩
  · intro s hs hne
    refine ⟨?_, join_split s⟩
    rw [normalize_bookLineageArray, prepared_bookLineage, hs]
    unfold lineageArray
    rw [(truthy_iff s).2 hne]
    rfl
  · intro h
    rw [normalize_bookLineageArray, prepared_bookLineage]
    rcases h with h | h <;> rw [h] <;> rfl

/-- Witness of the amended C13: the lineage `a1,b2` is stored as the array of `a1` and
`b2`. -/
theorem lineage_derivation_witness :
    (∃ out, beforeSave asciiLowerCase derivedBookSave = Except.ok out ∧
      (∀ s, derivedBookSave.object.bookLineage = some s → s ≠ "" →
        out.bookLineageArray = some (split s ',') ∧ join (split s ',') "," = s) ∧
      (derivedBookSave.object.bookLineage = none ∨
          derivedBookSave.object.bookLineage = some "" →
        out.bookLineageArray = none)) ∧
    (beforeSave asciiLowerCase derivedBookSave).toOption.map Book.bookLineageArray
      = some (some ["a1", "b2"]) :=
  ⟨lineage_derivation asciiLowerCase derivedBookSave "saveAllBooks" (by decide), by decide⟩

/-- C14. Access control: whenever the update source resolves to a string the hook succeeds;
when the record is new and the request has a user, the stored ACL grants public read, write
to that user and write to the role `moderator`, and nothing else; when the record already
exists or the request has no user, the stored ACL is the one the incoming object had. -/
theorem access_control (toLowerCase : String → String) (request : Request) (src : String)
    (hsrc : (resolveUpdateSource request).1 = some src) :
    ∃ out, beforeSave toLowerCase request = Except.ok out ∧
      (∀ creator, request.object.isNew = true → request.user = some creator →
        out.acl = some { publicRead := true, publicWrite := false, readUsers := [],
                         writeUsers := [creator], readRoles := [],
                         writeRoles := ["moderator"] }) ∧
      (request.object.isNew = false ∨ request.user = none → out.acl = request.object.acl) := by
  refine ⟨_, beforeSave_ok request src hsrc, ?_, ?_⟩
  · intro creator hn hu
    rw [normalize_acl, hu]
    simp only [prepared_isNew, hn, if_true]
    rfl
  · intro h
    rw [normalize_acl]
    rcases h with h | h
    · cases request.user with
      | none => simp only [prepared_acl]
      | some u => simp only [prepared_isNew, h, Bool.false_eq_true, if_false, prepared_acl]
    · rw [h]
      simp only [prepared_acl]

/-- Witness of C14: the first upload by `user1` is stored with public read and write for
`user1` and the role `moderator`; a re-upload without a user keeps its ACL. -/
theorem access_control_witness :
    (∃ out, beforeSave asciiLowerCase firstUpload = Except.ok out ∧
      (∀ creator, firstUpload.object.isNew = true → firstUpload.user = some creator →
        out.acl = some { publicRead := true, publicWrite := false, readUsers := [],
                         writeUsers := [creator], readRoles := [],
                         writeRoles := ["moderator"] }) ∧
      (firstUpload.object.isNew = false ∨ firstUpload.user = none →
        out.acl = firstUpload.object.acl)) ∧
    (beforeSave asciiLowerCase firstUpload).toOption.map Book.acl
      = some (some { publicRead := true, publicWrite := false, readUsers := [],
                     writeUsers := ["user1"], readRoles := [], writeRoles := ["moderator"] }) ∧
    (beforeSave asciiLowerCase summaryErased).toOption.map Book.acl = some none :=
  ⟨access_control asciiLowerCase firstUpload "BloomDesktop 4.7" (by decide), by decide, by decide⟩

/-! ## The usage counts of the languages -/

theorem countPointer_apply (langCounts : LangCounts) (id k : String) :
    countPointer langCounts id k =
      if k = id then some ((langCounts id).getD 0 + 1) else langCounts k := by
  unfold countPointer
  by_cases hk : k = id
  · subst hk
    cases h : langCounts k <;> simp [h]
  · cases h : langCounts id <;> simp [h, hk]

theorem foldl_countPointer (ids : List String) (langCounts : LangCounts) (k : String) :
    ((ids.foldl countPointer langCounts) k).getD 0 = (langCounts k).getD 0 + ids.count k := by
  induction ids generalizing langCounts with
  | nil => simp
  | cons id ids ih =>
    rw [List.foldl_cons, ih, countPointer_apply, List.count_cons]
    by_cases hk : k = id
    · subst hk
      simp
      omega
    · have hk1 : ¬ id = k := fun h => hk h.symm
      simp [hk, hk1]

theorem foldl_countBook (books : List Record) (langCounts : LangCounts) (k : String) :
    ((books.foldl countBook langCounts) k).getD 0 =
      (langCounts k).getD 0 + referencesTo books k := by
  induction books generalizing langCounts with
  | nil => simp [referencesTo]
  | cons b bs ih =>
    rw [List.foldl_cons, ih]
    have hb : ((countBook langCounts b) k).getD 0 =
        (langCounts k).getD 0 + (b.langPointers.getD []).count k := by
      unfold countBook
      cases h : b.langPointers with
      | none => simp
      | some ptrs => simp [foldl_countPointer]
    rw [hb]
    simp only [referencesTo, List.map_cons, List.sum_cons]
    omega

theorem newUsageCount_eq (books : List Record) (language : Language) :
    newUsageCount (countBooks books) language = referencesTo books language.id := by
  have h := foldl_countBook books (fun _ => none) language.id
  simp only [Option.getD_none, Nat.zero_add] at h
  unfold newUsageCount
  unfold countBooks
  cases hc : List.foldl countBook (fun _ => none) books language.id with
  | none => rw [hc] at h; simpa using h
  | some n =>
    rw [hc] at h
    simp only [Option.getD_some] at h
    subst h
    simp only []
    split_ifs with h0
    · exact h0.symm
    · rfl

theorem setUsageCounts_eq (langCounts : LangCounts) (languages : List Language) :
    setUsageCounts langCounts languages =
      (languages.map (fun l => { l with usageCount := some (newUsageCount langCounts l) }),
       (languages.map (fun l => { l with usageCount := some (newUsageCount langCounts l) })).filter
          (fun l => l.usageCount = some 0)) := by
  unfold setUsageCounts
  suffices h : ∀ (acc : List Language × List Language),
      languages.foldl
        (fun acc language =>
          if newUsageCount langCounts language = 0 then
            (acc.1 ++ [{ language with usageCount := some (newUsageCount langCounts language) }],
             acc.2 ++ [{ language with usageCount := some (newUsageCount langCounts language) }])
          else
            (acc.1 ++ [{ language with usageCount := some (newUsageCount langCounts language) }],
             acc.2)) acc =
      (acc.1 ++ languages.map
          (fun l => { l with usageCount := some (newUsageCount langCounts l) }),
       acc.2 ++ (languages.map
          (fun l => { l with usageCount := some (newUsageCount langCounts l) })).filter
            (fun l => l.usageCount = some 0)) by
    have h0 := h ([], [])
    simpa using h0
  induction languages with
  | nil => intro acc; simp
  | cons l ls ih =>
    intro acc
    rw [List.foldl_cons, ih]
    by_cases h0 : newUsageCount langCounts l = 0
    · simp [h0]
    · simp [h0]

theorem referencesTo_eq_booksReferencing (books : List Record) (id : String)
    (h : ∀ b ∈ books, (b.langPointers.getD []).count id ≤ 1) :
    referencesTo books id = booksReferencing books id := by
  induction books with
  | nil => rfl
  | cons b bs ih =>
    have h1 := h b (List.mem_cons_self b bs)
    have h2 := ih (fun c hc => h c (List.mem_cons_of_mem b hc))
    unfold referencesTo booksReferencing at h2 ⊢
    rw [List.map_cons, List.sum_cons, h2, List.filter_cons]
    by_cases hm : id ∈ b.langPointers.getD []
    · have h3 : 1 ≤ (b.langPointers.getD []).count id := List.one_le_count_iff.2 hm
      simp [hm]
      omega
    · have h3 : (b.langPointers.getD []).count id = 0 := List.count_eq_zero_of_not_mem hm
      simp [hm, h3]

theorem updateLanguageRecords_saved (store : JobStore) (books : List Record)
    (languages : List Language)
    (hb : store.findBooks bookQuery = some books)
    (hl : store.findLanguages langQuery = some languages) :
    (updateLanguageRecords store).saved =
      some (languages.map (fun l => { l with usageCount := some (referencesTo books l.id) })) ∧
    (updateLanguageRecords store).finds = [bookQuery, langQuery] := by
  have hmap : languages.map
      (fun l => { l with usageCount := some (newUsageCount (countBooks books) l) }) =
      languages.map (fun l => { l with usageCount := some (referencesTo books l.id) }) := by
    apply List.map_congr_left
    intro l _
    rw [newUsageCount_eq]
  unfold updateLanguageRecords
  simp only [hb, hl, setUsageCounts_eq, hmap]
  split_ifs <;> exact ⟨rfl, rfl⟩

theorem updateLanguageRecords_finds (store : JobStore) :
    (updateLanguageRecords store).finds = [bookQuery] ∨
    (updateLanguageRecords store).finds = [bookQuery, langQuery] := by
  unfold updateLanguageRecords
  cases store.findBooks bookQuery with
  | none => left; rfl
  | some books =>
    right
    cases store.findLanguages langQuery with
    | none => rfl
    | some languages => simp only []; split_ifs <;> rfl

/-- C15. Aggregation correctness: when both fetches of the job succeed, the records the
job passes to the bulk save are the fetched languages, each with `usageCount` set to the
number of `langPointers` entries, over all fetched books, that point to it (0 when there is
none); when the bulk save succeeds, the records passed to the bulk delete are exactly the
fetched languages whose new `usageCount` is 0 (the delete is not issued when there is none),
so no language with a positive count is deleted. -/
theorem aggregation_correct (store : JobStore) (books : List Record)
    (languages : List Language)
    (hb : store.findBooks bookQuery = some books)
    (hl : store.findLanguages langQuery = some languages) :
    (updateLanguageRecords store).saved =
      some (languages.map (fun l => { l with usageCount := some (referencesTo books l.id) })) ∧
    (store.saveAll
        (languages.map (fun l => { l with usageCount := some (referencesTo books l.id) })) = true →
      (updateLanguageRecords store).destroyed.getD [] =
        (languages.map (fun l => { l with usageCount := some (referencesTo books l.id) })).filter
          (fun l => l.usageCount = some 0)) ∧
    (∀ l ∈ (updateLanguageRecords store).destroyed.getD [], referencesTo books l.id = 0) := by
  have hmap : languages.map
      (fun l => { l with usageCount := some (newUsageCount (countBooks books) l) }) =
      languages.map (fun l => { l with usageCount := some (referencesTo books l.id) }) := by
    apply List.map_congr_left
    intro l _
    rw [newUsageCount_eq]
  have hdel : ∀ l ∈ (languages.map
      (fun l => { l with usageCount := some (referencesTo books l.id) })).filter
        (fun l => l.usageCount = some 0), referencesTo books l.id = 0 := by
    intro l hl
    rw [List.mem_filter, List.mem_map] at hl
    obtain ⟨⟨l0, -, rfl⟩, h0⟩ := hl
    simpa using h0
  unfold updateLanguageRecords
  simp only [hb, hl, setUsageCounts_eq, hmap]
  split_ifs with hs h0
  · refine ⟨rfl, ?_, ?_⟩
    · intro _
      rw [List.length_eq_zero] at h0
      rw [h0]
      rfl
    · intro l hl
      simp at hl
  · exact ⟨rfl, fun _ => rfl, hdel⟩
  · refine ⟨rfl, fun h => absurd h hs, ?_⟩
    intro l hl
    simp at hl

/-- Witness of C15: `A` is referenced by three records and `B` by none; the job saves `A`
with the count 3 and `B` with the count 0, and deletes `B`. -/
theorem aggregation_correct_witness :
    ((updateLanguageRecords threeBookStore).saved =
      some ([languageOf "A", languageOf "B"].map
        (fun l => { l with usageCount := some (referencesTo threeBooks l.id) })) ∧
    (threeBookStore.saveAll ([languageOf "A", languageOf "B"].map
        (fun l => { l with usageCount := some (referencesTo threeBooks l.id) })) = true →
      (updateLanguageRecords threeBookStore).destroyed.getD [] =
        ([languageOf "A", languageOf "B"].map
          (fun l => { l with usageCount := some (referencesTo threeBooks l.id) })).filter
            (fun l => l.usageCount = some 0)) ∧
    (∀ l ∈ (updateLanguageRecords threeBookStore).destroyed.getD [],
      referencesTo threeBooks l.id = 0)) ∧
    updateLanguageRecords threeBookStore =
      { finds := [bookQuery, langQuery],
        saved := some [{ languageOf "A" with usageCount := some 3 },
                       { languageOf "B" with usageCount := some 0 }],
        destroyed := some [{ languageOf "B" with usageCount := some 0 }],
        succeeded := true } :=
  ⟨aggregation_correct threeBookStore threeBooks [languageOf "A", languageOf "B"]
    (by decide) (by decide), by decide⟩

/-- C16, as stated, fails: one fetched record names the language `A` twice in its
`langPointers`; one record references `A`, and the job sets the `usageCount` of `A` to 2. -/
theorem usage_count_meaning_counterexample :
    booksReferencing doubledBook "A" = 1 ∧
    (updateLanguageRecords doubledStore).saved
      = some [{ languageOf "A" with usageCount := some 2 }] ∧
    ¬ ∀ (store : JobStore) (books : List Record) (languages : List Language),
      store.findBooks bookQuery = some books → store.findLanguages langQuery = some languages →
      (updateLanguageRecords store).saved = some (languages.map
        (fun l => { l with usageCount := some (booksReferencing books l.id) })) := by
  refine ⟨by decide, by decide, ?_⟩
  intro h
  have h1 := h doubledStore doubledBook [languageOf "A"] (by decide) (by decide)
  revert h1
  decide

/-- C16, amended: after the job, the `usageCount` of every fetched language is the number
of `langPointers` entries of the fetched records that point to it, a record being counted
as many times as its list names the language; it equals the number of fetched records that
reference the language whenever no record names the language more than once. -/
theorem usage_count_meaning (store : JobStore) (books : List Record)
    (languages : List Language)
    (hb : store.findBooks bookQuery = some books)
    (hl : store.findLanguages langQuery = some languages) :
    ∃ saved, (updateLanguageRecords store).saved = some saved ∧
      saved.map Language.id = languages.map Language.id ∧
      (∀ l ∈ saved, l.usageCount = some (referencesTo books l.id)) ∧
      (∀ l ∈ saved, (∀ b ∈ books, (b.langPointers.getD []).count l.id ≤ 1) →
        l.usageCount = some (booksReferencing books l.id)) := by
  have hmap : languages.map
      (fun l => { l with usageCount := some (newUsageCount (countBooks books) l) }) =
      languages.map (fun l => { l with usageCount := some (referencesTo books l.id) }) := by
    apply List.map_congr_left
    intro l _
    rw [newUsageCount_eq]
  have hsaved : (updateLanguageRecords store).saved =
      some (languages.map (fun l => { l with usageCount := some (referencesTo books l.id) })) := by
    unfold updateLanguageRecords
    simp only [hb, hl, setUsageCounts_eq, hmap]
    split_ifs <;> rfl
  refine ⟨_, hsaved, ?_, ?_, ?_⟩
  · rw [List.map_map]
    rfl
  · intro l hl
    rw [List.mem_map] at hl
    obtain ⟨l0, -, rfl⟩ := hl
    rfl
  · intro l hl hone
    rw [List.mem_map] at hl
    obtain ⟨l0, -, rfl⟩ := hl
    simp only
    rw [referencesTo_eq_booksReferencing]
    exact hone

/-- Witness of the amended C16 at the three books: `A` gets the count 3, the number of
records that reference it. -/
theorem usage_count_meaning_witness :
    (∃ saved, (updateLanguageRecords threeBookStore).saved = some saved ∧
      saved.map Language.id = [languageOf "A", languageOf "B"].map Language.id ∧
      (∀ l ∈ saved, l.usageCount = some (referencesTo threeBooks l.id)) ∧
      (∀ l ∈ saved, (∀ b ∈ threeBooks, (b.langPointers.getD []).count l.id ≤ 1) →
        l.usageCount = some (booksReferencing threeBooks l.id))) ∧
    booksReferencing threeBooks "A" = 3 :=
  ⟨usage_count_meaning threeBookStore threeBooks [languageOf "A", languageOf "B"]
    (by decide) (by decide), by decide⟩

/-- C17, as stated, fails: over a store that returns one record per fetch and holds two
matching books that both point to `A`, the job issues one book fetch and one language fetch
and sets the `usageCount` of `A` to 1, the references of the first book alone, although the
matching books hold two references. -/
theorem job_pagination_counterexample :
    (updateLanguageRecords onePageStore).finds = [bookQuery, langQuery] ∧
    (updateLanguageRecords onePageStore).saved
      = some [{ languageOf "A" with usageCount := some 1 }] ∧
    referencesTo ([bookWith "b1" ["A"], bookWith "b2" ["A"]].filter bookQuery.constraints.holds)
      "A" = 2 ∧
    ¬ ∀ (cap : Nat) (catalog : List Record) (languages : List Language),
      (updateLanguageRecords (cappedStore cap catalog languages)).saved =
        some (languages.map (withReferences (catalog.filter bookQuery.constraints.holds))) := by
  refine ⟨by decide, by decide, by decide, ?_⟩
  intro h
  have h1 := h 1 [bookWith "b1" ["A"], bookWith "b2" ["A"]] [languageOf "A"]
  revert h1
  decide

/-- C17, amended: the job does not loop over pages. It issues at most one fetch of books
and one fetch of languages, each from the start (skip 0) and asking for up to 1000000
records. Over a store that returns at most `cap` records per fetch it counts the references
of the first `min cap 1000000` matching books only, and updates the first `min cap 1000000`
languages only; it covers every matching book and every language exactly when the store
returns them all to that one fetch. -/
theorem job_single_fetch (cap : Nat) (catalog : List Record) (languages : List Language) :
    (∀ store : JobStore, (updateLanguageRecords store).finds = [bookQuery] ∨
      (updateLanguageRecords store).finds = [bookQuery, langQuery]) ∧
    bookQuery.skip = 0 ∧ bookQuery.limit = some 1000000 ∧
    langQuery.skip = 0 ∧ langQuery.limit = some 1000000 ∧
    (updateLanguageRecords (cappedStore cap catalog languages)).finds
      = [bookQuery, langQuery] ∧
    (updateLanguageRecords (cappedStore cap catalog languages)).saved =
      some ((languages.take (min cap 1000000)).map
        (withReferences ((catalog.filter bookQuery.constraints.holds).take (min cap 1000000)))) ∧
    ((catalog.filter bookQuery.constraints.holds).length ≤ min cap 1000000 →
      languages.length ≤ min cap 1000000 →
      (updateLanguageRecords (cappedStore cap catalog languages)).saved =
        some (languages.map (withReferences (catalog.filter bookQuery.constraints.holds)))) := by
  have hb : (cappedStore cap catalog languages).findBooks bookQuery =
      some ((catalog.filter bookQuery.constraints.holds).take (min cap 1000000)) := rfl
  have hl : (cappedStore cap catalog languages).findLanguages langQuery =
      some (languages.take (min cap 1000000)) := rfl
  have h := updateLanguageRecords_saved _ _ _ hb hl
  refine ⟨updateLanguageRecords_finds, rfl, rfl, rfl, rfl, h.2, h.1, ?_⟩
  intro h1 h2
  rw [h.1, List.take_of_length_le h1, List.take_of_length_le h2]
  rfl

/-- Witness of the amended C17: the store returns the three books and the two languages to
the one fetch each, so every language is saved with the references of all matching books. -/
theorem job_single_fetch_witness :
    (updateLanguageRecords (cappedStore 1000000 threeBooks [languageOf "A", languageOf "B"])).saved
      = some ([languageOf "A", languageOf "B"].map
          (withReferences (threeBooks.filter bookQuery.constraints.holds))) :=
  (job_single_fetch 1000000 threeBooks [languageOf "A", languageOf "B"]).2.2.2.2.2.2.2
    (by decide) (by decide)

/-! ## The window of the merged listing -/

theorem window_append_single (first count : Nat) (l : List Record) (x : Record) :
    window first count (l ++ [x]) =
      if first ≤ l.length ∧ l.length < first + count then window first count l ++ [x]
      else window first count l := by
  unfold window
  rw [List.drop_append_eq_append_drop]
  by_cases h1 : first ≤ l.length
  · have h0 : first - l.length = 0 := by omega
    rw [h0, List.drop_zero, List.take_append_eq_append_take, List.length_drop]
    by_cases h2 : l.length < first + count
    · have h3 : count - (l.length - first) = (count - (l.length - first) - 1) + 1 := by omega
      rw [if_pos ⟨h1, h2⟩, h3, List.take_succ_cons, List.take_nil]
    · have h3 : count - (l.length - first) = 0 := by omega
      rw [if_neg (fun h => h2 h.2), h3, List.take_zero, List.append_nil]
  · have h2 : l.length ≤ first := by omega
    have h3 : first - l.length = (first - l.length - 1) + 1 := by omega
    rw [if_neg (fun h => h1 h.1), List.drop_eq_nil_of_le h2, h3, List.drop_succ_cons,
      List.drop_nil]
    rfl

theorem window_append_of_full (first count : Nat) (l m : List Record)
    (h : first + count ≤ l.length) :
    window first count (l ++ m) = window first count l := by
  unfold window
  rw [List.drop_append_eq_append_drop, List.take_append_eq_append_take, List.length_drop]
  have h1 : count - (l.length - first) = 0 := by omega
  rw [h1, List.take_zero, List.append_nil]

theorem window_length (first count : Nat) (l : List Record) :
    (window first count l).length ≤ count := by
  unfold window
  rw [List.length_take]
  exact Nat.min_le_left _ _

theorem shelfStep_results (params : Params) (st : ListState) (b : Record) :
    (shelfStep params st b).results =
      if st.resultIndex ≥ params.first ∧ st.resultIndex < params.first + params.count
      then st.results ++ [b] else st.results := by
  unfold shelfStep
  split_ifs <;> rfl

theorem shelfStep_resultIndex (params : Params) (st : ListState) (b : Record) :
    (shelfStep params st b).resultIndex = st.resultIndex + 1 := by
  unfold shelfStep
  split_ifs <;> rfl

theorem shelfStep_shelfIds (params : Params) (st : ListState) (b : Record) :
    (shelfStep params st b).shelfIds = st.shelfIds ++ [b.id] := by
  unfold shelfStep
  split_ifs <;> rfl

theorem shelf_foldl (params : Params) (shelfBooks l : List Record) (st : ListState)
    (hres : st.results = window params.first params.count l)
    (hidx : st.resultIndex = l.length) :
    (shelfBooks.foldl (shelfStep params) st).results =
        window params.first params.count (l ++ shelfBooks) ∧
      (shelfBooks.foldl (shelfStep params) st).resultIndex = (l ++ shelfBooks).length ∧
      (shelfBooks.foldl (shelfStep params) st).shelfIds =
        st.shelfIds ++ shelfBooks.map Record.id := by
  induction shelfBooks generalizing l st with
  | nil => simp [hres, hidx]
  | cons b bs ih =>
    rw [List.foldl_cons]
    have h1 : (shelfStep params st b).results =
        window params.first params.count (l ++ [b]) := by
      rw [window_append_single, ← hidx, ← hres, shelfStep_results]
    have h2 : (shelfStep params st b).resultIndex = (l ++ [b]).length := by
      rw [shelfStep_resultIndex, hidx]
      simp
    obtain ⟨r1, r2, r3⟩ := ih (l ++ [b]) (shelfStep params st b) h1 h2
    refine ⟨?_, ?_, ?_⟩
    · rw [r1]; simp
    · rw [r2]; simp
    · rw [r3, shelfStep_shelfIds]; simp

theorem pageLoop_cons_new (params : Params) (b : Record) (rest : List Record)
    (st : ListState) (hlt : st.resultIndex < params.first + params.count)
    (hin : (!st.shelfIds.contains b.id) = true) :
    pageLoop params (b :: rest) st =
      pageLoop params rest
        { results := if st.resultIndex ≥ params.first then st.results ++ [b] else st.results,
          resultIndex := st.resultIndex + 1, shelfIds := st.shelfIds } := by
  rw [pageLoop, if_pos hlt, if_pos hin]
  split_ifs <;> rfl

theorem pageLoop_cons_shelf (params : Params) (b : Record) (rest : List Record)
    (st : ListState) (hlt : st.resultIndex < params.first + params.count)
    (hin : ¬ (!st.shelfIds.contains b.id) = true) :
    pageLoop params (b :: rest) st = pageLoop params rest st := by
  rw [pageLoop, if_pos hlt, if_neg hin]

theorem pageLoop_full (params : Params) (page : List Record) (st : ListState)
    (hlt : ¬ st.resultIndex < params.first + params.count) :
    pageLoop params page st = st := by
  cases page with
  | nil => rfl
  | cons b rest => rw [pageLoop, if_neg hlt]

theorem pageLoop_spec (params : Params) (page l : List Record) (st : ListState)
    (hres : st.results = window params.first params.count l)
    (hidx : st.resultIndex = l.length) :
    (pageLoop params page st).results =
        window params.first params.count
          (l ++ page.filter (fun a => !st.shelfIds.contains a.id)) ∧
      (pageLoop params page st).shelfIds = st.shelfIds ∧
      ((pageLoop params page st).resultIndex =
          (l ++ page.filter (fun a => !st.shelfIds.contains a.id)).length ∨
        (params.first + params.count ≤ (pageLoop params page st).resultIndex ∧
          (pageLoop params page st).resultIndex ≤
            (l ++ page.filter (fun a => !st.shelfIds.contains a.id)).length)) := by
  induction page generalizing l st with
  | nil => simp [pageLoop, hres, hidx]
  | cons b rest ih =>
    by_cases hlt : st.resultIndex < params.first + params.count
    · by_cases hin : (!st.shelfIds.contains b.id) = true
      · rw [pageLoop_cons_new _ _ _ _ hlt hin]
        have hf : (b :: rest).filter (fun a => !st.shelfIds.contains a.id) =
            b :: rest.filter (fun a => !st.shelfIds.contains a.id) := by
          rw [List.filter_cons, if_pos hin]
        have h1 : (if st.resultIndex ≥ params.first then st.results ++ [b] else st.results) =
            window params.first params.count (l ++ [b]) := by
          rw [window_append_single, ← hidx, ← hres]
          by_cases hge : st.resultIndex ≥ params.first
          · rw [if_pos hge, if_pos ⟨hge, hlt⟩]
          · rw [if_neg hge, if_neg (fun h => hge h.1)]
        have key := ih (l ++ [b])
          { results := if st.resultIndex ≥ params.first then st.results ++ [b] else st.results,
            resultIndex := st.resultIndex + 1, shelfIds := st.shelfIds }
          h1 (by simp [hidx])
        rw [hf]
        have hl : l ++ b :: rest.filter (fun a => !st.shelfIds.contains a.id) =
            l ++ [b] ++ rest.filter (fun a => !st.shelfIds.contains a.id) := by simp
        rw [hl]
        exact key
      · rw [pageLoop_cons_shelf _ _ _ _ hlt hin]
        have hf : (b :: rest).filter (fun a => !st.shelfIds.contains a.id) =
            rest.filter (fun a => !st.shelfIds.contains a.id) := by
          rw [List.filter_cons, if_neg hin]
        rw [hf]
        exact ih l st hres hidx
    · rw [pageLoop_full _ _ _ hlt]
      have hfull : params.first + params.count ≤ l.length := by omega
      refine ⟨?_, rfl, Or.inr ⟨by omega, ?_⟩⟩
      · rw [window_append_of_full _ _ _ _ hfull]
        exact hres
      · rw [hidx, List.length_append]
        omega

theorem take_page (A : List Record) (skip cap : Nat) :
    A.take skip ++ (A.drop skip).take cap = A.take (skip + ((A.drop skip).take cap).length) := by
  rw [List.take_add]
  congr 1
  rw [List.length_take]
  by_cases h : cap ≤ (A.drop skip).length
  · rw [Nat.min_eq_left h]
  · have h1 : (A.drop skip).length ≤ cap := by omega
    rw [Nat.min_eq_right h1, List.take_of_length_le h1, List.take_of_length_le (le_refl _)]

theorem runQuery_paged (find : Query → Option (List Record)) (params : Params)
    (base A : List Record) (ids : List String) (cap : Nat) (hcap : 1 ≤ cap)
    (hA : ∀ skip, find (allBooksQuery params skip) = some ((A.drop skip).take cap)) :
    ∀ (fuel skip : Nat) (st : ListState), A.length - skip < fuel →
      st.results = window params.first params.count
        (base ++ (A.take skip).filter (fun a => !ids.contains a.id)) →
      st.resultIndex = (base ++ (A.take skip).filter (fun a => !ids.contains a.id)).length →
      st.shelfIds = ids →
      runQuery find params fuel skip st =
        some (Response.success (window params.first params.count
          (base ++ A.filter (fun a => !ids.contains a.id)))) := by
  intro fuel
  induction fuel with
  | zero => intro skip st h; omega
  | succ fuel ih =>
    intro skip st hfuel hres hidx hids
    unfold runQuery
    rw [hA skip]
    simp only []
    obtain ⟨r1, r2, r3⟩ := pageLoop_spec params ((A.drop skip).take cap) _ st hres hidx
    rw [hids] at r1 r3
    have hL : base ++ (A.take skip).filter (fun a => !ids.contains a.id) ++
        ((A.drop skip).take cap).filter (fun a => !ids.contains a.id) =
        base ++ (A.take (skip + ((A.drop skip).take cap).length)).filter
          (fun a => !ids.contains a.id) := by
      rw [List.append_assoc, ← List.filter_append, take_page]
    rw [hL] at r1 r3
    have hsplit : base ++ A.filter (fun a => !ids.contains a.id) =
        base ++ (A.take (skip + ((A.drop skip).take cap).length)).filter
            (fun a => !ids.contains a.id) ++
          (A.drop (skip + ((A.drop skip).take cap).length)).filter
            (fun a => !ids.contains a.id) := by
      rw [List.append_assoc, ← List.filter_append, List.take_append_drop]
    by_cases hstop : ((A.drop skip).take cap).length = 0 ∨
        (pageLoop params ((A.drop skip).take cap) st).resultIndex ≥
          params.first + params.count
    · rw [if_pos hstop, r1]
      congr 2
      rcases hstop with h0 | hfull
      · have hnil : (A.drop skip).take cap = [] := List.length_eq_zero.1 h0
        rw [List.take_eq_nil_iff] at hnil
        have hdrop : A.drop skip = [] := by
          rcases hnil with h | h
          · omega
          · exact h
        have hlen : A.length ≤ skip := List.drop_eq_nil_iff.1 hdrop
        rw [h0, Nat.add_zero, List.take_of_length_le hlen]
      · rw [hsplit]
        apply (window_append_of_full _ _ _ _ _).symm
        rcases r3 with h | h
        · rw [← h]; exact hfull
        · omega
    · rw [if_neg hstop]
      have hne : ((A.drop skip).take cap).length ≠ 0 := fun h => hstop (Or.inl h)
      have hlt : ¬ (pageLoop params ((A.drop skip).take cap) st).resultIndex ≥
          params.first + params.count := fun h => hstop (Or.inr h)
      apply ih
      · have hpos : skip < A.length := by
          by_contra hc
          have hlen : A.length ≤ skip := by omega
          rw [List.drop_eq_nil_of_le hlen] at hne
          simp at hne
        omega
      · exact r1
      · rcases r3 with h | h
        · exact h
        · omega
      · rw [r2, hids]

/-! ## The listing over any store -/

theorem pageLoop_rest (params : Params) (page : List Record) (st : ListState) :
    ∃ rest, (pageLoop params page st).results = st.results ++ rest ∧
      (∀ r ∈ rest, r.id ∉ st.shelfIds) ∧
      (pageLoop params page st).shelfIds = st.shelfIds := by
  induction page generalizing st with
  | nil => exact ⟨[], by simp [pageLoop], by simp, rfl⟩
  | cons b bs ih =>
    by_cases hlt : st.resultIndex < params.first + params.count
    · by_cases hin : (!st.shelfIds.contains b.id) = true
      · rw [pageLoop_cons_new _ _ _ _ hlt hin]
        have hb : b.id ∉ st.shelfIds := by simpa using hin
        obtain ⟨rest, h1, h2, h3⟩ := ih
          { results := if st.resultIndex ≥ params.first then st.results ++ [b] else st.results,
            resultIndex := st.resultIndex + 1, shelfIds := st.shelfIds }
        by_cases hge : st.resultIndex ≥ params.first
        · refine ⟨b :: rest, ?_, ?_, h3⟩
          · rw [h1]
            simp [hge]
          · intro r hr
            rw [List.mem_cons] at hr
            rcases hr with h | h
            · rw [h]; exact hb
            · exact h2 r h
        · refine ⟨rest, ?_, h2, h3⟩
          rw [h1]
          simp [hge]
      · rw [pageLoop_cons_shelf _ _ _ _ hlt hin]
        exact ih st
    · rw [pageLoop_full _ _ _ hlt]
      exact ⟨[], by simp, by simp, rfl⟩

theorem runQuery_rest (find : Query → Option (List Record)) (params : Params) :
    ∀ (fuel skip : Nat) (st : ListState) (results : List Record),
      runQuery find params fuel skip st = some (Response.success results) →
      ∃ rest, results = st.results ++ rest ∧ ∀ r ∈ rest, r.id ∉ st.shelfIds := by
  intro fuel
  induction fuel with
  | zero =>
    intro skip st results h
    simp [runQuery] at h
  | succ fuel ih =>
    intro skip st results h
    unfold runQuery at h
    cases hf : find (allBooksQuery params skip) with
    | none =>
      rw [hf] at h
      simp at h
    | some page =>
      rw [hf] at h
      simp only [] at h
      obtain ⟨rest, h1, h2, h3⟩ := pageLoop_rest params page st
      split_ifs at h with hstop
      · simp only [Option.some.injEq, Response.success.injEq] at h
        exact ⟨rest, by rw [← h, h1], h2⟩
      · obtain ⟨rest2, g1, g2⟩ := ih _ _ _ h
        refine ⟨rest ++ rest2, ?_, ?_⟩
        · rw [g1, h1, List.append_assoc]
        · intro r hr
          rw [List.mem_append] at hr
          rcases hr with hr | hr
          · exact h2 r hr
          · have := g2 r hr
            rw [h3] at this
            exact this

theorem shelfStep_length (params : Params) (st : ListState) (b : Record)
    (h : st.results.length = min st.resultIndex (params.first + params.count) - params.first) :
    (shelfStep params st b).results.length =
      min (shelfStep params st b).resultIndex (params.first + params.count) - params.first := by
  rw [shelfStep_results, shelfStep_resultIndex]
  split_ifs with hw
  · rw [List.length_append, h]
    simp only [List.length_singleton]
    omega
  · rw [h]
    omega

theorem shelf_foldl_length (params : Params) (shelfBooks : List Record) (st : ListState)
    (h : st.results.length = min st.resultIndex (params.first + params.count) - params.first) :
    (shelfBooks.foldl (shelfStep params) st).results.length =
      min (shelfBooks.foldl (shelfStep params) st).resultIndex (params.first + params.count)
        - params.first := by
  induction shelfBooks generalizing st with
  | nil => exact h
  | cons b bs ih =>
    rw [List.foldl_cons]
    exact ih _ (shelfStep_length params st b h)

theorem pageLoop_length (params : Params) (page : List Record) (st : ListState)
    (h : st.results.length = min st.resultIndex (params.first + params.count) - params.first) :
    (pageLoop params page st).results.length =
      min (pageLoop params page st).resultIndex (params.first + params.count)
        - params.first := by
  induction page generalizing st with
  | nil => exact h
  | cons b bs ih =>
    by_cases hlt : st.resultIndex < params.first + params.count
    · by_cases hin : (!st.shelfIds.contains b.id) = true
      · rw [pageLoop_cons_new _ _ _ _ hlt hin]
        apply ih
        simp only []
        split_ifs with hge
        · rw [List.length_append, h]
          simp only [List.length_singleton]
          omega
        · rw [h]
          omega
      · rw [pageLoop_cons_shelf _ _ _ _ hlt hin]
        exact ih st h
    · rw [pageLoop_full _ _ _ hlt]
      exact h

theorem runQuery_length (find : Query → Option (List Record)) (params : Params) :
    ∀ (fuel skip : Nat) (st : ListState) (results : List Record),
      st.results.length = min st.resultIndex (params.first + params.count) - params.first →
      runQuery find params fuel skip st = some (Response.success results) →
      results.length ≤ params.count := by
  intro fuel
  induction fuel with
  | zero =>
    intro skip st results _ h
    simp [runQuery] at h
  | succ fuel ih =>
    intro skip st results hinv h
    unfold runQuery at h
    cases hf : find (allBooksQuery params skip) with
    | none =>
      rw [hf] at h
      simp at h
    | some page =>
      rw [hf] at h
      simp only [] at h
      have hp := pageLoop_length params page st hinv
      split_ifs at h with hstop
      · simp only [Option.some.injEq, Response.success.injEq] at h
        rw [← h, hp]
        omega
      · exact ih _ _ _ hp h

theorem allBooksQuery_skip (params : Params) (skip : Nat) :
    (allBooksQuery params skip).constraints = (allBooksQuery params 0).constraints ∧
    (allBooksQuery params skip).skip = skip ∧ (allBooksQuery params skip).limit = none := by
  unfold allBooksQuery
  split_ifs <;> exact ⟨rfl, rfl, rfl⟩

theorem featuredBooksQuery_page (params : Params) :
    (featuredBooksQuery params).skip = 0 ∧ (featuredBooksQuery params).limit = some 1000000 := by
  unfold featuredBooksQuery
  split_ifs <;> exact ⟨rfl, rfl⟩

theorem defaultBooks_merged (find : Query → Option (List Record)) (params : Params)
    (S A : List Record) (cap fuel : Nat) (hcap : 1 ≤ cap)
    (hS : find (featuredBooksQuery params) = some S)
    (hA : ∀ skip, find (allBooksQuery params skip) = some ((A.drop skip).take cap))
    (hfuel : A.length < fuel) :
    defaultBooks find params fuel =
      some (Response.success (window params.first params.count (merged S A))) := by
  unfold defaultBooks
  rw [hS]
  simp only []
  obtain ⟨r1, r2, r3⟩ := shelf_foldl params S []
    { results := [], resultIndex := 0, shelfIds := [] } (by simp [window]) rfl
  simp only [List.nil_append] at r1 r2 r3
  have h := runQuery_paged find params S A (S.map Record.id) cap hcap hA fuel 0
    (S.foldl (shelfStep params) { results := [], resultIndex := 0, shelfIds := [] })
    (by omega) (by simpa using r1) (by simpa using r2) r3
  rw [h]
  rfl

/-- C18, as stated, fails: the priority subset is fetched once, not in pages, so a store
that returns at most `P` records per fetch cuts it to `P` records. Over the four books of
which Alpha and Delta are on the shelf, the window (0, 2) is Alpha, Beta when the store
returns one record per fetch and Alpha, Delta when it returns two; the claimed value is
Alpha, Delta for every `P`. -/
theorem merged_listing_counterexample :
    defaultBooks (catalogStore 1 scatteredShelf) (paramsOf 0 2) 5 =
      some (Response.success [titled "Alpha" ["bookshelf:Featured"], titled "Beta" []]) ∧
    defaultBooks (catalogStore 2 scatteredShelf) (paramsOf 0 2) 5 =
      some (Response.success
        [titled "Alpha" ["bookshelf:Featured"], titled "Delta" ["bookshelf:Featured"]]) ∧
    window 0 2
      (merged (scatteredShelf.filter (featuredBooksQuery (paramsOf 0 2)).constraints.holds)
        (scatteredShelf.filter (allBooksQuery (paramsOf 0 2) 0).constraints.holds)) =
      [titled "Alpha" ["bookshelf:Featured"], titled "Delta" ["bookshelf:Featured"]] ∧
    ¬ ∀ cap, 1 ≤ cap →
      defaultBooks (catalogStore cap scatteredShelf) (paramsOf 0 2) 5 =
        some (Response.success (window 0 2
          (merged (scatteredShelf.filter (featuredBooksQuery (paramsOf 0 2)).constraints.holds)
            (scatteredShelf.filter (allBooksQuery (paramsOf 0 2) 0).constraints.holds)))) := by
  refine ⟨by decide, by decide, by decide, ?_⟩
  intro h
  have h1 := h 1 (by decide)
  revert h1
  decide

/-- C18, amended: over a store that holds a catalog in the order of the titles and returns
at most `cap ≥ 1` records per fetch, let `S` be the records of the catalog that match the
priority query and `A` those that match the query for all books. The priority fetch is
issued once, with the limit 1000000, and returns the first `min cap 1000000` records of
`S`; the remainder is fetched in pages. Once the bound on the number of fetches exceeds the
length of the catalog, `defaultBooks` answers, for all `first` and `count`, with exactly
`(S1 ++ [a in A | a.id is not the id of a member of S1]).drop(first).take(count)`, where
`S1` is what the priority fetch returned. When `S` has at most `cap` and at most 1000000
records, `S1` is `S` and the answer is the window of the merged sequence of `S` and `A`,
the same for every such `cap`. -/
theorem merged_listing (cap : Nat) (catalog : List Record) (params : Params) (fuel : Nat)
    (hcap : 1 ≤ cap) (hfuel : catalog.length < fuel) :
    catalogStore cap catalog (featuredBooksQuery params) =
      some ((catalog.filter (featuredBooksQuery params).constraints.holds).take
        (min cap 1000000)) ∧
    defaultBooks (catalogStore cap catalog) params fuel =
      some (Response.success (window params.first params.count
        (merged
          ((catalog.filter (featuredBooksQuery params).constraints.holds).take
            (min cap 1000000))
          (catalog.filter (allBooksQuery params 0).constraints.holds)))) ∧
    ((catalog.filter (featuredBooksQuery params).constraints.holds).length
        ≤ min cap 1000000 →
      defaultBooks (catalogStore cap catalog) params fuel =
        some (Response.success
          (((catalog.filter (featuredBooksQuery params).constraints.holds ++
            (catalog.filter (allBooksQuery params 0).constraints.holds).filter
              (fun a => !((catalog.filter
                (featuredBooksQuery params).constraints.holds).map Record.id).contains
                  a.id)).drop params.first).take params.count))) := by
  have hS : catalogStore cap catalog (featuredBooksQuery params) =
      some ((catalog.filter (featuredBooksQuery params).constraints.holds).take
        (min cap 1000000)) := by
    obtain ⟨h1, h2⟩ := featuredBooksQuery_page params
    unfold catalogStore
    rw [h1, h2]
    rfl
  have hA : ∀ skip, catalogStore cap catalog (allBooksQuery params skip) =
      some (((catalog.filter (allBooksQuery params 0).constraints.holds).drop skip).take
        (min cap 100)) := by
    intro skip
    obtain ⟨h1, h2, h3⟩ := allBooksQuery_skip params skip
    unfold catalogStore
    rw [h1, h2, h3]
    rfl
  have hlen : (catalog.filter (allBooksQuery params 0).constraints.holds).length < fuel :=
    lt_of_le_of_lt (List.length_filter_le _ _) hfuel
  have hmain := defaultBooks_merged (catalogStore cap catalog) params _ _ (min cap 100) fuel
    (by omega) hS hA hlen
  refine ⟨hS, hmain, ?_⟩
  intro hall
  rw [hmain, List.take_of_length_le hall]
  rfl

/-- Witness of the amended C18: over the five books, served two per fetch, the shelf of two
is fetched whole, the window (1, 3) is Beta, Charlie, Delta and the window (10, 2) is
empty; over the four books served one per fetch, the priority fetch returns Alpha alone. -/
theorem merged_listing_witness :
    defaultBooks (catalogStore 2 fiveBooks) (paramsOf 1 3) 6 =
      some (Response.success
        (((fiveBooks.filter (featuredBooksQuery (paramsOf 1 3)).constraints.holds ++
          (fiveBooks.filter (allBooksQuery (paramsOf 1 3) 0).constraints.holds).filter
            (fun a => !((fiveBooks.filter
              (featuredBooksQuery (paramsOf 1 3)).constraints.holds).map Record.id).contains
                a.id)).drop (paramsOf 1 3).first).take (paramsOf 1 3).count)) ∧
    defaultBooks (catalogStore 2 fiveBooks) (paramsOf 1 3) 6 =
      some (Response.success
        [titled "Beta" ["bookshelf:Featured"], titled "Charlie" [], titled "Delta" []]) ∧
    defaultBooks (catalogStore 2 fiveBooks) (paramsOf 10 2) 6 = some (Response.success []) ∧
    catalogStore 1 scatteredShelf (featuredBooksQuery (paramsOf 0 2)) =
      some [titled "Alpha" ["bookshelf:Featured"]] ∧
    defaultBooks (catalogStore 1 scatteredShelf) (paramsOf 0 2) 5 =
      some (Response.success (window 0 2
        (merged [titled "Alpha" ["bookshelf:Featured"]]
          (scatteredShelf.filter (allBooksQuery (paramsOf 0 2) 0).constraints.holds)))) :=
  ⟨(merged_listing 2 fiveBooks (paramsOf 1 3) 6 (by decide) (by decide)).2.2 (by decide),
   by decide, by decide, by decide,
   (merged_listing 1 scatteredShelf (paramsOf 0 2) 5 (by decide) (by decide)).2.1⟩

/-- C19. No duplicates: whatever the store answers to the remainder fetches, a successful
`defaultBooks` returns the window of the priority list followed by records appended by the
remainder loop, none of which has the id of a member of the priority list. Hence, over a
store that serves the full list `A` in pages, when the priority list and the remainder list
each have pairwise distinct ids, `defaultBooks` answers with success and no id occurs twice
in the result. -/
theorem no_duplicates (find : Query → Option (List Record)) (params : Params)
    (S : List Record) (hS : find (featuredBooksQuery params) = some S) :
    (∀ fuel results, defaultBooks find params fuel = some (Response.success results) →
      ∃ rest, results = (S.drop params.first).take params.count ++ rest ∧
        ∀ r ∈ rest, r.id ∉ S.map Record.id) ∧
    (∀ (A : List Record) (cap fuel : Nat), 1 ≤ cap →
      (∀ skip, find (allBooksQuery params skip) = some ((A.drop skip).take cap)) →
      A.length < fuel →
      (S.map Record.id).Nodup →
      ((A.filter (fun a => !(S.map Record.id).contains a.id)).map Record.id).Nodup →
      ∃ results, defaultBooks find params fuel = some (Response.success results) ∧
        (results.map Record.id).Nodup) := by
  obtain ⟨r1, r2, r3⟩ := shelf_foldl params S []
    { results := [], resultIndex := 0, shelfIds := [] } (by simp [window]) rfl
  simp only [List.nil_append] at r1 r2 r3
  constructor
  · intro fuel results h
    unfold defaultBooks at h
    rw [hS] at h
    simp only [] at h
    obtain ⟨rest, h1, h2⟩ := runQuery_rest find params fuel 0 _ results h
    rw [r1] at h1
    rw [r3] at h2
    exact ⟨rest, h1, h2⟩
  · intro A cap fuel hcap hA hfuel hnS hnR
    have h := runQuery_paged find params S A (S.map Record.id) cap hcap hA fuel 0
      (S.foldl (shelfStep params) { results := [], resultIndex := 0, shelfIds := [] })
      (by omega) (by simpa using r1) (by simpa using r2) r3
    refine ⟨window params.first params.count
      (S ++ A.filter (fun a => !(S.map Record.id).contains a.id)), ?_, ?_⟩
    · unfold defaultBooks
      rw [hS]
      exact h
    · have hall : ((S ++ A.filter (fun a => !(S.map Record.id).contains a.id)).map
          Record.id).Nodup := by
        rw [List.map_append, List.nodup_append]
        refine ⟨hnS, hnR, ?_⟩
        intro x hx1 hx2
        rw [List.mem_map] at hx2
        obtain ⟨r, hr, rfl⟩ := hx2
        rw [List.mem_filter] at hr
        have hnot : r.id ∉ S.map Record.id := by simpa using hr.2
        exact hnot hx1
      have hsub : (window params.first params.count
          (S ++ A.filter (fun a => !(S.map Record.id).contains a.id))).Sublist
          (S ++ A.filter (fun a => !(S.map Record.id).contains a.id)) :=
        (List.take_sublist _ _).trans (List.drop_sublist _ _)
      exact (hsub.map Record.id).nodup hall

/-- Witness of C19: over the five books, whose ids are distinct, no id occurs twice in the
listing. -/
theorem no_duplicates_witness :
    (∀ fuel results,
      defaultBooks (catalogStore 2 fiveBooks) (paramsOf 1 3) fuel
        = some (Response.success results) →
      ∃ rest, results = (([titled "Alpha" ["bookshelf:Featured"],
          titled "Beta" ["bookshelf:Featured"]]).drop (paramsOf 1 3).first).take
            (paramsOf 1 3).count ++ rest ∧
        ∀ r ∈ rest, r.id ∉ ([titled "Alpha" ["bookshelf:Featured"],
          titled "Beta" ["bookshelf:Featured"]]).map Record.id) ∧
    (∃ results, defaultBooks (catalogStore 2 fiveBooks) (paramsOf 1 3) 6
        = some (Response.success results) ∧ (results.map Record.id).Nodup) :=
  ⟨(no_duplicates (catalogStore 2 fiveBooks) (paramsOf 1 3)
      [titled "Alpha" ["bookshelf:Featured"], titled "Beta" ["bookshelf:Featured"]]
      (by decide)).1,
   (no_duplicates (catalogStore 2 fiveBooks) (paramsOf 1 3)
      [titled "Alpha" ["bookshelf:Featured"], titled "Beta" ["bookshelf:Featured"]]
      (by decide)).2 fiveBooks 2 6 (by decide) (fun skip => rfl) (by decide) (by decide)
      (by decide)⟩

/-- C20. Window bound: whatever the store answers and whatever the page size, a successful
`defaultBooks` returns at most `count` records; and over a store that serves the full list
`A` in pages of at most `cap ≥ 1` records it does answer with success once the bound on the
number of fetches exceeds the length of `A`. -/
theorem window_bound (find : Query → Option (List Record)) (params : Params) :
    (∀ fuel results, defaultBooks find params fuel = some (Response.success results) →
      results.length ≤ params.count) ∧
    (∀ (S A : List Record) (cap fuel : Nat), 1 ≤ cap →
      find (featuredBooksQuery params) = some S →
      (∀ skip, find (allBooksQuery params skip) = some ((A.drop skip).take cap)) →
      A.length < fuel →
      ∃ results, defaultBooks find params fuel = some (Response.success results) ∧
        results.length ≤ params.count) := by
  have hgen : ∀ fuel results,
      defaultBooks find params fuel = some (Response.success results) →
      results.length ≤ params.count := by
    intro fuel results h
    unfold defaultBooks at h
    cases hS : find (featuredBooksQuery params) with
    | none =>
      rw [hS] at h
      simp at h
    | some S =>
      rw [hS] at h
      simp only [] at h
      refine runQuery_length find params fuel 0 _ results ?_ h
      apply shelf_foldl_length
      simp
  refine ⟨hgen, ?_⟩
  intro S A cap fuel hcap hS hA hfuel
  obtain ⟨r1, r2, r3⟩ := shelf_foldl params S []
    { results := [], resultIndex := 0, shelfIds := [] } (by simp [window]) rfl
  simp only [List.nil_append] at r1 r2 r3
  have h := runQuery_paged find params S A (S.map Record.id) cap hcap hA fuel 0
    (S.foldl (shelfStep params) { results := [], resultIndex := 0, shelfIds := [] })
    (by omega) (by simpa using r1) (by simpa using r2) r3
  have hrun : defaultBooks find params fuel = some (Response.success
      (window params.first params.count
        (S ++ A.filter (fun a => !(S.map Record.id).contains a.id)))) := by
    unfold defaultBooks
    rw [hS]
    exact h
  exact ⟨_, hrun, hgen _ _ hrun⟩

/-- Witness of C20: over the five books, served two per fetch, the window (1, 3) holds
three records and the window (0, 0) none. -/
theorem window_bound_witness :
    (∃ results, defaultBooks (catalogStore 2 fiveBooks) (paramsOf 1 3) 6
        = some (Response.success results) ∧ results.length ≤ (paramsOf 1 3).count) ∧
    defaultBooks (catalogStore 2 fiveBooks) (paramsOf 0 0) 6 = some (Response.success []) :=
  ⟨(window_bound (catalogStore 2 fiveBooks) (paramsOf 1 3)).2
    [titled "Alpha" ["bookshelf:Featured"], titled "Beta" ["bookshelf:Featured"]] fiveBooks 2 6
    (by decide) (by decide) (fun skip => rfl) (by decide), by decide⟩

/-! ## The license restriction -/

theorem restrictByLicense_holds (query : Query) (r : Record) :
    (restrictByLicense query).constraints.holds r = (licensed r && query.constraints.holds r) := by
  simp [restrictByLicense, Query.constrain, Query.new, Constraints.holds, licensed]

theorem featuredBooksQuery_holds (params : Params) (r : Record) :
    (featuredBooksQuery params).constraints.holds r =
      ((if allLicenses params then true else licensed r) &&
        (featuredBooksQuery { params with allLicenses := Param.bool true }).constraints.holds r) := by
  unfold featuredBooksQuery
  have h1 : allLicenses { params with allLicenses := Param.bool true } = true := rfl
  by_cases ha : allLicenses params = true
  · simp only [ha, h1, if_true, Bool.true_and]
  · simp only [ha, h1, if_true, Bool.false_eq_true, if_false, restrictByLicense_holds]

theorem allBooksQuery_holds (params : Params) (skip : Nat) (r : Record) :
    (allBooksQuery params skip).constraints.holds r =
      ((if allLicenses params then true else licensed r) &&
        (allBooksQuery { params with allLicenses := Param.bool true } skip).constraints.holds r) := by
  unfold allBooksQuery
  have h1 : allLicenses { params with allLicenses := Param.bool true } = true := rfl
  by_cases ha : allLicenses params = true
  · simp only [ha, h1, if_true, Bool.true_and]
  · simp only [ha, h1, if_true, Bool.false_eq_true, if_false, restrictByLicense_holds]

theorem pageLoop_sub (params : Params) (page : List Record) (st : ListState) :
    ∀ r ∈ (pageLoop params page st).results, r ∈ st.results ∨ r ∈ page := by
  induction page generalizing st with
  | nil => intro r hr; exact Or.inl (by simpa [pageLoop] using hr)
  | cons b bs ih =>
    intro r hr
    by_cases hlt : st.resultIndex < params.first + params.count
    · by_cases hin : (!st.shelfIds.contains b.id) = true
      · rw [pageLoop_cons_new _ _ _ _ hlt hin] at hr
        rcases ih _ r hr with h | h
        · simp only [] at h
          split_ifs at h
          · rw [List.mem_append, List.mem_singleton] at h
            rcases h with h1 | h1
            · exact Or.inl h1
            · right; rw [h1]; exact List.mem_cons_self _ _
          · exact Or.inl h
        · exact Or.inr (List.mem_cons_of_mem _ h)
      · rw [pageLoop_cons_shelf _ _ _ _ hlt hin] at hr
        rcases ih _ r hr with h | h
        · exact Or.inl h
        · exact Or.inr (List.mem_cons_of_mem _ h)
    · rw [pageLoop_full _ _ _ hlt] at hr
      exact Or.inl hr

theorem runQuery_all (find : Query → Option (List Record)) (params : Params)
    (p : Record → Prop)
    (hfind : ∀ skip page, find (allBooksQuery params skip) = some page → ∀ r ∈ page, p r) :
    ∀ (fuel skip : Nat) (st : ListState) (results : List Record),
      (∀ r ∈ st.results, p r) →
      runQuery find params fuel skip st = some (Response.success results) →
      ∀ r ∈ results, p r := by
  intro fuel
  induction fuel with
  | zero =>
    intro skip st results _ h
    simp [runQuery] at h
  | succ fuel ih =>
    intro skip st results hst h
    unfold runQuery at h
    cases hf : find (allBooksQuery params skip) with
    | none =>
      rw [hf] at h
      simp at h
    | some page =>
      rw [hf] at h
      simp only [] at h
      have hp : ∀ r ∈ (pageLoop params page st).results, p r := by
        intro r hr
        rcases pageLoop_sub params page st r hr with h1 | h1
        · exact hst r h1
        · exact hfind skip page hf r h1
      split_ifs at h with hstop
      · simp only [Option.some.injEq, Response.success.injEq] at h
        rw [← h]
        exact hp
      · exact ih _ _ _ hp h

theorem defaultBooks_all (find : Query → Option (List Record)) (params : Params)
    (p : Record → Prop)
    (hshelf : ∀ S, find (featuredBooksQuery params) = some S → ∀ r ∈ S, p r)
    (hfind : ∀ skip page, find (allBooksQuery params skip) = some page → ∀ r ∈ page, p r)
    (fuel : Nat) (results : List Record)
    (h : defaultBooks find params fuel = some (Response.success results)) :
    ∀ r ∈ results, p r := by
  unfold defaultBooks at h
  cases hS : find (featuredBooksQuery params) with
  | none =>
    rw [hS] at h
    simp at h
  | some S =>
    rw [hS] at h
    simp only [] at h
    obtain ⟨r1, -, -⟩ := shelf_foldl params S []
      { results := [], resultIndex := 0, shelfIds := [] } (by simp [window]) rfl
    simp only [List.nil_append] at r1
    refine runQuery_all find params p hfind fuel 0 _ results ?_ h
    intro r hr
    rw [r1] at hr
    have hsub : (window params.first params.count S).Sublist S :=
      (List.take_sublist _ _).trans (List.drop_sublist _ _)
    exact hshelf S hS r (hsub.subset hr)

theorem unrestricted_featured (params : Params) (ha : allLicenses params = true)
    (r : Record) (license : Option String) :
    (featuredBooksQuery params).constraints.holds { r with license := license } =
      (featuredBooksQuery params).constraints.holds r := by
  unfold featuredBooksQuery
  simp only [ha, if_true]
  split_ifs <;> simp [Query.constrain, Query.new, Constraints.holds]

theorem unrestricted_allBooks (params : Params) (ha : allLicenses params = true)
    (skip : Nat) (r : Record) (license : Option String) :
    (allBooksQuery params skip).constraints.holds { r with license := license } =
      (allBooksQuery params skip).constraints.holds r := by
  unfold allBooksQuery
  simp only [ha, if_true]
  split_ifs <;> simp [Query.constrain, Query.new, Constraints.holds]

/-- C21, as stated, fails: the parameter `allLicenses = 1` is not exactly `true`, yet
`1 == true` holds in JavaScript, so the queries are not restricted by license and the
featured record under the closed license `ask` is returned. -/
theorem license_restriction_counterexample :
    paramsNumberOne.allLicenses ≠ Param.bool true ∧
    licensed closedBook = false ∧
    (featuredBooksQuery paramsNumberOne).constraints.holds closedBook = true ∧
    defaultBooks (catalogStore 10 [closedBook]) paramsNumberOne 2
      = some (Response.success [closedBook]) ∧
    ¬ ∀ (params : Params) (r : Record), params.allLicenses ≠ Param.bool true →
      (featuredBooksQuery params).constraints.holds r = true → licensed r = true := by
  refine ⟨by decide, by decide, by decide, by decide, ?_⟩
  intro h
  have h1 := h paramsNumberOne closedBook (by decide) (by decide)
  revert h1
  decide

/-- C21, amended: the gate is `allLicenses == true`, which holds for the parameter values
`true` and `1` only. When it does not hold, the priority query and the remainder query are
each the conjunction of their unrestricted predicate with (license starts with `cc` or tags
contain `system:overlookClosedLicense`), so over a store that answers a query with matching
records only, every record of a successful listing satisfies that disjunction. When it holds,
both queries are the unrestricted ones, whose predicates do not depend on the license. -/
theorem license_restriction (find : Query → Option (List Record)) (params : Params) :
    (allLicenses params = true ↔
      params.allLicenses = Param.bool true ∨ params.allLicenses = Param.number 1) ∧
    (allLicenses params = false →
      (∀ r, (featuredBooksQuery params).constraints.holds r =
        (licensed r &&
          (featuredBooksQuery { params with allLicenses := Param.bool true }).constraints.holds r)) ∧
      (∀ skip r, (allBooksQuery params skip).constraints.holds r =
        (licensed r &&
          (allBooksQuery { params with allLicenses := Param.bool true } skip).constraints.holds r)) ∧
      ((∀ q records, find q = some records → ∀ r ∈ records, q.constraints.holds r = true) →
        ∀ fuel results, defaultBooks find params fuel = some (Response.success results) →
          ∀ r ∈ results, licensed r = true)) ∧
    (allLicenses params = true →
      (∀ r license,
        (featuredBooksQuery params).constraints.holds { r with license := license } =
          (featuredBooksQuery params).constraints.holds r) ∧
      (∀ skip r license,
        (allBooksQuery params skip).constraints.holds { r with license := license } =
          (allBooksQuery params skip).constraints.holds r)) := by
  refine ⟨?_, ?_, ?_⟩
  · unfold allLicenses
    cases params.allLicenses with
    | undefined => simp [Param.looseEqualsTrue]
    | null => simp [Param.looseEqualsTrue]
    | bool b => cases b <;> simp [Param.looseEqualsTrue]
    | number n => simp [Param.looseEqualsTrue]
  · intro ha
    have hf : ∀ r, (featuredBooksQuery params).constraints.holds r =
        (licensed r &&
          (featuredBooksQuery { params with allLicenses := Param.bool true }).constraints.holds
            r) := by
      intro r
      rw [featuredBooksQuery_holds, ha]
      rfl
    have hb : ∀ skip r, (allBooksQuery params skip).constraints.holds r =
        (licensed r &&
          (allBooksQuery { params with allLicenses := Param.bool true } skip).constraints.holds
            r) := by
      intro skip r
      rw [allBooksQuery_holds, ha]
      rfl
    refine ⟨hf, hb, ?_⟩
    intro hsound fuel results h
    refine defaultBooks_all find params (fun r => licensed r = true) ?_ ?_ fuel results h
    · intro S hS r hr
      have h1 := hsound _ S hS r hr
      rw [hf, Bool.and_eq_true] at h1
      exact h1.1
    · intro skip page hp r hr
      have h1 := hsound _ page hp r hr
      rw [hb, Bool.and_eq_true] at h1
      exact h1.1
  · intro ha
    exact ⟨unrestricted_featured params ha, unrestricted_allBooks params ha⟩

/-- Witness of the amended C21: without the parameter, the featured record under the closed
license is not listed; the records under `cc` licenses are. -/
theorem license_restriction_witness :
    (allLicenses (paramsOf 0 10) = false) ∧
    (∀ fuel results,
      defaultBooks (catalogStore 10 (closedBook :: fiveBooks)) (paramsOf 0 10) fuel
        = some (Response.success results) →
      ∀ r ∈ results, licensed r = true) ∧
    defaultBooks (catalogStore 10 (closedBook :: fiveBooks)) (paramsOf 0 10) 7
      = some (Response.success fiveBooks) :=
  ⟨by decide,
   ((license_restriction (catalogStore 10 (closedBook :: fiveBooks)) (paramsOf 0 10)).2.1
      (by decide)).2.2
      (by
        intro q records h r hr
        simp only [catalogStore, Option.some.injEq] at h
        rw [← h] at hr
        exact (List.mem_filter.1 ((List.drop_sublist _ _).subset
          ((List.take_sublist _ _).subset hr))).2),
   by decide⟩

/-! ## Failing fetches -/

theorem runQuery_failed (find : Query → Option (List Record)) (params : Params) :
    ∀ (fuel skip : Nat) (st : ListState) (r : Response),
      runQuery find params fuel skip st = some r →
      (∃ f ∈ runQueryLog find params fuel skip st, f.page = none) →
      r = Response.error "failed to find all books" := by
  intro fuel
  induction fuel with
  | zero =>
    intro skip st r h
    simp [runQuery] at h
  | succ fuel ih =>
    intro skip st r h hf
    unfold runQuery at h
    unfold runQueryLog at hf
    cases hfind : find (allBooksQuery params skip) with
    | none =>
      rw [hfind] at h
      simp only [Option.some.injEq] at h
      exact h.symm
    | some page =>
      rw [hfind] at h hf
      simp only [] at h hf
      obtain ⟨f, hmem, hnone⟩ := hf
      rw [List.mem_cons] at hmem
      rcases hmem with hmem | hmem
      · rw [hmem] at hnone
        simp at hnone
      · split_ifs at h hmem with hstop
        · simp at hmem
        · exact ih _ _ _ h ⟨f, hmem, hnone⟩

theorem runQuery_success_log (find : Query → Option (List Record)) (params : Params) :
    ∀ (fuel skip : Nat) (st : ListState) (results : List Record),
      runQuery find params fuel skip st = some (Response.success results) →
      ∀ f ∈ runQueryLog find params fuel skip st, f.page ≠ none := by
  intro fuel skip st results h f hf hnone
  have h1 := runQuery_failed find params fuel skip st _ h ⟨f, hf, hnone⟩
  simp at h1

theorem runQuery_fails (find : Query → Option (List Record)) (params : Params) :
    ∀ (fuel skip : Nat) (st : ListState),
      (∃ f ∈ runQueryLog find params fuel skip st, f.page = none) →
      runQuery find params fuel skip st = some (Response.error "failed to find all books") := by
  intro fuel
  induction fuel with
  | zero =>
    intro skip st hf
    simp [runQueryLog] at hf
  | succ fuel ih =>
    intro skip st hf
    unfold runQuery
    unfold runQueryLog at hf
    cases hfind : find (allBooksQuery params skip) with
    | none => rfl
    | some page =>
      rw [hfind] at hf
      simp only [] at hf
      obtain ⟨f, hmem, hnone⟩ := hf
      rw [List.mem_cons] at hmem
      rcases hmem with hmem | hmem
      · rw [hmem] at hnone
        simp at hnone
      · split_ifs at hmem with hstop
        · simp at hmem
        · simp only []
          rw [if_neg hstop]
          exact ih _ _ ⟨f, hmem, hnone⟩

/-- C22. Listing failures are all-or-nothing: when the fetch of the priority subset fails,
`defaultBooks` answers with `response.error`; when one of the remainder fetches it issues
fails, it answers with `response.error` as well, whatever records were collected before;
and an answer `response.success` means that no fetch failed. An error carries a message
only, no list of records. -/
theorem listing_all_or_nothing (find : Query → Option (List Record)) (params : Params)
    (fuel : Nat) :
    (find (featuredBooksQuery params) = none →
      defaultBooks find params fuel
        = some (Response.error "failed to find books of featured shelf")) ∧
    ((∃ f ∈ remainderFetches find params fuel, f.page = none) →
      defaultBooks find params fuel = some (Response.error "failed to find all books")) ∧
    (∀ results, defaultBooks find params fuel = some (Response.success results) →
      find (featuredBooksQuery params) ≠ none ∧
      ∀ f ∈ remainderFetches find params fuel, f.page ≠ none) := by
  refine ⟨?_, ?_, ?_⟩
  · intro h
    unfold defaultBooks
    rw [h]
  · intro hf
    unfold defaultBooks
    unfold remainderFetches at hf
    cases hS : find (featuredBooksQuery params) with
    | none =>
      rw [hS] at hf
      simp at hf
    | some S =>
      rw [hS] at hf
      exact runQuery_fails find params fuel 0 _ hf
  · intro results h
    unfold defaultBooks at h
    unfold remainderFetches
    cases hS : find (featuredBooksQuery params) with
    | none =>
      rw [hS] at h
      simp at h
    | some S =>
      rw [hS] at h
      exact ⟨by simp, runQuery_success_log find params fuel 0 _ results h⟩

/-- Witness of C22: the second remainder fetch fails and the listing answers with the error,
although the window already held two records of the shelf; so does a listing whose
priority fetch fails. -/
theorem listing_all_or_nothing_witness :
    defaultBooks failingStore (paramsOf 0 5) 6
      = some (Response.error "failed to find all books") ∧
    remainderFetches failingStore (paramsOf 0 5) 6 =
      [{ skip := 0, page := some [titled "Alpha" ["bookshelf:Featured"],
                                  titled "Beta" ["bookshelf:Featured"]], resultIndex := 2 },
       { skip := 2, page := none, resultIndex := 2 }] ∧
    defaultBooks (fun _ => none) (paramsOf 0 5) 6
      = some (Response.error "failed to find books of featured shelf") :=
  ⟨(listing_all_or_nothing failingStore (paramsOf 0 5) 6).2.1 (by decide), by decide,
   (listing_all_or_nothing (fun _ => none) (paramsOf 0 5) 6).1 rfl⟩

/-! ## Termination and the stopping rule of the fetch loop -/

theorem runQuery_terminates (find : Query → Option (List Record)) (params : Params)
    (n : Nat) (page : Nat → List Record)
    (hfind : ∀ skip, find (allBooksQuery params skip) = some (page skip))
    (hempty : ∀ skip, n ≤ skip → page skip = []) :
    ∀ (fuel skip : Nat) (st : ListState), n - skip < fuel →
      ∃ results, runQuery find params fuel skip st = some (Response.success results) := by
  intro fuel
  induction fuel with
  | zero => intro skip st h; omega
  | succ fuel ih =>
    intro skip st hfuel
    unfold runQuery
    rw [hfind skip]
    simp only []
    split_ifs with hstop
    · exact ⟨_, rfl⟩
    · apply ih
      have hne : (page skip).length ≠ 0 := fun h => hstop (Or.inl h)
      have hlt : skip < n := by
        by_contra hc
        rw [hempty skip (by omega)] at hne
        exact hne rfl
      omega

theorem runQueryLog_skips (find : Query → Option (List Record)) (params : Params) :
    ∀ (fuel skip : Nat) (st : ListState) (pre post : List Fetch) (f : Fetch),
      runQueryLog find params fuel skip st = pre ++ f :: post →
      f.skip = skip + (pre.map (fun g => (g.page.getD []).length)).sum := by
  intro fuel
  induction fuel with
  | zero =>
    intro skip st pre post f h
    simp [runQueryLog] at h
  | succ fuel ih =>
    intro skip st pre post f h
    unfold runQueryLog at h
    cases hfind : find (allBooksQuery params skip) with
    | none =>
      rw [hfind] at h
      simp only [] at h
      cases pre with
      | nil =>
        simp only [List.nil_append, List.cons.injEq] at h
        rw [← h.1]
        simp
      | cons e pre1 =>
        simp only [List.cons_append, List.cons.injEq] at h
        have h2 := h.2
        simp at h2
    | some allBooks =>
      rw [hfind] at h
      simp only [] at h
      cases pre with
      | nil =>
        simp only [List.nil_append, List.cons.injEq] at h
        rw [← h.1]
        simp
      | cons e pre1 =>
        simp only [List.cons_append, List.cons.injEq] at h
        obtain ⟨he, ht⟩ := h
        split_ifs at ht with hstop
        · simp at ht
        · have h3 := ih _ _ _ _ _ ht
          rw [h3, ← he]
          simp only [List.map_cons, List.sum_cons, Option.getD_some]
          omega

theorem runQueryLog_stop (find : Query → Option (List Record)) (params : Params)
    (n : Nat) (page : Nat → List Record)
    (hfind : ∀ skip, find (allBooksQuery params skip) = some (page skip))
    (hempty : ∀ skip, n ≤ skip → page skip = []) :
    ∀ (fuel skip : Nat) (st : ListState) (pre post : List Fetch) (f : Fetch),
      n - skip < fuel →
      runQueryLog find params fuel skip st = pre ++ f :: post →
      (post = [] ↔
        ((f.page.getD []).length = 0 ∨ f.resultIndex ≥ params.first + params.count)) := by
  intro fuel
  induction fuel with
  | zero => intro skip st pre post f h; omega
  | succ fuel ih =>
    intro skip st pre post f hfuel h
    unfold runQueryLog at h
    rw [hfind skip] at h
    simp only [] at h
    by_cases hstop : (page skip).length = 0 ∨
        (pageLoop params (page skip) st).resultIndex ≥ params.first + params.count
    · rw [if_pos hstop] at h
      cases pre with
      | nil =>
        simp only [List.nil_append, List.cons.injEq] at h
        rw [← h.1]
        simp only [Option.getD_some]
        exact ⟨fun _ => hstop, fun _ => h.2.symm⟩
      | cons e pre1 =>
        simp only [List.cons_append, List.cons.injEq] at h
        have h2 := h.2
        simp at h2
    · rw [if_neg hstop] at h
      have hne : (page skip).length ≠ 0 := fun h0 => hstop (Or.inl h0)
      have hlt : skip < n := by
        by_contra hc
        rw [hempty skip (by omega)] at hne
        exact hne rfl
      have hfuel2 : n - (skip + (page skip).length) < fuel := by omega
      cases pre with
      | nil =>
        simp only [List.nil_append, List.cons.injEq] at h
        rw [← h.1]
        simp only [Option.getD_some]
        constructor
        · intro hp
          exfalso
          rw [hp] at h
          have hfp : 0 < fuel := by omega
          obtain ⟨fuel1, rfl⟩ : ∃ k, fuel = k + 1 := ⟨fuel - 1, by omega⟩
          have h2 := h.2
          unfold runQueryLog at h2
          rw [hfind] at h2
          simp at h2
        · intro hs
          exact absurd hs hstop
      | cons e pre1 =>
        simp only [List.cons_append, List.cons.injEq] at h
        exact ih _ _ _ _ _ hfuel2 h.2

/-- C28. Termination and stopping rule of the fetch loop: let the priority fetch succeed and
let the store answer every remainder fetch, with an empty page from the offset `n` on (`n`
the number of matching records). Then `defaultBooks` answers with success as soon as the
bound on the number of fetches exceeds `n`; every fetch it issues asks for the offset that
is the total number of records fetched before it; and a fetch is the last one exactly when,
at its end, its page was empty or the window was filled (`resultIndex ≥ first + count`). -/
theorem fetch_loop_terminates (find : Query → Option (List Record)) (params : Params)
    (S : List Record) (n : Nat) (page : Nat → List Record) (fuel : Nat)
    (hS : find (featuredBooksQuery params) = some S)
    (hfind : ∀ skip, find (allBooksQuery params skip) = some (page skip))
    (hempty : ∀ skip, n ≤ skip → page skip = [])
    (hfuel : n < fuel) :
    (∃ results, defaultBooks find params fuel = some (Response.success results)) ∧
    remainderFetches find params fuel ≠ [] ∧
    (∀ pre f post, remainderFetches find params fuel = pre ++ f :: post →
      f.skip = (pre.map (fun g => (g.page.getD []).length)).sum ∧
      (post = [] ↔
        ((f.page.getD []).length = 0 ∨ f.resultIndex ≥ params.first + params.count))) := by
  refine ⟨?_, ?_, ?_⟩
  · unfold defaultBooks
    rw [hS]
    exact runQuery_terminates find params n page hfind hempty fuel 0 _ (by omega)
  · unfold remainderFetches
    rw [hS]
    obtain ⟨k, rfl⟩ : ∃ k, fuel = k + 1 := ⟨fuel - 1, by omega⟩
    simp only []
    unfold runQueryLog
    rw [hfind 0]
    simp
  · intro pre f post h
    unfold remainderFetches at h
    rw [hS] at h
    simp only [] at h
    constructor
    · have h1 := runQueryLog_skips find params fuel 0 _ pre post f h
      omega
    · exact runQueryLog_stop find params n page hfind hempty fuel 0 _ pre post f (by omega) h

/-- Witness of C28: over the five books, two per fetch, the window (1, 3) is filled at the
end of the second fetch; the fetches asked for the offsets 0 and 2. -/
theorem fetch_loop_terminates_witness :
    ((∃ results, defaultBooks (catalogStore 2 fiveBooks) (paramsOf 1 3) 6
        = some (Response.success results)) ∧
      remainderFetches (catalogStore 2 fiveBooks) (paramsOf 1 3) 6 ≠ [] ∧
      (∀ pre f post, remainderFetches (catalogStore 2 fiveBooks) (paramsOf 1 3) 6
          = pre ++ f :: post →
        f.skip = (pre.map (fun g => (g.page.getD []).length)).sum ∧
        (post = [] ↔
          ((f.page.getD []).length = 0 ∨
            f.resultIndex ≥ (paramsOf 1 3).first + (paramsOf 1 3).count)))) ∧
    (remainderFetches (catalogStore 2 fiveBooks) (paramsOf 1 3) 6).map Fetch.skip = [0, 2] ∧
    (remainderFetches (catalogStore 2 fiveBooks) (paramsOf 1 3) 6).map Fetch.resultIndex
      = [2, 4] :=
  ⟨fetch_loop_terminates (catalogStore 2 fiveBooks) (paramsOf 1 3)
    [titled "Alpha" ["bookshelf:Featured"], titled "Beta" ["bookshelf:Featured"]] 5
    (fun skip => (fiveBooks.drop skip).take 2) 6 (by decide) (fun skip => rfl)
    (fun skip h => by
      have h5 : fiveBooks.length ≤ skip := h
      show (fiveBooks.drop skip).take 2 = []
      rw [List.drop_eq_nil_of_le h5]
      rfl)
    (by decide), by decide, by decide⟩

/-! ## The job when a store operation fails -/

/-- C27. Aggregation abort: when the fetch of the books fails, or the fetch of the languages
fails, or the bulk save fails, the job issues no bulk delete and ends with `res.error`. In the
first two cases it has written nothing; in the third the bulk save it issued for all fetched
languages stands: the job issues no further store operation after it, so nothing is rolled
back. -/
theorem aggregation_abort (store : JobStore) :
    (store.findBooks bookQuery = none →
      updateLanguageRecords store =
        { finds := [bookQuery], saved := none, destroyed := none, succeeded := false }) ∧
    (∀ books, store.findBooks bookQuery = some books →
      store.findLanguages langQuery = none →
      updateLanguageRecords store =
        { finds := [bookQuery, langQuery], saved := none, destroyed := none,
          succeeded := false }) ∧
    (∀ books languages, store.findBooks bookQuery = some books →
      store.findLanguages langQuery = some languages →
      store.saveAll (languages.map (withReferences books)) = false →
      updateLanguageRecords store =
        { finds := [bookQuery, langQuery],
          saved := some (languages.map (withReferences books)),
          destroyed := none, succeeded := false }) := by
  refine ⟨?_, ?_, ?_⟩
  · intro h
    unfold updateLanguageRecords
    rw [h]
  · intro books hb hl
    unfold updateLanguageRecords
    rw [hb]
    simp only []
    rw [hl]
  · intro books languages hb hl hs
    have hmap : languages.map
        (fun l => { l with usageCount := some (newUsageCount (countBooks books) l) }) =
        languages.map (withReferences books) := by
      apply List.map_congr_left
      intro l _
      rw [newUsageCount_eq]
      rfl
    unfold updateLanguageRecords
    simp only [hb, hl, setUsageCounts_eq, hmap, hs]
    rfl

/-- Witness of C27: with a failing bulk save the job has issued the save, issues no delete
and ends with the error; with a failing language fetch it writes nothing. -/
theorem aggregation_abort_witness :
    updateLanguageRecords brokenSaveStore =
      { finds := [bookQuery, langQuery],
        saved := some ([languageOf "A", languageOf "B"].map (withReferences threeBooks)),
        destroyed := none, succeeded := false } ∧
    updateLanguageRecords brokenFetchStore =
      { finds := [bookQuery, langQuery], saved := none, destroyed := none,
        succeeded := false } :=
  ⟨(aggregation_abort brokenSaveStore).2.2 threeBooks [languageOf "A", languageOf "B"]
     (by decide) (by decide) (by decide),
   (aggregation_abort brokenFetchStore).2.1 threeBooks (by decide) (by decide)⟩

/-! ## Lowercasing the search string -/

theorem toLower_idem (c : Char) : c.toLower.toLower = c.toLower := by
  by_cases h : 65 ≤ c.toNat ∧ c.toNat ≤ 90
  · have h1 : c.toLower = Char.ofNat (c.toNat + 32) := by
      unfold Char.toLower
      simp only [ge_iff_le, h, and_self, if_true]
    rw [h1]
    obtain ⟨ha, hb⟩ := h
    generalize c.toNat = n at ha hb
    interval_cases n <;> rfl
  · have h1 : c.toLower = c := by
      unfold Char.toLower
      simp only [ge_iff_le, h, if_false]
    rw [h1, h1]

theorem asciiLowerCase_fixed (s : String) (c : Char) (h : c ∈ (asciiLowerCase s).data) :
    asciiLowerCase (String.mk [c]) = String.mk [c] := by
  unfold asciiLowerCase at h ⊢
  simp only [List.mem_map] at h
  obtain ⟨d, -, hd⟩ := h
  rw [← hd]
  simp only [List.map_cons, List.map_nil, toLower_idem]

theorem asciiLowerCase_of_fixed (s : String)
    (h : ∀ c ∈ s.data, asciiLowerCase (String.mk [c]) = String.mk [c]) :
    asciiLowerCase s = s := by
  unfold asciiLowerCase at h ⊢
  apply String.ext
  show s.data.map Char.toLower = s.data
  have h2 : ∀ c ∈ s.data, Char.toLower c = c := by
    intro c hc
    have h3 := congrArg String.data (h c hc)
    simpa using h3
  calc s.data.map Char.toLower = s.data.map id := List.map_congr_left h2
    _ = s.data := List.map_id _

theorem mem_concat_data (l : List String) (c : Char) (h : c ∈ (concat l).data) :
    ∃ x ∈ l, c ∈ x.data := by
  induction l with
  | nil => simp [concat] at h
  | cons x xs ih =>
    simp only [concat, String.data_append, List.mem_append] at h
    rcases h with h | h
    · exact ⟨x, List.mem_cons_self _ _, h⟩
    · obtain ⟨y, hy, hc⟩ := ih h
      exact ⟨y, List.mem_cons_of_mem _ hy, hc⟩

/-- C29. The search string as the code computes it: whenever the update source resolves to a
string the hook succeeds and stores as `search` the lowercased title (the empty string when
the title is absent) followed, for each tag seen by the loop, in order, with `topic:` put in
front when it has no colon, that does not start with `system:`, by a space and the lowercased
text after the first colon of the tag. This holds for every lowercasing function.
Consequently lowercasing the stored search string leaves it unchanged, for every
lowercasing that, like the one of JavaScript, leaves unchanged every character it returns
in a lowercased string, every string made of characters it leaves unchanged, and the
space. -/
theorem search_code_level (toLowerCase : String → String) (request : Request) (src : String)
    (hsrc : (resolveUpdateSource request).1 = some src) :
    ∃ out search, beforeSave toLowerCase request = Except.ok out ∧ out.search = some search ∧
      search = toLowerCase (request.object.title.getD "") ++
        concat (((((prepared src request).tags.getD []).map withTopic).filter
          (fun t => !startsWith t "system:")).map
            (fun t => " " ++ toLowerCase (substr t (indexOf t ":" + 1)))) ∧
      ((∀ (s : String) (c : Char), c ∈ (toLowerCase s).data →
          toLowerCase (String.mk [c]) = String.mk [c]) →
        (∀ s : String, (∀ c ∈ s.data, toLowerCase (String.mk [c]) = String.mk [c]) →
          toLowerCase s = s) →
        toLowerCase " " = " " →
        toLowerCase search = search) := by
  refine ⟨_, _, beforeSave_ok request src hsrc, normalize_search _ _ _, ?_, ?_⟩
  · rw [map_searchToken, prepared_title]
  · intro hfixed hstring hspace
    apply hstring
    intro c hc
    rw [String.data_append, List.mem_append] at hc
    rcases hc with hc | hc
    · exact hfixed _ c hc
    · obtain ⟨x, hx, hcx⟩ := mem_concat_data _ c hc
      rw [List.mem_map] at hx
      obtain ⟨t, -, ht⟩ := hx
      rw [← ht] at hcx
      unfold searchToken at hcx
      rw [String.data_append, List.mem_append] at hcx
      rcases hcx with h | h
      · have hsp : c = ' ' := by simpa using h
        rw [hsp]
        exact hspace
      · exact hfixed _ c h

/-- Witness of C29: for the upload `shelfUpload`, with the title `Health in Asia`, the hook
stores `health in asia featured asia health`, which lowercasing leaves unchanged. -/
theorem search_code_level_witness :
    (∃ out search, beforeSave asciiLowerCase shelfUpload = Except.ok out ∧
      out.search = some search ∧
      search = asciiLowerCase (shelfUpload.object.title.getD "") ++
        concat (((((prepared "BloomDesktop 4.7" shelfUpload).tags.getD []).map withTopic).filter
          (fun t => !startsWith t "system:")).map
            (fun t => " " ++ asciiLowerCase (substr t (indexOf t ":" + 1)))) ∧
      asciiLowerCase search = search) ∧
    (beforeSave asciiLowerCase shelfUpload).toOption.map Book.search
      = some (some "health in asia featured asia health") ∧
    asciiLowerCase "Health in Asia" = "health in asia" := by
  obtain ⟨out, search, h1, h2, h3, h4⟩ :=
    search_code_level asciiLowerCase shelfUpload "BloomDesktop 4.7" (by decide)
  exact ⟨⟨out, search, h1, h2, h3,
    h4 asciiLowerCase_fixed asciiLowerCase_of_fixed (by decide)⟩, by decide, by decide⟩

/-! ## The Featured shelf over normalised records -/

theorem featured_holds_tags (params : Params) (r : Record)
    (h : (featuredBooksQuery params).constraints.holds r = true) :
    (r.tags.getD []).contains "bookshelf:Featured" = true := by
  rw [featuredBooksQuery_holds] at h
  have h3 := (Bool.and_eq_true_iff.1 h).2
  have h1 : allLicenses { params with allLicenses := Param.bool true } = true := rfl
  unfold featuredBooksQuery at h3
  simp only [h1, if_true] at h3
  split_ifs at h3 <;>
    simp [Query.constrain, Query.new, Constraints.holds] at h3 <;>
    simp [h3]

theorem hook_tags_not_featured {toLowerCase : String → String} (request : Request) (out : Book)
    (h : beforeSave toLowerCase request = Except.ok out) :
    (out.tags.getD []).contains "bookshelf:Featured" = false := by
  obtain ⟨src, -, hout⟩ := beforeSave_ok_inv request out h
  rw [hout, normalize_tags]
  by_contra hc
  have hc2 : "bookshelf:Featured" ∈ keptTags ((prepared src request).tags.getD []) := by
    simpa using hc
  have h3 := (mem_keptTags _ _ hc2).2
  revert h3
  decide

/-- C30. The Featured shelf and the hook: a record whose tags are the tags stored by a
successful run of the books `beforeSave` hook does not carry the tag `bookshelf:Featured`
and does not satisfy the constraints of the query for the Featured shelf. Hence over a store
that holds a catalog of such records and serves at least one record per fetch, the fetch of
the shelf returns no record and `defaultBooks`, given more fetches than the catalog has
records, answers with exactly the window `drop(first).take(count)` of the records, in the
order of the titles, that satisfy the constraints of the query for all books. -/
theorem featured_shelf_consistency (toLowerCase : String → String) :
    (∀ (request : Request) (out : Book) (r : Record) (params : Params),
      beforeSave toLowerCase request = Except.ok out → r.tags = out.tags →
      (r.tags.getD []).contains "bookshelf:Featured" = false ∧
      (featuredBooksQuery params).constraints.holds r = false) ∧
    (∀ (cap : Nat) (catalog : List Record) (params : Params) (fuel : Nat), 1 ≤ cap →
      (∀ r ∈ catalog, ∃ request out, beforeSave toLowerCase request = Except.ok out ∧ r.tags = out.tags) →
      catalog.length < fuel →
      catalogStore cap catalog (featuredBooksQuery params) = some [] ∧
      defaultBooks (catalogStore cap catalog) params fuel =
        some (Response.success
          (((catalog.filter (allBooksQuery params 0).constraints.holds).drop params.first).take
            params.count))) := by
  have key : ∀ (request : Request) (out : Book) (r : Record) (params : Params),
      beforeSave toLowerCase request = Except.ok out → r.tags = out.tags →
      (r.tags.getD []).contains "bookshelf:Featured" = false ∧
      (featuredBooksQuery params).constraints.holds r = false := by
    intro request out r params h ht
    have h1 : (r.tags.getD []).contains "bookshelf:Featured" = false := by
      rw [ht]
      exact hook_tags_not_featured request out h
    refine ⟨h1, ?_⟩
    by_contra hc
    have h2 := featured_holds_tags params r (by simpa using hc)
    rw [h1] at h2
    exact Bool.false_ne_true h2
  refine ⟨key, ?_⟩
  intro cap catalog params fuel hcap hcat hfuel
  have hS : catalogStore cap catalog (featuredBooksQuery params) = some [] := by
    have hf : catalog.filter (featuredBooksQuery params).constraints.holds = [] := by
      rw [List.filter_eq_nil_iff]
      intro r hr
      obtain ⟨request, out, h, ht⟩ := hcat r hr
      rw [(key request out r params h ht).2]
      exact Bool.false_ne_true
    unfold catalogStore
    rw [hf]
    simp
  refine ⟨hS, ?_⟩
  have hA : ∀ skip, catalogStore cap catalog (allBooksQuery params skip) =
      some (((catalog.filter (allBooksQuery params 0).constraints.holds).drop skip).take
        (min cap 100)) := by
    intro skip
    obtain ⟨h1, h2, h3⟩ := allBooksQuery_skip params skip
    unfold catalogStore
    rw [h1, h2, h3]
    rfl
  have hlen : (catalog.filter (allBooksQuery params 0).constraints.holds).length < fuel :=
    lt_of_le_of_lt (List.length_filter_le _ _) hfuel
  unfold defaultBooks
  rw [hS]
  have h := runQuery_paged (catalogStore cap catalog) params []
    (catalog.filter (allBooksQuery params 0).constraints.holds) [] (min cap 100)
    (by omega) hA fuel 0 { results := [], resultIndex := 0, shelfIds := [] }
    (by omega) (by simp [window]) (by simp) rfl
  simp only [List.foldl_nil]
  rw [h]
  simp [window]

/-- Witness of C30: the tags stored for `shelfSave`, sent with `bookshelf:Featured`, do not
contain that tag; over three records with these tags, served two per fetch, the shelf is
empty and the window (1, 2) is Beta, Charlie. -/
theorem featured_shelf_consistency_witness :
    ((normalised "Alpha").tags.getD []).contains "bookshelf:Featured" = false ∧
    (featuredBooksQuery (paramsOf 1 2)).constraints.holds (normalised "Alpha") = false ∧
    catalogStore 2 [normalised "Alpha", normalised "Beta", normalised "Charlie"]
      (featuredBooksQuery (paramsOf 1 2)) = some [] ∧
    defaultBooks (catalogStore 2 [normalised "Alpha", normalised "Beta", normalised "Charlie"])
      (paramsOf 1 2) 4 =
        some (Response.success [normalised "Beta", normalised "Charlie"]) :=
  ⟨((featured_shelf_consistency asciiLowerCase).1 shelfSave shelfSaved (normalised "Alpha") (paramsOf 1 2)
      (by decide) (by decide)).1,
   ((featured_shelf_consistency asciiLowerCase).1 shelfSave shelfSaved (normalised "Alpha") (paramsOf 1 2)
      (by decide) (by decide)).2,
   ((featured_shelf_consistency asciiLowerCase).2 2 [normalised "Alpha", normalised "Beta", normalised "Charlie"]
      (paramsOf 1 2) 4 (by decide)
      (fun r hr => ⟨shelfSave, shelfSaved, by decide, by
        simp only [List.mem_cons, List.mem_singleton, List.not_mem_nil, or_false] at hr
        rcases hr with h | h | h <;> rw [h] <;> rfl⟩)
      (by decide)).1,
   ((featured_shelf_consistency asciiLowerCase).2 2 [normalised "Alpha", normalised "Beta", normalised "Charlie"]
      (paramsOf 1 2) 4 (by decide)
      (fun r hr => ⟨shelfSave, shelfSaved, by decide, by
        simp only [List.mem_cons, List.mem_singleton, List.not_mem_nil, or_false] at hr
        rcases hr with h | h | h <;> rw [h] <;> rfl⟩)
      (by decide)).2⟩

/-! ## The tag table after a save -/

theorem observedFrom_sub (sees : Nat → Bool) :
    ∀ (created : List TagRecord) (j : Nat), ∀ r ∈ observedFrom sees j created, r ∈ created := by
  intro created
  induction created with
  | nil => intro j r hr; simp [observedFrom] at hr
  | cons c rest ih =>
    intro j r hr
    unfold observedFrom at hr
    split_ifs at hr
    · rcases List.mem_cons.1 hr with h | h
      · rw [h]; exact List.mem_cons_self _ _
      · exact List.mem_cons_of_mem _ (ih _ r h)
    · exact List.mem_cons_of_mem _ (ih _ r hr)

theorem countByName_eq_zero (records : List TagRecord) (name : String) :
    countByName records name = 0 ↔ ∀ t ∈ records, t.name ≠ some name := by
  unfold countByName
  rw [List.length_eq_zero, List.filter_eq_nil_iff]
  constructor
  · intro h t ht hn
    exact h t ht (by simp [hn])
  · intro h t ht hn
    exact h t ht (by simpa using hn)

theorem countCallback_grows (sched : Schedule) (table : List TagRecord) (tags : List String)
    (created : List TagRecord) (i : Nat) :
    ∀ r ∈ created, r ∈ countCallback sched table tags created i := by
  intro r hr
  unfold countCallback
  cases tags.get? i with
  | none => exact hr
  | some name =>
    simp only []
    split_ifs
    · exact List.mem_append_left _ hr
    · exact hr

theorem syncFold_grows (sched : Schedule) (table : List TagRecord) (tags : List String) :
    ∀ (order : List Nat) (created : List TagRecord),
      ∀ r ∈ created, r ∈ order.foldl (countCallback sched table tags) created := by
  intro order
  induction order with
  | nil => intro created r hr; exact hr
  | cons i rest ih =>
    intro created r hr
    rw [List.foldl_cons]
    exact ih _ r (countCallback_grows sched table tags created i r hr)

theorem countCallback_new (sched : Schedule) (table : List TagRecord) (tags : List String)
    (created : List TagRecord) (i : Nat)
    (hinv : ∀ r ∈ created, ∃ name ∈ tags, r = { name := some name, usageCount := none } ∧
      ∀ t ∈ table, t.name ≠ some name) :
    ∀ r ∈ countCallback sched table tags created i,
      ∃ name ∈ tags, r = { name := some name, usageCount := none } ∧
        ∀ t ∈ table, t.name ≠ some name := by
  intro r hr
  unfold countCallback at hr
  cases hg : tags.get? i with
  | none => rw [hg] at hr; exact hinv r hr
  | some name =>
    rw [hg] at hr
    simp only [] at hr
    split_ifs at hr with hc
    · rcases List.mem_append.1 hr with h | h
      · exact hinv r h
      · rw [List.mem_singleton] at h
        refine ⟨name, List.get?_mem hg, h, ?_⟩
        intro t ht
        exact (countByName_eq_zero _ _).1 hc t (List.mem_append_left _ ht)
    · exact hinv r hr

theorem syncFold_new (sched : Schedule) (table : List TagRecord) (tags : List String) :
    ∀ (order : List Nat) (created : List TagRecord),
      (∀ r ∈ created, ∃ name ∈ tags, r = { name := some name, usageCount := none } ∧
        ∀ t ∈ table, t.name ≠ some name) →
      ∀ r ∈ order.foldl (countCallback sched table tags) created,
        ∃ name ∈ tags, r = { name := some name, usageCount := none } ∧
          ∀ t ∈ table, t.name ≠ some name := by
  intro order
  induction order with
  | nil => intro created hinv r hr; exact hinv r hr
  | cons i rest ih =>
    intro created hinv r hr
    rw [List.foldl_cons] at hr
    exact ih _ (countCallback_new sched table tags created i hinv) r hr

theorem countCallback_has (sched : Schedule) (table : List TagRecord) (tags : List String)
    (created : List TagRecord) (i : Nat) (name : String) (hg : tags.get? i = some name) :
    ∃ r ∈ table ++ countCallback sched table tags created i, r.name = some name := by
  unfold countCallback
  rw [hg]
  simp only []
  split_ifs with hc
  · exact ⟨{ name := some name, usageCount := none },
      List.mem_append_right _ (List.mem_append_right _ (List.mem_singleton_self _)), rfl⟩
  · have h1 : ¬ ∀ t ∈ table ++ observedFrom (sched.sees i) 0 created, t.name ≠ some name :=
      fun h => hc ((countByName_eq_zero _ _).2 h)
    push_neg at h1
    obtain ⟨t, ht, hn⟩ := h1
    refine ⟨t, ?_, hn⟩
    rcases List.mem_append.1 ht with h | h
    · exact List.mem_append_left _ h
    · exact List.mem_append_right _ (observedFrom_sub _ _ _ t h)

theorem syncFold_has (sched : Schedule) (table : List TagRecord) (tags : List String)
    (i : Nat) (name : String) (hg : tags.get? i = some name) :
    ∀ (order : List Nat) (created : List TagRecord), i ∈ order →
      ∃ r ∈ table ++ order.foldl (countCallback sched table tags) created,
        r.name = some name := by
  intro order
  induction order with
  | nil => intro created hi; simp at hi
  | cons j rest ih =>
    intro created hi
    rw [List.foldl_cons]
    rcases List.mem_cons.1 hi with h | h
    · obtain ⟨r, hr, hn⟩ := countCallback_has sched table tags created i name hg
      refine ⟨r, ?_, hn⟩
      rw [← h]
      rcases List.mem_append.1 hr with h2 | h2
      · exact List.mem_append_left _ h2
      · exact List.mem_append_right _ (syncFold_grows sched table tags rest _ r h2)
    · exact ih _ h

theorem afterSave_ok (sched : Schedule) (table : List TagRecord) (book : SavedBook)
    (tags : List String) (htags : book.tags = some tags) :
    afterSave sched table book =
      Except.ok { created := syncTags sched table tags,
                  tagTable := table ++ syncTags sched table tags,
                  emails :=
                    match book.createdAt, book.updatedAt with
                    | some createdAt, some updatedAt =>
                      if !(createdAt != updatedAt) then [book] else []
                    | _, _ => [] } := by
  unfold afterSave
  rw [htags]

theorem beforeSave_stores_tags {toLowerCase : String → String} (request : Request) (out : Book)
    (h : beforeSave toLowerCase request = Except.ok out) : ∃ tags, out.tags = some tags := by
  obtain ⟨src, -, hout⟩ := beforeSave_ok_inv request out h
  rw [hout, normalize_tags]
  exact ⟨_, rfl⟩

/-- C23. Tag synchronisation after a save: for a saved record whose `tags` is an array,
however the store schedules the counts and the saves of the run, the hook ends normally;
the tag table afterwards is the table before followed by the records the run created, so no
record was deleted or changed; every created record carries the name of a tag of the saved
record for which the table before held no record; and, when every count is answered, every
tag of the saved record names a record of the table afterwards. -/
theorem tag_synchronisation (sched : Schedule) (table : List TagRecord) (book : SavedBook)
    (tags : List String) (htags : book.tags = some tags) :
    ∃ run, afterSave sched table book = Except.ok run ∧
      run.tagTable = table ++ run.created ∧
      (∀ r ∈ run.created, ∃ name ∈ tags, r = { name := some name, usageCount := none } ∧
        ∀ t ∈ table, t.name ≠ some name) ∧
      ((∀ i, i < tags.length → i ∈ sched.order) →
        ∀ name ∈ tags, ∃ r ∈ run.tagTable, r.name = some name) := by
  refine ⟨_, afterSave_ok sched table book tags htags, rfl, ?_, ?_⟩
  · exact syncFold_new sched table tags sched.order [] (by simp)
  · intro hall name hname
    obtain ⟨i, hi, hget⟩ := List.getElem_of_mem hname
    have hg : tags.get? i = some name := by
      rw [List.get?_eq_getElem?, List.getElem?_eq_getElem hi, hget]
    exact syncFold_has sched table tags i name hg sched.order [] (hall i hi)

/-- Witness of C23: over a table that holds `topic:nature`, the save of a book tagged
`topic:nature` and `region:Asia` creates the one record `region:Asia`, whether each count
observes the earlier saves or none does. -/
theorem tag_synchronisation_witness :
    (∃ run, afterSave (oneByOne 2) natureTable newFlowers = Except.ok run ∧
      run.tagTable = natureTable ++ run.created ∧
      (∀ r ∈ run.created, ∃ name ∈ ["topic:nature", "region:Asia"],
        r = { name := some name, usageCount := none } ∧
        ∀ t ∈ natureTable, t.name ≠ some name) ∧
      (∀ name ∈ ["topic:nature", "region:Asia"], ∃ r ∈ run.tagTable, r.name = some name)) ∧
    afterSave (oneByOne 2) natureTable newFlowers =
      Except.ok { created := [{ name := some "region:Asia", usageCount := none }],
                  tagTable := [{ name := some "topic:nature", usageCount := some 3 },
                               { name := some "region:Asia", usageCount := none }],
                  emails := [newFlowers] } ∧
    (afterSave (countsFirst 2) natureTable newFlowers).map AfterSaveRun.created =
      Except.ok [{ name := some "region:Asia", usageCount := none }] := by
  obtain ⟨run, h1, h2, h3, h4⟩ :=
    tag_synchronisation (oneByOne 2) natureTable newFlowers ["topic:nature", "region:Asia"] rfl
  exact ⟨⟨run, h1, h2, h3, h4 (by decide)⟩, by decide, by decide⟩

/-! ## The notification of a first save -/

/-- C24. First-creation notification: for a record saved through the `beforeSave` hook,
which stores a `tags` array on every save, the `afterSave` hook ends normally and calls
`sendBookSavedEmailAsync` once, with the saved object, when `createdAt` and `updatedAt`
are the same time, and does not call it otherwise. -/
theorem first_creation_notification (toLowerCase : String → String)
    (sched : Schedule) (table : List TagRecord)
    (request : Request) (out : Book) (book : SavedBook)
    (hsaved : beforeSave toLowerCase request = Except.ok out) (htags : book.tags = out.tags) :
    ∃ run, afterSave sched table book = Except.ok run ∧
      (run.emails = [book] ↔
        ∃ time, book.createdAt = some time ∧ book.updatedAt = some time) ∧
      (run.emails = [book] ∨ run.emails = []) := by
  obtain ⟨tags, ht⟩ := beforeSave_stores_tags request out hsaved
  refine ⟨_, afterSave_ok sched table book tags (by rw [htags, ht]), ?_, ?_⟩
  · cases hc : book.createdAt with
    | none => simp
    | some c =>
      cases hu : book.updatedAt with
      | none => simp
      | some u =>
        by_cases h : c = u
        · simp [h]
        · simp [h, Ne.symm h]
  · cases hc : book.createdAt with
    | none => simp
    | some c =>
      cases hu : book.updatedAt with
      | none => simp
      | some u =>
        by_cases h : c = u
        · simp [h]
        · simp [h]

/-- Witness of C24: the first save of the book of `shelfSave` calls the emailer once, with
that book; the save of the same book a day later does not call it. -/
theorem first_creation_notification_witness :
    (∃ run, afterSave (oneByOne 1) natureTable createdShelf = Except.ok run ∧
      (run.emails = [createdShelf] ↔
        ∃ time, createdShelf.createdAt = some time ∧ createdShelf.updatedAt = some time) ∧
      (run.emails = [createdShelf] ∨ run.emails = [])) ∧
    (afterSave (oneByOne 1) natureTable createdShelf).map AfterSaveRun.emails =
      Except.ok [createdShelf] ∧
    (afterSave (oneByOne 1) natureTable editedShelf).map AfterSaveRun.emails = Except.ok [] :=
  ⟨first_creation_notification asciiLowerCase (oneByOne 1) natureTable shelfSave shelfSaved createdShelf
    (by decide) (by decide), by decide, by decide⟩

/-! ## What the emailer sends -/

theorem sendEmailAboutBookAsync_calls (env : Env) (api : ApiRequest → Option String)
    (book : EmailBook) (toAddress : Option String) :
    (sendEmailAboutBookAsync env api book toAddress).apiCalls =
      [{ apiKey := env.SENDGRID_API_KEY, toAddress := toAddress,
         substitutions :=
           [(":url", JsValue.text (getBookUrl book)), (":title", book "title"),
            (":uploader", book "uploader"), (":copyright", book "copyright"),
            (":license", book "license")] }] := by
  rfl

/-- C25. The record summary of a notification. On the path of `sendConcernEmail` each of
the four values read from the fetched book (title, copyright, license, and the id used in
the address) is its placeholder when the book lacks the property and the value of the
property otherwise, so a string when the column holds one, and `null`, not the
placeholder, when the column holds `null`; the uploader is the truthy `username`, or else
`unknown uploader`. On the path of the `afterSave` hook no placeholder is put in:
`sendBookSavedEmailAsync` sends the properties of the object it is given as they are,
undefined ones included, and the address of the page ends in the text `undefined` when
`objectId` is undefined. The hook hands it the saved `Parse.Object` itself: for the first
save of a book with a title and a license and without a copyright, all four values are
undefined and the address ends in `undefined`. -/
theorem record_summary_population :
    (∀ (env : Env) (api : ApiRequest → Option String) (sourceBook : FullJSON),
      (sendConcernEmail env api sourceBook).apiCalls.map ApiRequest.substitutions =
        [[(":url", JsValue.text ("http://www.bloomlibrary.org/browse/detail/" ++
            (assigned "unknownBookId" sourceBook.objectId).toText)),
          (":title", assigned "unknown title" sourceBook.title),
          (":uploader",
            match sourceBook.uploader with
            | some uploader =>
              if uploader.username.truthy then uploader.username
              else JsValue.text "unknown uploader"
            | none => JsValue.text "unknown uploader"),
          (":copyright", assigned "unknown copyright" sourceBook.copyright),
          (":license", assigned "unknown license" sourceBook.license)]]) ∧
    (∀ (placeholder text : String),
      assigned placeholder JsValue.undefined = JsValue.text placeholder ∧
      assigned placeholder (JsValue.text text) = JsValue.text text ∧
      assigned placeholder JsValue.null = JsValue.null) ∧
    (∀ (env : Env) (api : ApiRequest → Option String) (book : EmailBook),
      (sendBookSavedEmailAsync env api book).apiCalls.map ApiRequest.substitutions =
        [[(":url", JsValue.text ("http://www.bloomlibrary.org/browse/detail/" ++
            (book "objectId").toText)),
          (":title", book "title"), (":uploader", book "uploader"),
          (":copyright", book "copyright"), (":license", book "license")]]) ∧
    (afterSave (oneByOne 2) natureTable newFlowers).map AfterSaveRun.emails =
      Except.ok [newFlowers] ∧
    (sendBookSavedEmailAsync configuredEnv accepting newFlowers.property).apiCalls.map
        ApiRequest.substitutions =
      [[(":url", JsValue.text "http://www.bloomlibrary.org/browse/detail/undefined"),
        (":title", JsValue.undefined), (":uploader", JsValue.undefined),
        (":copyright", JsValue.undefined), (":license", JsValue.undefined)]] ∧
    (sendConcernEmail configuredEnv accepting bareSource).apiCalls.map
        ApiRequest.substitutions =
      [[(":url", JsValue.text "http://www.bloomlibrary.org/browse/detail/bk1"),
        (":title", JsValue.text "Flowers"), (":uploader", JsValue.text "unknown uploader"),
        (":copyright", JsValue.text "unknown copyright"),
        (":license", JsValue.text "unknown license")]] ∧
    (sendConcernEmail configuredEnv accepting nullCopyrightSource).apiCalls.map
        ApiRequest.substitutions =
      [[(":url", JsValue.text "http://www.bloomlibrary.org/browse/detail/bk4"),
        (":title", JsValue.text "T"), (":uploader", JsValue.text "ann"),
        (":copyright", JsValue.null), (":license", JsValue.text "cc-by")]] := by
  refine ⟨?_, ?_, ?_, by decide, by decide, by decide, by decide⟩
  · intro env api sourceBook
    unfold sendConcernEmail
    rw [sendEmailAboutBookAsync_calls]
    simp only [List.map_cons, List.map_nil, getBookUrl, concernBook]
    cases hu : sourceBook.uploader with
    | none => simp
    | some uploader => simp
  · intro placeholder text
    exact ⟨rfl, rfl, rfl⟩
  · intro env api book
    unfold sendBookSavedEmailAsync
    rw [sendEmailAboutBookAsync_calls]
    rfl

/-- C26. No email without configuration: `sendEmailAboutBookAsync` always makes exactly one
SendGrid API call, with the key and the address as they are, also when the key or the
address is undefined or empty; in that case the promise is resolved, by the guard, before
the call is made. On a server without a key the call is made without a key and the promise
is resolved with the text of the first guard, whatever SendGrid answers. -/
theorem unconfigured_email_calls_api :
    (∀ (env : Env) (api : ApiRequest → Option String) (book : EmailBook)
        (toAddress : Option String),
      (sendEmailAboutBookAsync env api book toAddress).apiCalls.map
        (fun request => (request.apiKey, request.toAddress)) =
          [(env.SENDGRID_API_KEY, toAddress)]) ∧
    (∀ (env : Env) (api : ApiRequest → Option String) (book : EmailBook)
        (toAddress : Option String),
      undefinedOrEmpty env.SENDGRID_API_KEY = true ∨ undefinedOrEmpty toAddress = true →
      ∃ value, (sendEmailAboutBookAsync env api book toAddress).settled =
        some (Settled.resolved value)) ∧
    (sendEmailAboutBookAsync noKeyEnv keyChecking newFlowers.property
        (some "events@example.org")).settled =
      some (Settled.resolved "SENDGRID_API_KEY environment variable not set") ∧
    (sendEmailAboutBookAsync noKeyEnv keyChecking newFlowers.property
        (some "events@example.org")).apiCalls.map
        (fun request => (request.apiKey, request.toAddress)) =
      [(none, some "events@example.org")] := by
  refine ⟨?_, ?_, by decide, by decide⟩
  · intro env api book toAddress
    rw [sendEmailAboutBookAsync_calls]
    rfl
  · intro env api book toAddress h
    unfold sendEmailAboutBookAsync
    simp only []
    by_cases hk : undefinedOrEmpty env.SENDGRID_API_KEY = true
    · simp only [hk, if_true, settle]
      split_ifs <;> cases api _ <;> exact ⟨_, rfl⟩
    · have ht : undefinedOrEmpty toAddress = true := h.resolve_left hk
      simp only [hk, ht, if_true, Bool.false_eq_true, if_false, settle]
      cases api _ <;> exact ⟨_, rfl⟩

/-- Witness of C26: without a key and without a recipient alike, the promise is resolved by
a guard and one API call is made. -/
theorem unconfigured_email_calls_api_witness :
    (∃ value, (sendEmailAboutBookAsync noKeyEnv keyChecking newFlowers.property
        (some "events@example.org")).settled = some (Settled.resolved value)) ∧
    (∃ value, (sendEmailAboutBookAsync noRecipientEnv accepting newFlowers.property
        none).settled = some (Settled.resolved value)) ∧
    (sendEmailAboutBookAsync noRecipientEnv accepting newFlowers.property none).apiCalls.length
      = 1 :=
  ⟨unconfigured_email_calls_api.2.1 noKeyEnv keyChecking newFlowers.property
      (some "events@example.org") (Or.inl (by decide)),
   unconfigured_email_calls_api.2.1 noRecipientEnv accepting newFlowers.property none
      (Or.inr (by decide)),
   by decide⟩

end BloomParse
